import Mathlib

/-!
# mod_evasive (Apache 2.4): the named-timestamp table and the access checker

A shallow embedding of `mod_evasive24.c`.

Modelling conventions.

* A C string is the list of its `char` values before the terminating NUL
  (`CStr`); a `char` is an `Int`, so the embedding does not depend on the
  signedness of `char`.
* `time_t`, `long` and `int` values are `Int`; the only arithmetic that can wrap
  in practice is the `unsigned long` accumulator of `ntt_hashcode`, which is
  reduced modulo `2^64` explicitly.
* A chain of `struct ntt_node` linked through `next` is the list of its nodes in
  link order, and `tbl` is the list of the chains.  A node pointer is the pair of
  a bucket index and a position in that bucket's chain (`ntt_ptr`); no operation
  used while pointers are live moves a node, so positions are stable.
* `malloc` and `strdup` are assumed to succeed.  The `count` field of a node
  that was just allocated is never written by `ntt_node_create`/`ntt_insert`;
  its indeterminate content is an explicit argument (`uninit`).
* The clock is read once per request: every `time(NULL)` evaluated while one
  request is processed returns the same second `t`.
* The notification side effects of `access_checker` (marker file, mail, system
  command, logging) do not touch the table and are not modelled.
-/

namespace ModEvasive

/-- Contents of a NUL-terminated C string: the `char` values before the NUL. -/
abbrev CStr := List Int

/-- ASCII text as C string contents. -/
def cstr (s : String) : CStr := s.data.map (fun c => (c.toNat : Int))

/-- Text that `snprintf(buf, n, ...)` leaves in `buf` when the formatted text is
`text`: at most `n - 1` chars are kept. -/
def snprintf (n : Nat) (text : CStr) : CStr := text.take (n - 1)

/-- The `char` value of `'_'`. -/
def us : CStr := [95]

/-! ## NTT data model (`struct ntt_node`, `struct ntt`) -/

/-- A `struct ntt_node` without its `next` link. -/
structure ntt_node where
  key : CStr
  reason : Int
  timestamp : Int
  count : Int
deriving DecidableEq, Repr

/-- The `struct ntt` root: `size`, `items` and the bucket array `tbl`. -/
structure ntt where
  size : Nat
  items : Int
  tbl : List (List ntt_node)
deriving DecidableEq, Repr

/-- A `struct ntt_node *` into a table: bucket index and position in the chain. -/
structure ntt_ptr where
  bucket : Nat
  pos : Nat
deriving DecidableEq, Repr

/-- The chain `ntt->tbl[i]`. -/
def ntt.chain (s : ntt) (i : Nat) : List ntt_node := s.tbl.getD i []

/-- The node a pointer designates, if the pointer is into the table. -/
def ntt.deref (s : ntt) (p : ntt_ptr) : Option ntt_node :=
  (s.chain p.bucket).get? p.pos

/-- All nodes of the table, bucket by bucket, each chain in link order. -/
def ntt.entries (s : ntt) : List ntt_node := s.tbl.flatten

/-- `static unsigned long ntt_prime_list[ntt_num_primes]`. -/
def ntt_prime_list : List Nat :=
  [53, 97, 193, 389, 769,
   1543, 3079, 6151, 12289, 24593,
   49157, 98317, 196613, 393241, 786433,
   1572869, 3145739, 6291469, 12582917, 25165843,
   50331653, 100663319, 201326611, 402653189, 805306457,
   1610612741, 3221225473, 4294967291]

/-- The loop `for (; *key; ++key) val = 5 * val + *key;` on an `unsigned long`. -/
def ntt_hashcode_loop (val : Int) : CStr → Int
  | [] => val
  | c :: key => ntt_hashcode_loop ((5 * val + c) % 18446744073709551616) key

/-- `ntt_hashcode`: `val % ntt->size`. -/
def ntt_hashcode (s : ntt) (key : CStr) : Nat :=
  (ntt_hashcode_loop 0 key % (s.size : Int)).toNat

/-- `ntt_node_create`: `reason = 0`, `timestamp = time(NULL)`, `count` not written. -/
def ntt_node_create (key : CStr) (now uninit : Int) : ntt_node :=
  { key := key, reason := 0, timestamp := now, count := uninit }

/-- Result of `ntt_create`: a table, `NULL`, or a read past the end of
`ntt_prime_list` (undefined behaviour in C). -/
inductive create_result where
  | table (s : ntt)
  | null
  | out_of_bounds
deriving DecidableEq, Repr

/-- The loop `while (ntt_prime_list[i] < size) { i++; }` over the entries that
are left; `none` when `i` runs past the last entry. -/
def ntt_create_scan (size : Nat) : List Nat → Option Nat
  | [] => none
  | p :: rest => if p < size then ntt_create_scan size rest else some p

/-- `ntt_create`.  The `long size` is compared as an `unsigned long`. -/
def ntt_create (size : Int) : create_result :=
  match ntt_create_scan (size % 18446744073709551616).toNat ntt_prime_list with
  | some p => create_result.table { size := p, items := 0, tbl := List.replicate p [] }
  | none => create_result.out_of_bounds

/-- The chain walk shared by `ntt_find`, `ntt_insert` and `ntt_delete`: position
and content of the first node whose key compares equal (`strcmp == 0`). -/
def chain_find (key : CStr) : List ntt_node → Option (Nat × ntt_node)
  | [] => none
  | node :: rest =>
    if key = node.key then some (0, node)
    else match chain_find key rest with
      | some (i, n) => some (i + 1, n)
      | none => none

/-- Apply `f` to the node at position `i` of a chain (a write through a pointer). -/
def chain_modify (f : ntt_node → ntt_node) : Nat → List ntt_node → List ntt_node
  | _, [] => []
  | 0, node :: rest => f node :: rest
  | i + 1, node :: rest => node :: chain_modify f i rest

/-- A write through a node pointer: `p->field = ...`. -/
def ntt_modify (s : ntt) (p : ntt_ptr) (f : ntt_node → ntt_node) : ntt :=
  { s with tbl := s.tbl.set p.bucket (chain_modify f p.pos (s.chain p.bucket)) }

/-- `ntt_find` on a non-null table: the pointer returned and the node it points to. -/
def ntt_find (s : ntt) (key : CStr) : Option (ntt_ptr × ntt_node) :=
  match chain_find key (s.chain (ntt_hashcode s key)) with
  | some (i, node) => some (⟨ntt_hashcode s key, i⟩, node)
  | none => none

/-- `ntt_insert` on a non-null table.  Returns the table afterwards and the
pointer returned.  `now` is the `time(NULL)` read by `ntt_node_create`, `uninit`
the content of the fresh node's `count` field. -/
def ntt_insert (s : ntt) (key : CStr) (timestamp reason : Int) (now uninit : Int) :
    ntt × ntt_ptr :=
  let hash_code := ntt_hashcode s key
  match chain_find key (s.chain hash_code) with
  | some (i, _) =>
    -- `new_node != NULL`: overwrite in place
    (ntt_modify s ⟨hash_code, i⟩
        (fun n => { n with timestamp := timestamp, reason := reason, count := 0 }),
      ⟨hash_code, i⟩)
  | none =>
    let new_node := ntt_node_create key now uninit
    let new_node := { new_node with timestamp := timestamp }
    let new_node := { new_node with reason := reason }
    let new_node := { new_node with timestamp := 0 }
    -- linked after the last node of the chain, or as the head of an empty chain
    ({ s with items := s.items + 1,
              tbl := s.tbl.set hash_code (s.chain hash_code ++ [new_node]) },
      ⟨hash_code, (s.chain hash_code).length⟩)

/-- `ntt_delete` on a non-null table: the table afterwards and the return code. -/
def ntt_delete (s : ntt) (key : CStr) : ntt × Int :=
  let hash_code := ntt_hashcode s key
  match chain_find key (s.chain hash_code) with
  | some (i, _) =>
    ({ s with items := s.items - 1,
              tbl := s.tbl.set hash_code ((s.chain hash_code).eraseIdx i) }, 0)
  | none => (s, -5)

/-! ## Whitelist -/

/-- The text `"WHITELIST_"`. -/
def WHITELIST_ : CStr := [87, 72, 73, 84, 69, 76, 73, 83, 84, 95]

/-- The text `".*.*.*"` and its shorter forms are built from `'.'` and `'*'`. -/
def dot : CStr := [46]

/-- The `char` value of `'*'`. -/
def star : CStr := [42]

/-- One call of `strtok` with the delimiter set `"."` on the text that is left:
the next token and the text after the delimiter that ended it, or `none` (`NULL`)
when only delimiters are left. -/
def strtok_dot (s : CStr) : Option (CStr × CStr) :=
  match s.dropWhile (fun c => c = 46) with
  | [] => none
  | c :: rest =>
    some ((c :: rest).takeWhile (fun c => c ≠ 46),
          ((c :: rest).dropWhile (fun c => c ≠ 46)).drop 1)

/-- The loop of `is_whitelisted` that fills `octet[i]` for the `k` slots that are
left; a slot that is not written keeps the zeros of `memset`. -/
def octet_loop : Nat → CStr → List CStr
  | 0, _ => []
  | k + 1, s =>
    match strtok_dot s with
    | none => List.replicate (k + 1) []
    | some (oct, rest) => (if oct.length ≤ 3 then oct else []) :: octet_loop k rest

/-- The array `octet[4][4]` after the loop. -/
def octets (ip : CStr) : List CStr := octet_loop 4 ip

/-- The four keys `is_whitelisted` probes, in order. -/
def whitelist_keys (ip : CStr) : List CStr :=
  let o0 := (octets ip).getD 0 []
  let o1 := (octets ip).getD 1 []
  let o2 := (octets ip).getD 2 []
  [ snprintf 128 (WHITELIST_ ++ ip),
    snprintf 128 (WHITELIST_ ++ o0 ++ dot ++ star ++ dot ++ star ++ dot ++ star),
    snprintf 128 (WHITELIST_ ++ o0 ++ dot ++ o1 ++ dot ++ star ++ dot ++ star),
    snprintf 128 (WHITELIST_ ++ o0 ++ dot ++ o1 ++ dot ++ o2 ++ dot ++ star) ]

/-- `is_whitelisted` against the table `hit_list`. -/
def is_whitelisted (hit_list : ntt) (ip : CStr) : Bool :=
  (whitelist_keys ip).any (fun hashkey => (ntt_find hit_list hashkey).isSome)

/-- The `whitelist` directive handler: `ntt_insert(hit_list, entry, time(NULL), 0)`. -/
def whitelist (hit_list : ntt) (ip : CStr) (now uninit : Int) : ntt :=
  (ntt_insert hit_list (snprintf 128 (WHITELIST_ ++ ip)) now 0 now uninit).1

/-! ## The access checker -/

/-- The configuration globals read by `access_checker` (C `int`s). -/
structure config where
  uri_count : Int
  uri_interval : Int
  page_count : Int
  page_interval : Int
  site_count : Int
  site_interval : Int
  blocking_period : Int
deriving DecidableEq, Repr

/-- The `DEFAULT_*` values. -/
def default_config : config :=
  { uri_count := 2, uri_interval := 1, page_count := 2, page_interval := 1,
    site_count := 50, site_interval := 1, blocking_period := 10 }

/-- The fields of `request_rec` that `access_checker` reads.  `hostname`, `uri`
and `args` hold the text that `%s` prints for them. -/
structure request_rec where
  prev_null : Bool
  main_null : Bool
  client_ip : CStr
  hostname : CStr
  uri : CStr
  args : CStr
  headers_in : List (CStr × CStr)
deriving DecidableEq, Repr

/-- `has_request_header`: some header has this exact name and a non-empty value. -/
def has_request_header (r : request_rec) (header_name : CStr) : Bool :=
  r.headers_in.any (fun e => decide (e.1 = header_name) && decide (0 < e.2.length))

/-- The header name `"Range"`. -/
def Range : CStr := [82, 97, 110, 103, 101]

/-- Apache's `OK`. -/
def OK : Int := 0

/-- Apache's `HTTP_FORBIDDEN`. -/
def HTTP_FORBIDDEN : Int := 403

/-- The locals `ret` and `reason` of `access_checker` together with the table. -/
structure checker_state where
  hit_list : ntt
  ret : Int
  reason : Int
deriving DecidableEq, Repr

/-- The key of the URI tier: `"%s_%s_%s_%s"` of address, host, uri, args. -/
def uri_key (r : request_rec) : CStr :=
  snprintf 2048 (r.client_ip ++ us ++ r.hostname ++ us ++ r.uri ++ us ++ r.args)

/-- The key of the page tier: `"%s_%s_%s"` of address, host, uri. -/
def page_key (r : request_rec) : CStr :=
  snprintf 2048 (r.client_ip ++ us ++ r.hostname ++ us ++ r.uri)

/-- The key of the site tier: `"%s_SITE"` of the address. -/
def site_key (r : request_rec) : CStr :=
  snprintf 2048 (r.client_ip ++ [95, 83, 73, 84, 69])

/-- One of the three tier blocks of `access_checker` (URI, page, site), which
differ only in the key, the interval and count globals, the reason code, and in
whether the hit is counted (`counted` is `!has_request_header(r, "Range")` for the
URI and page tiers and `true` for the site tier). -/
def tier_check (t : Int) (uninit : CStr → Int) (client_ip hash_key : CStr)
    (interval count code : Int) (counted : Bool) (st : checker_state) : checker_state :=
  match ntt_find st.hit_list hash_key with
  | some (n, node) =>
    let st1 : checker_state :=
      if t - node.timestamp < interval ∧ node.count ≥ count then
        { hit_list := (ntt_insert st.hit_list client_ip t code t (uninit client_ip)).1,
          ret := HTTP_FORBIDDEN, reason := code }
      else if t - node.timestamp ≥ interval then
        { st with hit_list := ntt_modify st.hit_list n (fun x => { x with count := 0 }) }
      else st
    let h1 := ntt_modify st1.hit_list n (fun x => { x with timestamp := t })
    let h2 := if counted then ntt_modify h1 n (fun x => { x with count := x.count + 1 })
              else h1
    { st1 with hit_list := h2 }
  | none =>
    { st with hit_list := (ntt_insert st.hit_list hash_key t 0 t (uninit hash_key)).1 }

/-- The URI block: key `uri_key`, `uri_interval`, `uri_count`, reason 1; the hit is
counted unless the request has a `Range` header. -/
def uri_tier (cfg : config) (t : Int) (uninit : CStr → Int) (r : request_rec)
    (st : checker_state) : checker_state :=
  tier_check t uninit r.client_ip (uri_key r) cfg.uri_interval cfg.uri_count 1
    (!has_request_header r Range) st

/-- The page block: key `page_key`, `page_interval`, `page_count`, reason 2; the hit
is counted unless the request has a `Range` header. -/
def page_tier (cfg : config) (t : Int) (uninit : CStr → Int) (r : request_rec)
    (st : checker_state) : checker_state :=
  tier_check t uninit r.client_ip (page_key r) cfg.page_interval cfg.page_count 2
    (!has_request_header r Range) st

/-- The site block: key `site_key`, `site_interval`, `site_count`, reason 3; the hit
is always counted. -/
def site_tier (cfg : config) (t : Int) (uninit : CStr → Int) (r : request_rec)
    (st : checker_state) : checker_state :=
  tier_check t uninit r.client_ip (site_key r) cfg.site_interval cfg.site_count 3 true st

/-- The three tier blocks in source order, from `ret = OK`, `reason = 0`. -/
def tiers (cfg : config) (t : Int) (uninit : CStr → Int) (r : request_rec)
    (s : ntt) : checker_state :=
  site_tier cfg t uninit r
    (page_tier cfg t uninit r
      (uri_tier cfg t uninit r { hit_list := s, ret := OK, reason := 0 }))

/-- What `access_checker` leaves behind: the table, the value returned and the
reason code that is logged. -/
structure outcome where
  hit_list : Option ntt
  ret : Int
  reason : Int
deriving DecidableEq, Repr

/-- `access_checker`.  `t` is the clock reading, `uninit key` the content of the
`count` field of a node freshly allocated for `key` during this call. -/
def access_checker (cfg : config) (t : Int) (uninit : CStr → Int)
    (hit_list : Option ntt) (r : request_rec) : outcome :=
  match hit_list with
  | none => { hit_list := none, ret := OK, reason := 0 }
  | some s =>
    if r.prev_null && r.main_null then
      if is_whitelisted s r.client_ip then { hit_list := some s, ret := OK, reason := 0 }
      else
        match (ntt_find s r.client_ip).filter
            (fun p => decide (t - p.2.timestamp < cfg.blocking_period)) with
        | some (n, node) =>
          { hit_list := some (ntt_modify s n (fun x => { x with timestamp := t })),
            ret := HTTP_FORBIDDEN, reason := node.reason }
        | none =>
          let st := tiers cfg t uninit r s
          { hit_list := some st.hit_list, ret := st.ret, reason := st.reason }
    else { hit_list := some s, ret := OK, reason := 0 }

/-! ## Predicates used to state the properties -/

/-- Well-formed root: a positive size and a bucket array of that many chains. -/
def ntt_wf (s : ntt) : Prop := 0 < s.size ∧ s.tbl.length = s.size

/-- The node `ntt_insert` leaves under a key that was absent. -/
def fresh_node (key : CStr) (reason uninit : Int) : ntt_node :=
  { key := key, reason := reason, timestamp := 0, count := uninit }

/-- The writes `ntt_insert` makes to a node that was present. -/
def reset_node (timestamp reason : Int) (n : ntt_node) : ntt_node :=
  { n with timestamp := timestamp, reason := reason, count := 0 }

/-- The root with the chain of bucket `b` replaced by `c` and `items` set. -/
def ntt.put (s : ntt) (b : Nat) (c : List ntt_node) (items : Int) : ntt :=
  { s with items := items, tbl := s.tbl.set b c }

/-- The store invariant: the root is well formed, every node sits in the chain of
the bucket its key hashes to, no chain holds a key twice, and `items` counts the
nodes. -/
structure ntt_inv (s : ntt) : Prop where
  wf : ntt_wf s
  placed : ∀ b nd, nd ∈ s.chain b → ntt_hashcode s nd.key = b
  nodup : ∀ b, ((s.chain b).map ntt_node.key).Nodup
  counted : s.items = (s.entries.length : Int)

/-- Tables reachable from `ntt_create` by `ntt_insert`, `ntt_delete`, the
`whitelist` directive and `access_checker`. -/
inductive reachable : ntt → Prop where
  | create (size : Int) (s : ntt) (h : ntt_create size = create_result.table s) : reachable s
  | insert (s : ntt) (key : CStr) (timestamp reason now uninit : Int) (h : reachable s) :
      reachable (ntt_insert s key timestamp reason now uninit).1
  | delete (s : ntt) (key : CStr) (h : reachable s) : reachable (ntt_delete s key).1
  | whitelist (s : ntt) (ip : CStr) (now uninit : Int) (h : reachable s) :
      reachable (whitelist s ip now uninit)
  | access (s s' : ntt) (cfg : config) (t : Int) (uninit : CStr → Int) (r : request_rec)
      (h : reachable s) (hs : (access_checker cfg t uninit (some s) r).hit_list = some s') :
      reachable s'

/-- The three tiers, in the order `access_checker` runs them. -/
inductive tier_id where
  | uri
  | page
  | site
deriving DecidableEq, Repr

/-- The table key a tier uses for a request. -/
def tier_key (r : request_rec) : tier_id → CStr
  | tier_id.uri => uri_key r
  | tier_id.page => page_key r
  | tier_id.site => site_key r

/-- The interval global a tier compares with. -/
def tier_interval (cfg : config) : tier_id → Int
  | tier_id.uri => cfg.uri_interval
  | tier_id.page => cfg.page_interval
  | tier_id.site => cfg.site_interval

/-- The count global a tier compares with. -/
def tier_count (cfg : config) : tier_id → Int
  | tier_id.uri => cfg.uri_count
  | tier_id.page => cfg.page_count
  | tier_id.site => cfg.site_count

/-- The reason code a tier assigns when it fires: index into `reasons`. -/
def tier_code : tier_id → Int
  | tier_id.uri => 1
  | tier_id.page => 2
  | tier_id.site => 3

/-- Whether a tier counts the request: the URI and page tiers skip requests with a
non-empty `Range` header, the site tier counts every request. -/
def tier_counted (r : request_rec) : tier_id → Bool
  | tier_id.uri => !has_request_header r Range
  | tier_id.page => !has_request_header r Range
  | tier_id.site => true

/-- The block of a tier. -/
def tier_block (cfg : config) (t : Int) (uninit : CStr → Int) (r : request_rec) :
    tier_id → checker_state → checker_state
  | tier_id.uri => uri_tier cfg t uninit r
  | tier_id.page => page_tier cfg t uninit r
  | tier_id.site => site_tier cfg t uninit r

/-- A tier fires on the state its block starts from: its entry exists, was seen
less than the interval ago and has reached the count. -/
def tier_fires (cfg : config) (t : Int) (r : request_rec) (tr : tier_id)
    (st : checker_state) : Bool :=
  match ntt_find st.hit_list (tier_key r tr) with
  | some (_, node) =>
    decide (t - node.timestamp < tier_interval cfg tr) && decide (node.count ≥ tier_count cfg tr)
  | none => false

/-- The state the URI block starts from. -/
def start_state (s : ntt) : checker_state := { hit_list := s, ret := OK, reason := 0 }

/-- The address is on hold at time `t`: the test that guards the hold branch. -/
def on_hold (cfg : config) (t : Int) (s : ntt) (ip : CStr) : Bool :=
  ((ntt_find s ip).filter (fun p => decide (t - p.2.timestamp < cfg.blocking_period))).isSome

/-- The hits a block adds to its entry. -/
def hit (counted : Bool) : Int := if counted then 1 else 0

/-- The reason code of the last tier that fires, in the order URI, page, site; 0
when none fires. -/
def last_firing_code (f1 f2 f3 : Bool) : Int :=
  if f3 then 3 else if f2 then 2 else if f1 then 1 else 0

/-- The reason code of the first tier that fires, in the order URI, page, site; 0
when none fires. -/
def first_firing_code (f1 f2 f3 : Bool) : Int :=
  if f1 then 1 else if f2 then 2 else if f3 then 3 else 0

/-- The table a sequence of calls leaves, starting from `ntt_create(53)`. -/
def serve (cfg : config) (t : Int) (uninit : CStr → Int) (r : request_rec) (s : ntt) : ntt :=
  (access_checker cfg t uninit (some s) r).hit_list.getD s

/-- The table has a node under `ip` whose stored reason is `c`. -/
def has_hold_reason (s : ntt) (ip : CStr) (c : Int) : Prop :=
  ∃ n node, ntt_find s ip = some (n, node) ∧ node.reason = c

/-- The node stored under a key, as `ntt_find` sees it. -/
def ntt_get (s : ntt) (k : CStr) : Option ntt_node := (ntt_find s k).map Prod.snd

/-- The firing test of a tier block on the content of its entry. -/
def fires_on (t interval count : Int) (x : Option ntt_node) : Bool :=
  match x with
  | some node => decide (t - node.timestamp < interval) && decide (node.count ≥ count)
  | none => false

/-- What a tier block leaves under its own key: a fresh node when there was none,
otherwise the entry with `timestamp = t` and the hit added to the count, which is
first zeroed when the window has elapsed. -/
def own_update (t interval : Int) (counted : Bool) (key : CStr) (u : Int)
    (x : Option ntt_node) : Option ntt_node :=
  match x with
  | none => some (fresh_node key 0 u)
  | some node =>
    some { node with
      timestamp := t,
      count := (if t - node.timestamp ≥ interval then 0 else node.count) + hit counted }

/-- What a tier block leaves under the bare address: untouched unless the tier
fires, in which case `ntt_insert` resets the node or creates it. -/
def hold_update (t code : Int) (ip : CStr) (u : Int) (fires : Bool)
    (h : Option ntt_node) : Option ntt_node :=
  if fires then
    some (match h with
      | some x => reset_node t code x
      | none => fresh_node ip code u)
  else h

/-- The three tier keys differ from the bare address, and the site key differs
from the URI and page keys. -/
def keys_apart (r : request_rec) : Prop :=
  uri_key r ≠ r.client_ip ∧ page_key r ≠ r.client_ip ∧ site_key r ≠ r.client_ip ∧
    uri_key r ≠ site_key r ∧ page_key r ≠ site_key r

/-- The composite keys of a request fit the 2048-byte buffer `hash_key` without
truncation. -/
def keys_fit (r : request_rec) : Prop :=
  (r.client_ip ++ us ++ r.hostname ++ us ++ r.uri ++ us ++ r.args).length ≤ 2047 ∧
    (r.client_ip ++ [95, 83, 73, 84, 69]).length ≤ 2047

/-- The count of the node under a key is kept or zeroed between two contents. -/
def count_kept (x y : Option ntt_node) : Prop :=
  ∀ a, x = some a → ∃ b, y = some b ∧ (b.count = a.count ∨ b.count = 0)

/-! ## The whitelist keys as the specification words them -/

/-- Specification wording: the components obtained by splitting a text on `'.'`
(every dot separates two components, which may be empty). -/
def spec_split_dot : CStr → List CStr
  | [] => [[]]
  | c :: rest =>
    if c = 46 then [] :: spec_split_dot rest
    else match spec_split_dot rest with
      | [] => [[c]]
      | x :: xs => (c :: x) :: xs

/-- Specification wording: a component longer than 3 characters is replaced by the
empty string. -/
def spec_cap3 (c : CStr) : CStr := if c.length ≤ 3 then c else []

/-- Specification wording: the four keys built from the address and a list of
components; a missing component is the empty string, components beyond the third
do not occur in any key. -/
def spec_keys_of (ip : CStr) (comps : List CStr) : List CStr :=
  let c1 := spec_cap3 (comps.getD 0 [])
  let c2 := spec_cap3 (comps.getD 1 [])
  let c3 := spec_cap3 (comps.getD 2 [])
  [ WHITELIST_ ++ ip,
    WHITELIST_ ++ c1 ++ dot ++ star ++ dot ++ star ++ dot ++ star,
    WHITELIST_ ++ c1 ++ dot ++ c2 ++ dot ++ star ++ dot ++ star,
    WHITELIST_ ++ c1 ++ dot ++ c2 ++ dot ++ c3 ++ dot ++ star ]

/-- Specification wording: the four keys, with the components of a plain split. -/
def spec_whitelist_keys (ip : CStr) : List CStr := spec_keys_of ip (spec_split_dot ip)

/-- The four keys with the non-empty components of the split: empty components
(leading, trailing or doubled dots) are skipped. -/
def token_whitelist_keys (ip : CStr) : List CStr :=
  spec_keys_of ip ((spec_split_dot ip).filter (fun c => decide (c ≠ [])))

/-- The table contains a node with this key, in whatever chain. -/
def ntt_has_key (s : ntt) (k : CStr) : Bool := s.entries.any (fun nd => decide (nd.key = k))

/-! ## Concrete inputs used to exercise the statements -/

/-- The table `ntt_create(53)` returns. -/
def table53 : ntt := { size := 53, items := 0, tbl := List.replicate 53 [] }

/-- The table `ntt_create(53)` returns after one `ntt_insert` of the key `"1"`. -/
def table53_one : ntt := (ntt_insert table53 [49] 5 0 5 7).1

/-- A main request for `/` on host `h` from `1.2.3.4`, no query text, no headers. -/
def req0 : request_rec :=
  { prev_null := true, main_null := true, client_ip := cstr "1.2.3.4", hostname := cstr "h",
    uri := cstr "/", args := [], headers_in := [] }

/-- The request `req0` with a header `Range: bytes=0-1`. -/
def req0_range : request_rec := { req0 with headers_in := [(Range, cstr "bytes=0-1")] }

/-- A table in which `1.2.3.4` has a hold node with reason 1 and timestamp 1000. -/
def held_table : ntt :=
  (ntt_insert (ntt_insert table53 (cstr "1.2.3.4") 1000 1 1000 0).1
    (cstr "1.2.3.4") 1000 1 1000 0).1

/-- A table in which the directive `DOSWhitelist 1.2.3.*` has been processed. -/
def white_table : ntt := whitelist table53 (cstr "1.2.3.*") 1000 0

/-- The table after three requests `req0` in second 1000, starting from
`ntt_create(53)`; fresh `count` fields hold 7. -/
def warm_table : ntt :=
  serve default_config 1000 (fun _ => 7) req0
    (serve default_config 1000 (fun _ => 7) req0
      (serve default_config 1000 (fun _ => 7) req0 table53))

/-- The request `req0` with query text `q`. -/
def req_q (q : CStr) : request_rec := { req0 with args := q }

/-- The table after the requests `/?a`, `/?b`, `/?c` in second 1000, starting from
`ntt_create(53)`; fresh `count` fields hold 7. -/
def page_warm_table : ntt :=
  serve default_config 1000 (fun _ => 7) (req_q [99])
    (serve default_config 1000 (fun _ => 7) (req_q [98])
      (serve default_config 1000 (fun _ => 7) (req_q [97]) table53))

/-- The default configuration with the page limit raised to 5, so that of the URI
and page tiers only the URI tier can fire within four requests. -/
def uri_only_config : config := { default_config with page_count := 5 }

/-- The address text `1..2.3`, which has an empty second component. -/
def ip_empty_component : CStr := cstr "1..2.3"

/-- A table in which the directive `DOSWhitelist 1.2.*.*` has been processed. -/
def white_table_12 : ntt := whitelist table53 (cstr "1.2.*.*") 1000 0

/-- An address text of 118 chars `a`. -/
def ip_long : CStr := List.replicate 118 97

/-- A table in which the directive `DOSWhitelist` with the text `ip_long` has been
processed (the key is cut to 127 chars by `snprintf`). -/
def white_table_long : ntt := whitelist table53 ip_long 1000 0

/-! ## Configuration setters -/

/-- Conversion of a `long` to `int` on an LP64 platform: the value is reduced
modulo `2^32` into the range of `int`. -/
def long_to_int (n : Int) : Int := (n + 2147483648) % 4294967296 - 2147483648

/-- Conversion of a `long` to `unsigned long`: reduction modulo `2^64`. -/
def long_to_ulong (n : Int) : Int := n % 18446744073709551616

/-- `get_hash_tbl_size`: the value left in `hash_table_size` (an `unsigned long`)
when `strtol` returned `n`. -/
def get_hash_tbl_size (n : Int) : Int := if n ≤ 0 then 3097 else long_to_ulong n

/-- `get_uri_count`: the value left in `uri_count` (an `int`). -/
def get_uri_count (n : Int) : Int := if n ≤ 0 then 2 else long_to_int n

/-- `get_page_count`: the value left in `page_count` (an `int`). -/
def get_page_count (n : Int) : Int := if n ≤ 0 then 2 else long_to_int n

/-- `get_site_count`: the value left in `site_count` (an `int`). -/
def get_site_count (n : Int) : Int := if n ≤ 0 then 50 else long_to_int n

/-- `get_uri_interval`: the value left in `uri_interval` (an `int`). -/
def get_uri_interval (n : Int) : Int := if n ≤ 0 then 1 else long_to_int n

/-- `get_page_interval`: the value left in `page_interval` (an `int`). -/
def get_page_interval (n : Int) : Int := if n ≤ 0 then 1 else long_to_int n

/-- `get_site_interval`: the value left in `site_interval` (an `int`). -/
def get_site_interval (n : Int) : Int := if n ≤ 0 then 1 else long_to_int n

/-- `get_blocking_period`: the value left in `blocking_period` (an `int`). -/
def get_blocking_period (n : Int) : Int := if n ≤ 0 then 10 else long_to_int n

/-- Specification wording of the hash: fold `h := 5 * h + byte` over the key from
`h = 0` in unsigned 64-bit arithmetic. -/
def spec_hash_fold (key : CStr) : Int :=
  key.foldl (fun h c => (5 * h + c) % 18446744073709551616) 0

/-! ## The cursor and the destructor -/

/-- A `struct ntt_node *` that is only followed through `next`: the part of its
chain from the node it points to on; `[]` is `NULL`.  This is what the pointer
gives access to as long as none of those nodes is unlinked or freed. -/
abbrev node_ref := List ntt_node

/-- `struct ntt_c`: the cursor. -/
structure ntt_c where
  iter_index : Nat
  iter_next : node_ref
deriving DecidableEq, Repr

/-- The loop `while (c->iter_index < ntt->size)` of `c_ntt_next`, started with
`iter_index = i`; at most `ntt->size - i` rounds are possible and `fuel` bounds
them.  Returns the node returned and the cursor afterwards. -/
def c_ntt_scan (s : ntt) : Nat → Nat → node_ref × ntt_c
  | 0, i => ([], { iter_index := i, iter_next := [] })
  | fuel + 1, i =>
    if i < s.size then
      match s.chain i with
      | [] => c_ntt_scan s fuel (i + 1)
      | node :: rest => (node :: rest, { iter_index := i + 1, iter_next := rest })
    else ([], { iter_index := i, iter_next := [] })

/-- `c_ntt_next` on a non-null table: the node returned and the cursor afterwards. -/
def c_ntt_next (s : ntt) (c : ntt_c) : node_ref × ntt_c :=
  match c.iter_next with
  | node :: rest => (node :: rest, { c with iter_next := rest })
  | [] => c_ntt_scan s (s.size - c.iter_index) c.iter_index

/-- `c_ntt_first`: reset the cursor, then `c_ntt_next`. -/
def c_ntt_first (s : ntt) : node_ref × ntt_c :=
  c_ntt_next s { iter_index := 0, iter_next := [] }

/-- Calling `c_ntt_next` until it returns `NULL`, starting with the node `node`
already returned: the nodes returned, or `none` when `fuel` calls did not reach
`NULL`. -/
def iterate_loop (s : ntt) : Nat → node_ref → ntt_c → Option (List ntt_node)
  | 0, _, _ => none
  | _ + 1, [], _ => some []
  | fuel + 1, node :: _, c =>
    (iterate_loop s fuel (c_ntt_next s c).1 (c_ntt_next s c).2).map (fun l => node :: l)

/-- `c_ntt_first`, then `c_ntt_next` until it returns `NULL`. -/
def iterate (s : ntt) (fuel : Nat) : Option (List ntt_node) :=
  iterate_loop s fuel (c_ntt_first s).1 (c_ntt_first s).2

/-- The nodes the cursor has still to return. -/
def pending (s : ntt) (c : ntt_c) : List ntt_node :=
  c.iter_next ++ (s.tbl.drop c.iter_index).flatten

/-- How the loop of `ntt_destroy` ends: it reaches `node == NULL` with the table
`s`; or a pointer that is still needed designates a node that `ntt_delete` has just
unlinked and freed; or `fuel` rounds were not enough. -/
inductive loop_result where
  | done (s : ntt)
  | freed_node_used
  | out_of_fuel
deriving DecidableEq, Repr

/-- The loop `while (node != NULL) { next = c_ntt_next(ntt, &c);
ntt_delete(ntt, node->key); node = next; }`.  After the delete the pointers `next`
and `c.iter_next` (the part of the chain after `next`) are used again; they are
intact when no node they reach carries the deleted key. -/
def destroy_loop : Nat → ntt → ntt_c → node_ref → loop_result
  | 0, _, _, _ => loop_result.out_of_fuel
  | _ + 1, s, _, [] => loop_result.done s
  | fuel + 1, s, c, node :: _ =>
    let next := (c_ntt_next s c).1
    let c1 := (c_ntt_next s c).2
    let s1 := (ntt_delete s node.key).1
    if node.key ∈ next.map ntt_node.key then loop_result.freed_node_used
    else destroy_loop fuel s1 c1 next

/-- What `ntt_destroy` does: it returns `code`, having released the table in the
state `released` (`none` when there was no table); or the loop went wrong. -/
inductive destroy_result where
  | returned (code : Int) (released : Option ntt)
  | freed_node_used
  | out_of_fuel
deriving DecidableEq, Repr

/-- `ntt_destroy`; `fuel` bounds the rounds of its loop. -/
def ntt_destroy (hit_list : Option ntt) (fuel : Nat) : destroy_result :=
  match hit_list with
  | none => destroy_result.returned (-1) none
  | some s =>
    match destroy_loop fuel s (c_ntt_first s).2 (c_ntt_first s).1 with
    | loop_result.done s1 => destroy_result.returned 0 (some s1)
    | loop_result.freed_node_used => destroy_result.freed_node_used
    | loop_result.out_of_fuel => destroy_result.out_of_fuel

/-- The state of the loop of `ntt_destroy` at its head: all buckets before `b` are
empty, the current node is the head of bucket `b`, and the cursor stands behind
it. -/
def at_head (s : ntt) (c : ntt_c) (node : node_ref) : Prop :=
  (node = [] ∧ ∀ j, s.chain j = []) ∨
  (∃ b, b < s.size ∧ c.iter_index = b + 1 ∧ (∀ j, j < b → s.chain j = []) ∧
    s.chain b = node ∧ node ≠ [] ∧ c.iter_next = node.tail)

/-! ## Runs of requests from one address -/

/-- One arrival: the clock reading, the content of fresh `count` fields, and the
request. -/
structure arrival where
  t : Int
  uninit : CStr → Int
  r : request_rec

/-- The values `access_checker` returns for a run of arrivals, the table being
touched by nothing else. -/
def verdicts (cfg : config) : ntt → List arrival → List Int
  | _, [] => []
  | s, a :: rest =>
    (access_checker cfg a.t a.uninit (some s) a.r).ret ::
      verdicts cfg (serve cfg a.t a.uninit a.r s) rest

/-- A run of main requests from the address `ip` whose keys fit the buffer, each
arriving not before and less than `site_interval` after the one before it (the
first after time `tp`). -/
def close_run (cfg : config) (ip : CStr) : Int → List arrival → Prop
  | _, [] => True
  | tp, a :: rest =>
    a.r.client_ip = ip ∧ a.r.prev_null = true ∧ a.r.main_null = true ∧ keys_fit a.r ∧
      tp ≤ a.t ∧ a.t - tp < cfg.site_interval ∧ close_run cfg ip a.t rest

/-- The state of the table that keeps a closely following request denied: the
address has a hold node, and either the hold node was stamped at `tp`, or the site
entry was stamped at `tp` and has reached the site count. -/
def flood_state (cfg : config) (ip : CStr) (tp : Int) (s : ntt) : Prop :=
  ntt_wf s ∧ is_whitelisted s ip = false ∧
  ∃ h, ntt_get s ip = some h ∧
    (h.timestamp = tp ∨
      ∃ g, ntt_get s (snprintf 2048 (ip ++ [95, 83, 73, 84, 69])) = some g ∧
        g.timestamp = tp ∧ g.count ≥ cfg.site_count)

/-- A configuration in which only the site tier can fire early: site count 2, URI
and page counts 100. -/
def site_only_config : config :=
  { default_config with uri_count := 100, page_count := 100, site_count := 2 }

/-- The table after three requests `req0` in second 1000 under `site_only_config`,
starting from `ntt_create(53)`. -/
def site_warm_table : ntt :=
  serve site_only_config 1000 (fun _ => 7) req0
    (serve site_only_config 1000 (fun _ => 7) req0
      (serve site_only_config 1000 (fun _ => 7) req0 table53))

/-! ## Runs of whitelist directives and requests -/

/-- One step of a run: the `whitelist` directive for an address text at clock
reading `now`, or a call of `access_checker` at clock reading `t`. -/
inductive event where
  | addition (ip : CStr) (now : Int)
  | request (t : Int) (r : request_rec)

/-- The value returned and the reason code of every request of a run, in order.
`uninit i key` is the content of the `count` field of the node that is allocated
for `key` while step `i` of the run is processed. -/
def replay (cfg : config) (uninit : Nat → CStr → Int) :
    Nat → ntt → List event → List (Int × Int)
  | _, _, [] => []
  | i, s, event.addition ip now :: rest =>
    replay cfg uninit (i + 1)
      (whitelist s ip now (uninit i (snprintf 128 (WHITELIST_ ++ ip)))) rest
  | i, s, event.request t r :: rest =>
    ((access_checker cfg t (uninit i) (some s) r).ret,
      (access_checker cfg t (uninit i) (some s) r).reason) ::
      replay cfg uninit (i + 1) (serve cfg t (uninit i) r s) rest

/-- The clock reading of a request has reached the three intervals. -/
def past_intervals (cfg : config) : event → Prop
  | event.addition _ _ => True
  | event.request t _ =>
    cfg.uri_interval ≤ t ∧ cfg.page_interval ≤ t ∧ cfg.site_interval ≤ t

/-- A key that no tier block can use: it has no `'_'` and is shorter than the 2047
chars of a truncated composite key. -/
def bare_key (k : CStr) : Prop := 95 ∉ k ∧ k.length ≤ 2046

/-- The clock reading of a request has reached the blocking period, or the address
text is a bare key. -/
def hold_safe (cfg : config) : event → Prop
  | event.addition _ _ => True
  | event.request t r => cfg.blocking_period ≤ t ∨ bare_key r.client_ip

/-- Two contents of the entry under the key `k` agree in everything that was
assigned: both are missing, or both are present with the same reason and timestamp
and, unless the timestamp is 0 or the key is a bare key, the same count. -/
def same_assigned (k : CStr) (x y : Option ntt_node) : Prop :=
  match x, y with
  | none, none => True
  | some a, some b =>
    a.reason = b.reason ∧ a.timestamp = b.timestamp ∧
      (a.count = b.count ∨ a.timestamp = 0 ∨ bare_key k)
  | _, _ => False

/-- Two tables agree in everything that was assigned, key by key. -/
def tables_agree (s1 s2 : ntt) : Prop :=
  ntt_wf s1 ∧ ntt_wf s2 ∧ ∀ k, same_assigned k (ntt_get s1 k) (ntt_get s2 k)

/-- The default configuration with `DOSBlockingPeriod 2000000000`. -/
def long_hold_config : config := { default_config with blocking_period := 2000000000 }

/-- A main request for `/?q` on host `h` from the address text `ip`. -/
def req_from (ip q : CStr) : request_rec := { req0 with client_ip := ip, args := q }

/-- Five requests `/?a` .. `/?e` from the address text `ip` in second 1700000000. -/
def five_pages (ip : CStr) : List event :=
  [event.request 1700000000 (req_from ip [97]), event.request 1700000000 (req_from ip [98]),
   event.request 1700000000 (req_from ip [99]), event.request 1700000000 (req_from ip [100]),
   event.request 1700000000 (req_from ip [101])]

/-- The table a run leaves. -/
def replay_table (cfg : config) (uninit : Nat → CStr → Int) : Nat → ntt → List event → ntt
  | _, s, [] => s
  | i, s, event.addition ip now :: rest =>
    replay_table cfg uninit (i + 1)
      (whitelist s ip now (uninit i (snprintf 128 (WHITELIST_ ++ ip)))) rest
  | i, s, event.request t r :: rest =>
    replay_table cfg uninit (i + 1) (serve cfg t (uninit i) r s) rest

/-- The test `past_intervals` can be evaluated. -/
instance past_intervals_decidable (cfg : config) (e : event) :
    Decidable (past_intervals cfg e) :=
  match e with
  | event.addition _ _ => isTrue trivial
  | event.request t _ =>
    inferInstanceAs
      (Decidable (cfg.uri_interval ≤ t ∧ cfg.page_interval ≤ t ∧ cfg.site_interval ≤ t))

/-- The test `bare_key` can be evaluated. -/
instance bare_key_decidable (k : CStr) : Decidable (bare_key k) :=
  inferInstanceAs (Decidable (95 ∉ k ∧ k.length ≤ 2046))

/-- The test `hold_safe` can be evaluated. -/
instance hold_safe_decidable (cfg : config) (e : event) : Decidable (hold_safe cfg e) :=
  match e with
  | event.addition _ _ => isTrue trivial
  | event.request t r =>
    inferInstanceAs (Decidable (cfg.blocking_period ≤ t ∨ bare_key r.client_ip))

/-- The run `five_pages` from the address text `1.2.3.4_SITE`, then the request
`req0` (from `1.2.3.4`) in the same second. -/
def collide_run : List event :=
  five_pages (cstr "1.2.3.4_SITE") ++ [event.request 1700000000 req0]

/-- The run `five_pages` from `1.2.3.4`, then the request `req0` in the same second. -/
def plain_run : List event :=
  five_pages (cstr "1.2.3.4") ++ [event.request 1700000000 req0]

/-! # Properties -/

/-! ## Chains -/

theorem chain_find_none_iff (k : CStr) (c : List ntt_node) :
    chain_find k c = none ↔ ∀ nd ∈ c, nd.key ≠ k := by
  induction c with
  | nil => simp [chain_find]
  | cons x rest ih =>
    by_cases hk : k = x.key
    · simp [chain_find, hk]
    · cases hr : chain_find k rest with
      | none =>
        have := ih.mp hr
        simp [chain_find, hk, hr]
        exact ⟨fun h => hk h.symm, this⟩
      | some p =>
        obtain ⟨i, n⟩ := p
        have hne : ¬ ∀ nd ∈ rest, nd.key ≠ k := by
          intro h
          rw [ih.mpr h] at hr
          exact Option.noConfusion hr
        simp only [chain_find, hk, hr, if_false]
        constructor
        · intro h; exact Option.noConfusion h
        · intro h
          exact absurd (fun nd hnd => h nd (List.mem_cons_of_mem _ hnd)) hne

theorem chain_find_some (k : CStr) (c : List ntt_node) (i : Nat) (nd : ntt_node)
    (h : chain_find k c = some (i, nd)) : c.get? i = some nd ∧ nd.key = k := by
  induction c generalizing i with
  | nil => simp [chain_find] at h
  | cons x rest ih =>
    by_cases hk : k = x.key
    · simp [chain_find, hk] at h
      obtain ⟨rfl, rfl⟩ := h
      simp [hk]
    · cases hr : chain_find k rest with
      | none => simp [chain_find, hk, hr] at h
      | some p =>
        obtain ⟨j, n⟩ := p
        simp [chain_find, hk, hr] at h
        obtain ⟨rfl, rfl⟩ := h
        simpa using ih j hr

theorem chain_find_modify (f : ntt_node → ntt_node) (hf : ∀ x, (f x).key = x.key)
    (k : CStr) (j : Nat) (c : List ntt_node) :
    chain_find k (chain_modify f j c) =
      (chain_find k c).map (fun p => (p.1, if p.1 = j then f p.2 else p.2)) := by
  induction c generalizing j with
  | nil => simp [chain_modify, chain_find]
  | cons x rest ih =>
    cases j with
    | zero =>
      by_cases hk : k = x.key
      · simp [chain_modify, chain_find, hk, hf]
      · cases hr : chain_find k rest with
        | none => simp [chain_modify, chain_find, hk, hf, hr]
        | some p => simp [chain_modify, chain_find, hk, hf, hr]
    | succ j =>
      by_cases hk : k = x.key
      · simp [chain_modify, chain_find, hk]
      · cases hr : chain_find k rest with
        | none => simp [chain_modify, chain_find, hk, ih, hr]
        | some p => simp [chain_modify, chain_find, hk, ih, hr]

theorem chain_find_append (k : CStr) (c : List ntt_node) (x : ntt_node) :
    chain_find k (c ++ [x]) =
      match chain_find k c with
      | some p => some p
      | none => if k = x.key then some (c.length, x) else none := by
  induction c with
  | nil => simp [chain_find]
  | cons y rest ih =>
    by_cases hk : k = y.key
    · simp [chain_find, hk]
    · cases hr : chain_find k rest with
      | none =>
        by_cases hx : k = x.key
        · rw [List.cons_append]
          simp only [chain_find, if_neg hk, ih, hr, if_pos hx, List.length_cons]
        · rw [List.cons_append]
          simp only [chain_find, if_neg hk, ih, hr, if_neg hx]
      | some p => simp [chain_find, hk, ih, hr]

theorem chain_modify_length (f : ntt_node → ntt_node) (j : Nat) (c : List ntt_node) :
    (chain_modify f j c).length = c.length := by
  induction c generalizing j with
  | nil => simp [chain_modify]
  | cons x rest ih => cases j <;> simp [chain_modify, ih]

theorem chain_modify_get (f : ntt_node → ntt_node) (j i : Nat) (c : List ntt_node) :
    (chain_modify f j c).get? i = if i = j then (c.get? i).map f else c.get? i := by
  induction c generalizing j i with
  | nil => simp [chain_modify]
  | cons x rest ih =>
    cases j with
    | zero => cases i <;> simp [chain_modify]
    | succ j =>
      cases i with
      | zero => simp [chain_modify]
      | succ i => simpa [chain_modify] using ih j i

theorem chain_modify_keys (f : ntt_node → ntt_node) (hf : ∀ x, (f x).key = x.key)
    (j : Nat) (c : List ntt_node) :
    (chain_modify f j c).map ntt_node.key = c.map ntt_node.key := by
  induction c generalizing j with
  | nil => simp [chain_modify]
  | cons x rest ih => cases j <;> simp [chain_modify, ih, hf]

/-! ## Buckets -/

theorem getD_set_chain (tbl : List (List ntt_node)) (b b' : Nat) (c : List ntt_node) :
    (tbl.set b c).getD b' [] = if b' = b ∧ b < tbl.length then c else tbl.getD b' [] := by
  induction tbl generalizing b b' with
  | nil => simp
  | cons x rest ih =>
    cases b with
    | zero => cases b' <;> simp
    | succ b =>
      cases b' with
      | zero => simp
      | succ b' => simpa using ih b b'


theorem ntt_hashcode_lt (s : ntt) (k : CStr) (h : 0 < s.size) : ntt_hashcode s k < s.size := by
  unfold ntt_hashcode
  have hpos : (0 : Int) < (s.size : Int) := by exact_mod_cast h
  have h1 := Int.emod_lt_of_pos (ntt_hashcode_loop 0 k) hpos
  have h2 := Int.emod_nonneg (ntt_hashcode_loop 0 k) (ne_of_gt hpos)
  omega

theorem ntt_hashcode_congr (s s' : ntt) (k : CStr) (h : s'.size = s.size) :
    ntt_hashcode s' k = ntt_hashcode s k := by
  simp [ntt_hashcode, h]

theorem ntt_modify_size (s : ntt) (p : ntt_ptr) (f : ntt_node → ntt_node) :
    (ntt_modify s p f).size = s.size := rfl

theorem ntt_modify_items (s : ntt) (p : ntt_ptr) (f : ntt_node → ntt_node) :
    (ntt_modify s p f).items = s.items := rfl

theorem ntt_modify_chain (s : ntt) (p : ntt_ptr) (f : ntt_node → ntt_node) (b : Nat) :
    (ntt_modify s p f).chain b =
      if b = p.bucket then chain_modify f p.pos (s.chain b) else s.chain b := by
  unfold ntt_modify ntt.chain
  simp only [getD_set_chain]
  by_cases hb : b = p.bucket
  · rw [hb]
    by_cases hl : p.bucket < s.tbl.length
    · simp only [hl, and_self, if_true]
    · have : s.tbl.getD p.bucket [] = [] := by
        simp [List.getD_eq_getElem?_getD, List.getElem?_eq_none (not_lt.mp hl)]
      simp only [hl, and_false, if_false, if_true, this, chain_modify]
  · simp only [hb, false_and, if_false]

theorem ntt_modify_wf (s : ntt) (p : ntt_ptr) (f : ntt_node → ntt_node) (h : ntt_wf s) :
    ntt_wf (ntt_modify s p f) := by
  unfold ntt_wf ntt_modify at *
  simpa using h

/-- Looking a key up after a write through a pointer that keeps keys. -/
theorem ntt_find_modify (s : ntt) (p : ntt_ptr) (f : ntt_node → ntt_node)
    (hf : ∀ x, (f x).key = x.key) (k : CStr) :
    ntt_find (ntt_modify s p f) k =
      (ntt_find s k).map (fun q => (q.1, if q.1 = p then f q.2 else q.2)) := by
  unfold ntt_find
  rw [ntt_hashcode_congr s (ntt_modify s p f) k rfl, ntt_modify_chain]
  by_cases hb : ntt_hashcode s k = p.bucket
  · rw [if_pos hb, chain_find_modify f hf]
    cases hc : chain_find k (s.chain (ntt_hashcode s k)) with
    | none => simp
    | some q =>
      obtain ⟨i, nd⟩ := q
      obtain ⟨b, j⟩ := p
      simp only [Option.map_some', ntt_ptr.mk.injEq]
      simp only at hb
      by_cases hij : i = j
      · simp [hij, hb]
      · simp [hij]
  · rw [if_neg hb]
    cases hc : chain_find k (s.chain (ntt_hashcode s k)) with
    | none => simp
    | some q =>
      obtain ⟨i, nd⟩ := q
      obtain ⟨b, j⟩ := p
      simp only at hb
      simp [hb]

theorem ntt_find_some (s : ntt) (k : CStr) (p : ntt_ptr) (nd : ntt_node)
    (h : ntt_find s k = some (p, nd)) :
    p.bucket = ntt_hashcode s k ∧ chain_find k (s.chain (ntt_hashcode s k)) = some (p.pos, nd)
      ∧ s.deref p = some nd ∧ nd.key = k := by
  unfold ntt_find at h
  cases hc : chain_find k (s.chain (ntt_hashcode s k)) with
  | none => simp [hc] at h
  | some q =>
    obtain ⟨i, n⟩ := q
    simp only [hc, Option.some.injEq, Prod.mk.injEq] at h
    obtain ⟨rfl, rfl⟩ := h
    have := chain_find_some k _ i n hc
    exact ⟨rfl, rfl, by simpa [ntt.deref] using this.1, this.2⟩

theorem ntt_find_none (s : ntt) (k : CStr) :
    ntt_find s k = none ↔ chain_find k (s.chain (ntt_hashcode s k)) = none := by
  unfold ntt_find
  cases hc : chain_find k (s.chain (ntt_hashcode s k)) with
  | none => simp
  | some q => simp



theorem ntt_insert_of_find_some (s : ntt) (k : CStr) (ts rs now u : Int) (p : ntt_ptr)
    (nd : ntt_node) (h : ntt_find s k = some (p, nd)) :
    ntt_insert s k ts rs now u = (ntt_modify s p (reset_node ts rs), p) := by
  obtain ⟨hb, hc, -, -⟩ := ntt_find_some s k p nd h
  obtain ⟨b, i⟩ := p
  simp only at hb hc
  subst hb
  simp only [ntt_insert, hc]
  rfl

theorem ntt_insert_of_find_none (s : ntt) (k : CStr) (ts rs now u : Int)
    (h : ntt_find s k = none) :
    ntt_insert s k ts rs now u =
      ({ s with items := s.items + 1,
                tbl := s.tbl.set (ntt_hashcode s k)
                  (s.chain (ntt_hashcode s k) ++ [fresh_node k rs u]) },
        ⟨ntt_hashcode s k, (s.chain (ntt_hashcode s k)).length⟩) := by
  rw [ntt_find_none] at h
  simp only [ntt_insert, h]
  rfl

theorem ntt_insert_size (s : ntt) (k : CStr) (ts rs now u : Int) :
    (ntt_insert s k ts rs now u).1.size = s.size := by
  cases h : ntt_find s k with
  | none => rw [ntt_insert_of_find_none s k ts rs now u h]
  | some q => obtain ⟨p, nd⟩ := q; rw [ntt_insert_of_find_some s k ts rs now u p nd h]; rfl

theorem ntt_insert_wf (s : ntt) (k : CStr) (ts rs now u : Int) (hwf : ntt_wf s) :
    ntt_wf (ntt_insert s k ts rs now u).1 := by
  cases h : ntt_find s k with
  | none =>
    rw [ntt_insert_of_find_none s k ts rs now u h]
    unfold ntt_wf at *
    simpa using hwf
  | some q =>
    obtain ⟨p, nd⟩ := q
    rw [ntt_insert_of_find_some s k ts rs now u p nd h]
    exact ntt_modify_wf s p _ hwf

/-- Looking a key up after `ntt_insert`. -/
theorem ntt_find_insert (s : ntt) (k : CStr) (ts rs now u : Int) (hwf : ntt_wf s) (k' : CStr) :
    ntt_find (ntt_insert s k ts rs now u).1 k' =
      if k' = k then
        some ((ntt_insert s k ts rs now u).2,
          match ntt_find s k with
          | some q => reset_node ts rs q.2
          | none => fresh_node k rs u)
      else ntt_find s k' := by
  cases h : ntt_find s k with
  | some q =>
    obtain ⟨p, nd⟩ := q
    rw [ntt_insert_of_find_some s k ts rs now u p nd h]
    show ntt_find (ntt_modify s p (reset_node ts rs)) k' = _
    rw [ntt_find_modify s p (reset_node ts rs) (fun x => rfl)]
    by_cases hk : k' = k
    · subst hk
      simp [h]
    · simp only [if_neg hk]
      cases h' : ntt_find s k' with
      | none => simp
      | some q' =>
        obtain ⟨p', nd'⟩ := q'
        have hne : p' ≠ p := by
          intro hpp
          subst hpp
          have h1 := (ntt_find_some s k' p' nd' h').2.2
          have h2 := (ntt_find_some s k p' nd h).2.2
          rw [h1.1] at h2
          have : nd' = nd := by simpa using h2.1
          subst this
          exact hk (h1.2.symm.trans h2.2)
        simp [hne]
  | none =>
    rw [ntt_insert_of_find_none s k ts rs now u h]
    have hlt : ntt_hashcode s k < s.tbl.length := by
      rw [hwf.2]; exact ntt_hashcode_lt s k hwf.1
    rw [ntt_find_none] at h
    unfold ntt_find
    simp only [ntt.chain, getD_set_chain, hlt, and_true]
    have hh : ∀ (i : Int) (tb : List (List ntt_node)),
        ntt_hashcode { size := s.size, items := i, tbl := tb } k' = ntt_hashcode s k' :=
      fun _ _ => rfl
    simp only [hh]
    by_cases hk : k' = k
    · subst hk
      simp only [if_true]
      rw [chain_find_append]
      simp only [ntt.chain] at h
      rw [h]
      simp [fresh_node]
    · simp only [if_neg hk]
      by_cases hb : ntt_hashcode s k' = ntt_hashcode s k
      · simp only [hb, if_true]
        rw [chain_find_append]
        cases hc : chain_find k' (s.tbl.getD (ntt_hashcode s k) []) with
        | some q => simp
        | none => simp [fresh_node, hk]
      · simp only [if_neg hb]

/-! ## The store invariant -/

theorem flatten_length_set (tbl : List (List ntt_node)) (b : Nat) (c : List ntt_node)
    (hb : b < tbl.length) :
    ((tbl.set b c).flatten.length : Int) =
      tbl.flatten.length - (tbl.getD b []).length + c.length := by
  induction tbl generalizing b with
  | nil => simp at hb
  | cons x rest ih =>
    cases b with
    | zero => simp; omega
    | succ b =>
      have := ih b (by simpa using hb)
      simp only [List.set_cons_succ, List.flatten_cons, List.length_append, Nat.cast_add,
        List.getD_cons_succ] at this ⊢
      omega

theorem put_chain (s : ntt) (b : Nat) (c : List ntt_node) (it : Int) (hb : b < s.tbl.length)
    (b' : Nat) : (s.put b c it).chain b' = if b' = b then c else s.chain b' := by
  simp only [ntt.put, ntt.chain, getD_set_chain, hb, and_true]

theorem put_entries_length (s : ntt) (b : Nat) (c : List ntt_node) (it : Int)
    (hb : b < s.tbl.length) :
    ((s.put b c it).entries.length : Int) = s.entries.length - (s.chain b).length + c.length :=
  flatten_length_set s.tbl b c hb

theorem put_hashcode (s : ntt) (b : Nat) (c : List ntt_node) (it : Int) (k : CStr) :
    ntt_hashcode (s.put b c it) k = ntt_hashcode s k := rfl

theorem put_wf (s : ntt) (b : Nat) (c : List ntt_node) (it : Int) (h : ntt_wf s) :
    ntt_wf (s.put b c it) := by
  unfold ntt_wf ntt.put at *
  simpa using h

/-- Replacing one chain keeps the invariant when the new chain is well placed, has
no key twice, and `items` follows the change of length. -/
theorem put_inv (s : ntt) (b : Nat) (c : List ntt_node) (it : Int) (h : ntt_inv s)
    (hb : b < s.tbl.length)
    (hplaced : ∀ nd ∈ c, ntt_hashcode s nd.key = b)
    (hnodup : (c.map ntt_node.key).Nodup)
    (hit : it = s.items - (s.chain b).length + c.length) : ntt_inv (s.put b c it) := by
  refine ⟨put_wf s b c it h.wf, ?_, ?_, ?_⟩
  · intro b' nd hnd
    rw [put_hashcode]
    rw [put_chain s b c it hb] at hnd
    by_cases hbb : b' = b
    · rw [if_pos hbb] at hnd
      rw [hbb]; exact hplaced nd hnd
    · rw [if_neg hbb] at hnd
      exact h.placed b' nd hnd
  · intro b'
    rw [put_chain s b c it hb]
    by_cases hbb : b' = b
    · rw [if_pos hbb]; exact hnodup
    · rw [if_neg hbb]; exact h.nodup b'
  · rw [put_entries_length s b c it hb, hit, h.counted]
    rfl

theorem chain_modify_mem (f : ntt_node → ntt_node) (j : Nat) (c : List ntt_node)
    (nd : ntt_node) (h : nd ∈ chain_modify f j c) : nd ∈ c ∨ ∃ x ∈ c, nd = f x := by
  induction c generalizing j with
  | nil => simp [chain_modify] at h
  | cons x rest ih =>
    cases j with
    | zero =>
      simp only [chain_modify, List.mem_cons] at h
      rcases h with h | h
      · exact Or.inr ⟨x, List.mem_cons_self _ _, h⟩
      · exact Or.inl (List.mem_cons_of_mem _ h)
    | succ j =>
      simp only [chain_modify, List.mem_cons] at h
      rcases h with h | h
      · exact Or.inl (h ▸ List.mem_cons_self _ _)
      · rcases ih j h with h' | ⟨y, hy, hy'⟩
        · exact Or.inl (List.mem_cons_of_mem _ h')
        · exact Or.inr ⟨y, List.mem_cons_of_mem _ hy, hy'⟩

theorem chain_find_lt (k : CStr) (c : List ntt_node) (i : Nat) (nd : ntt_node)
    (h : chain_find k c = some (i, nd)) : i < c.length := by
  have := (chain_find_some k c i nd h).1
  by_contra hlt
  rw [List.get?_eq_none.mpr (not_lt.mp hlt)] at this
  exact Option.noConfusion this

theorem ntt_modify_eq_put (s : ntt) (p : ntt_ptr) (f : ntt_node → ntt_node) :
    ntt_modify s p f = s.put p.bucket (chain_modify f p.pos (s.chain p.bucket)) s.items := rfl

theorem ntt_modify_entries_length (s : ntt) (p : ntt_ptr) (f : ntt_node → ntt_node) :
    (ntt_modify s p f).entries.length = s.entries.length := by
  by_cases hb : p.bucket < s.tbl.length
  · have := put_entries_length s p.bucket (chain_modify f p.pos (s.chain p.bucket)) s.items hb
    rw [chain_modify_length] at this
    rw [ntt_modify_eq_put]
    omega
  · simp [ntt_modify, ntt.entries, List.set_eq_of_length_le (not_lt.mp hb)]

theorem ntt_modify_inv (s : ntt) (p : ntt_ptr) (f : ntt_node → ntt_node)
    (hf : ∀ x, (f x).key = x.key) (h : ntt_inv s) : ntt_inv (ntt_modify s p f) := by
  by_cases hb : p.bucket < s.tbl.length
  · rw [ntt_modify_eq_put]
    refine put_inv s _ _ _ h hb ?_ ?_ ?_
    · intro nd hnd
      rcases chain_modify_mem f p.pos _ nd hnd with h1 | ⟨x, hx, rfl⟩
      · exact h.placed _ nd h1
      · rw [hf]; exact h.placed _ x hx
    · rw [chain_modify_keys f hf]; exact h.nodup _
    · rw [chain_modify_length]; omega
  · have : ntt_modify s p f = s := by
      simp [ntt_modify, List.set_eq_of_length_le (not_lt.mp hb)]
    rw [this]; exact h

theorem ntt_insert_new_eq_put (s : ntt) (k : CStr) (ts rs now u : Int)
    (h : ntt_find s k = none) :
    (ntt_insert s k ts rs now u).1 =
      s.put (ntt_hashcode s k) (s.chain (ntt_hashcode s k) ++ [fresh_node k rs u])
        (s.items + 1) := by
  rw [ntt_insert_of_find_none s k ts rs now u h]
  rfl

theorem ntt_insert_inv (s : ntt) (k : CStr) (ts rs now u : Int) (h : ntt_inv s) :
    ntt_inv (ntt_insert s k ts rs now u).1 := by
  cases hf : ntt_find s k with
  | some q =>
    obtain ⟨p, nd⟩ := q
    rw [ntt_insert_of_find_some s k ts rs now u p nd hf]
    exact ntt_modify_inv s p _ (fun _ => rfl) h
  | none =>
    rw [ntt_insert_new_eq_put s k ts rs now u hf]
    have hlt : ntt_hashcode s k < s.tbl.length := by
      rw [h.wf.2]; exact ntt_hashcode_lt s k h.wf.1
    refine put_inv s _ _ _ h hlt ?_ ?_ ?_
    · intro nd hnd
      rw [List.mem_append] at hnd
      rcases hnd with h1 | h1
      · exact h.placed _ nd h1
      · simp only [List.mem_singleton] at h1
        rw [h1]; rfl
    · rw [List.map_append, List.nodup_append]
      refine ⟨h.nodup _, by simp, ?_⟩
      intro a ha hb'
      simp only [List.map_cons, List.map_nil, List.mem_singleton] at hb'
      rw [hb'] at ha
      obtain ⟨x, hx, hxk⟩ := List.mem_map.mp ha
      rw [ntt_find_none, chain_find_none_iff] at hf
      exact hf x hx hxk
    · simp only [List.length_append, List.length_singleton]
      push_cast
      omega

theorem ntt_delete_of_none (s : ntt) (k : CStr)
    (h : chain_find k (s.chain (ntt_hashcode s k)) = none) : ntt_delete s k = (s, -5) := by
  simp only [ntt_delete, h]

theorem ntt_delete_of_some (s : ntt) (k : CStr) (i : Nat) (nd : ntt_node)
    (h : chain_find k (s.chain (ntt_hashcode s k)) = some (i, nd)) :
    ntt_delete s k =
      (s.put (ntt_hashcode s k) ((s.chain (ntt_hashcode s k)).eraseIdx i) (s.items - 1), 0) := by
  simp only [ntt_delete, h]
  rfl

theorem ntt_delete_inv (s : ntt) (k : CStr) (h : ntt_inv s) : ntt_inv (ntt_delete s k).1 := by
  cases hc : chain_find k (s.chain (ntt_hashcode s k)) with
  | none => rw [ntt_delete_of_none s k hc]; exact h
  | some q =>
    obtain ⟨i, nd⟩ := q
    rw [ntt_delete_of_some s k i nd hc]
    have hlt : ntt_hashcode s k < s.tbl.length := by
      rw [h.wf.2]; exact ntt_hashcode_lt s k h.wf.1
    have hi := chain_find_lt k _ i nd hc
    refine put_inv s _ _ _ h hlt ?_ ?_ ?_
    · intro nd' hnd
      exact h.placed _ nd' ((List.eraseIdx_sublist _ _).subset hnd)
    · exact (h.nodup _).sublist ((List.eraseIdx_sublist _ _).map _)
    · rw [List.length_eraseIdx, if_pos hi]
      have : 1 ≤ (s.chain (ntt_hashcode s k)).length := by omega
      push_cast [this]
      omega

theorem ntt_create_scan_mem (size : Nat) (l : List Nat) (p : Nat)
    (h : ntt_create_scan size l = some p) : p ∈ l := by
  induction l with
  | nil => simp [ntt_create_scan] at h
  | cons x rest ih =>
    by_cases hx : x < size
    · simp only [ntt_create_scan, if_pos hx] at h
      exact List.mem_cons_of_mem _ (ih h)
    · simp only [ntt_create_scan, if_neg hx, Option.some.injEq] at h
      rw [← h]; exact List.mem_cons_self _ _

theorem ntt_prime_list_pos : ∀ p ∈ ntt_prime_list, 0 < p := by decide

theorem ntt_create_table (size : Int) (s : ntt) (h : ntt_create size = create_result.table s) :
    ∃ p, p ∈ ntt_prime_list ∧ s = { size := p, items := 0, tbl := List.replicate p [] } := by
  unfold ntt_create at h
  cases hs : ntt_create_scan (size % 18446744073709551616).toNat ntt_prime_list with
  | none => rw [hs] at h; exact create_result.noConfusion h
  | some p =>
    rw [hs] at h
    simp only [create_result.table.injEq] at h
    exact ⟨p, ntt_create_scan_mem _ _ _ hs, h.symm⟩

theorem replicate_nil_getD (p b : Nat) :
    (List.replicate p ([] : List ntt_node)).getD b [] = [] := by
  induction p generalizing b with
  | zero => simp
  | succ p ih => cases b <;> simp [List.replicate_succ, ih]

theorem replicate_nil_flatten (p : Nat) :
    (List.replicate p ([] : List ntt_node)).flatten = [] := by
  induction p with
  | zero => simp
  | succ p ih => simp [List.replicate_succ, ih]

theorem ntt_create_inv (size : Int) (s : ntt) (h : ntt_create size = create_result.table s) :
    ntt_inv s := by
  obtain ⟨p, hp, rfl⟩ := ntt_create_table size s h
  refine ⟨⟨ntt_prime_list_pos p hp, by simp⟩, ?_, ?_, ?_⟩
  · intro b nd hnd
    simp [ntt.chain, replicate_nil_getD] at hnd
  · intro b
    simp [ntt.chain, replicate_nil_getD]
  · simp [ntt.entries, replicate_nil_flatten]

theorem tier_check_inv (t : Int) (uninit : CStr → Int) (ip key : CStr)
    (interval count code : Int) (counted : Bool) (st : checker_state)
    (h : ntt_inv st.hit_list) :
    ntt_inv (tier_check t uninit ip key interval count code counted st).hit_list := by
  unfold tier_check
  cases hf : ntt_find st.hit_list key with
  | none => exact ntt_insert_inv _ _ _ _ _ _ h
  | some q =>
    obtain ⟨n, node⟩ := q
    simp only
    have h1 : ntt_inv (if t - node.timestamp < interval ∧ node.count ≥ count then
          ({ hit_list := (ntt_insert st.hit_list ip t code t (uninit ip)).1,
             ret := HTTP_FORBIDDEN, reason := code } : checker_state)
        else if t - node.timestamp ≥ interval then
          { st with hit_list := ntt_modify st.hit_list n (fun x => { x with count := 0 }) }
        else st).hit_list := by
      split
      · exact ntt_insert_inv _ _ _ _ _ _ h
      · split
        · exact ntt_modify_inv _ _ _ (fun _ => rfl) h
        · exact h
    have h2 := ntt_modify_inv _ n (fun x => { x with timestamp := t }) (fun _ => rfl) h1
    split
    · exact ntt_modify_inv _ n _ (fun _ => rfl) h2
    · exact h2

theorem access_checker_inv (cfg : config) (t : Int) (uninit : CStr → Int) (s s' : ntt)
    (r : request_rec) (h : ntt_inv s)
    (hs : (access_checker cfg t uninit (some s) r).hit_list = some s') : ntt_inv s' := by
  unfold access_checker at hs
  simp only at hs
  split at hs
  · split at hs
    · simp only [Option.some.injEq] at hs; rw [← hs]; exact h
    · split at hs
      · simp only [Option.some.injEq] at hs; rw [← hs]
        exact ntt_modify_inv _ _ _ (fun _ => rfl) h
      · simp only [Option.some.injEq] at hs; rw [← hs]
        unfold tiers site_tier page_tier uri_tier
        exact tier_check_inv _ _ _ _ _ _ _ _ _
          (tier_check_inv _ _ _ _ _ _ _ _ _ (tier_check_inv _ _ _ _ _ _ _ _ _ h))
  · simp only [Option.some.injEq] at hs; rw [← hs]; exact h

theorem reachable_inv (s : ntt) (h : reachable s) : ntt_inv s := by
  induction h with
  | create size s h => exact ntt_create_inv size s h
  | insert s key ts rs now u _ ih => exact ntt_insert_inv s key ts rs now u ih
  | delete s key _ ih => exact ntt_delete_inv s key ih
  | whitelist s ip now u _ ih => exact ntt_insert_inv s _ _ _ _ _ ih
  | access s s' cfg t u r _ hs ih => exact access_checker_inv cfg t u s s' r ih hs

theorem deref_mem (s : ntt) (p : ntt_ptr) (nd : ntt_node) (h : s.deref p = some nd) :
    nd ∈ s.chain p.bucket := List.get?_mem h

theorem nodup_keys_pos (c : List ntt_node) (hc : (c.map ntt_node.key).Nodup) (i j : Nat)
    (a b : ntt_node) (ha : c.get? i = some a) (hb : c.get? j = some b)
    (hk : a.key = b.key) : i = j := by
  have hi : i < (c.map ntt_node.key).length := by
    rw [List.length_map]
    by_contra hlt
    rw [List.get?_eq_none.mpr (not_lt.mp hlt)] at ha
    exact Option.noConfusion ha
  apply List.getElem?_inj hi hc
  simp only [List.get?_eq_getElem?] at ha hb
  simp [ha, hb, hk]

theorem chain_eq_getElem (s : ntt) (b : Nat) (hb : b < s.tbl.length) :
    s.chain b = s.tbl[b] := by
  simp [ntt.chain, List.getD_eq_getElem?_getD, List.getElem?_eq_getElem hb]

theorem inv_entries_nodup (s : ntt) (h : ntt_inv s) :
    (s.entries.map ntt_node.key).Nodup := by
  unfold ntt.entries
  rw [List.map_flatten, List.nodup_flatten]
  constructor
  · intro l hl
    obtain ⟨c, hc, rfl⟩ := List.mem_map.mp hl
    obtain ⟨b, hb, rfl⟩ := List.getElem_of_mem hc
    rw [← chain_eq_getElem s b hb]
    exact h.nodup b
  · rw [List.pairwise_iff_getElem]
    intro i j hi hj hij
    simp only [List.length_map] at hi hj
    simp only [List.getElem_map]
    rw [← chain_eq_getElem s i hi, ← chain_eq_getElem s j hj]
    intro k hk1 hk2
    obtain ⟨a, ha, hak⟩ := List.mem_map.mp hk1
    obtain ⟨b, hb, hbk⟩ := List.mem_map.mp hk2
    have h1 := h.placed i a ha
    have h2 := h.placed j b hb
    rw [hak] at h1
    rw [hbk] at h2
    omega

/-- C9. Every table reachable from `ntt_create` by `ntt_insert`, `ntt_delete`, the
`whitelist` directive and `access_checker` has no two nodes with the same key,
keeps each node in the chain of the bucket `ntt_hashcode` gives for its key, and
has `items` equal to the number of nodes in all chains. -/
theorem store_invariant (s : ntt) (h : reachable s) :
    (∀ p q a b, s.deref p = some a → s.deref q = some b → a.key = b.key → p = q) ∧
    (s.entries.map ntt_node.key).Nodup ∧
    (∀ p nd, s.deref p = some nd → p.bucket = ntt_hashcode s nd.key) ∧
    s.items = (s.entries.length : Int) := by
  have hinv := reachable_inv s h
  have hplaced : ∀ p nd, s.deref p = some nd → p.bucket = ntt_hashcode s nd.key :=
    fun p nd hp => (hinv.placed p.bucket nd (deref_mem s p nd hp)).symm
  refine ⟨?_, ?_, hplaced, hinv.counted⟩
  · intro p q a b ha hb hk
    have h1 := hplaced p a ha
    have h2 := hplaced q b hb
    have hbk : p.bucket = q.bucket := by rw [h1, h2, hk]
    obtain ⟨pb, pi⟩ := p
    obtain ⟨qb, qi⟩ := q
    simp only at hbk
    subst hbk
    have := nodup_keys_pos _ (hinv.nodup pb) pi qi a b ha hb hk
    rw [this]
  · exact inv_entries_nodup s hinv

/-- C9 at a concrete table: `ntt_create(53)` followed by two inserts and a delete. -/
theorem store_invariant_witness :
    reachable (ntt_delete (ntt_insert (ntt_insert
      { size := 53, items := 0, tbl := List.replicate 53 [] } [49] 5 0 5 7).1 [50] 6 0 6 7).1
        [49]).1 ∧
    (ntt_delete (ntt_insert (ntt_insert
      { size := 53, items := 0, tbl := List.replicate 53 [] } [49] 5 0 5 7).1 [50] 6 0 6 7).1
        [49]).1.items = 1 :=
  ⟨reachable.delete _ _ (reachable.insert _ _ _ _ _ _ (reachable.insert _ _ _ _ _ _
      (reachable.create 53 _ (by decide)))),
   (store_invariant _ (reachable.delete _ _ (reachable.insert _ _ _ _ _ _
      (reachable.insert _ _ _ _ _ _ (reachable.create 53 _ (by decide)))))).2.2.2.trans
        (by decide)⟩

/-! ## Writes through a pointer: what they leave alone -/

theorem ntt_modify_deref (s : ntt) (p q : ntt_ptr) (f : ntt_node → ntt_node) :
    (ntt_modify s p f).deref q = if q = p then (s.deref q).map f else s.deref q := by
  unfold ntt.deref
  rw [ntt_modify_chain, ]
  obtain ⟨pb, pi⟩ := p
  obtain ⟨qb, qi⟩ := q
  simp only [ntt_ptr.mk.injEq]
  by_cases hb : qb = pb
  · rw [if_pos hb, chain_modify_get]
    by_cases hi : qi = pi
    · simp [hb, hi]
    · simp [hi]
  · simp [hb]

theorem ntt_modify_chain_length (s : ntt) (p : ntt_ptr) (f : ntt_node → ntt_node) (b : Nat) :
    ((ntt_modify s p f).chain b).length = (s.chain b).length := by
  rw [ntt_modify_chain]
  split
  · exact chain_modify_length _ _ _
  · rfl

theorem ntt_modify_tbl_length (s : ntt) (p : ntt_ptr) (f : ntt_node → ntt_node) :
    (ntt_modify s p f).tbl.length = s.tbl.length := by
  simp [ntt_modify]

theorem flatten_map_set (g : ntt_node → CStr) (tbl : List (List ntt_node)) (b : Nat)
    (c : List ntt_node) (h : c.map g = (tbl.getD b []).map g) :
    (tbl.set b c).flatten.map g = tbl.flatten.map g := by
  induction tbl generalizing b with
  | nil => simp
  | cons x rest ih =>
    cases b with
    | zero =>
      simp only [List.getD_cons_zero] at h
      simp [h]
    | succ b =>
      simp only [List.getD_cons_succ] at h
      simp only [List.set_cons_succ, List.flatten_cons, List.map_append, ih b h]

theorem ntt_modify_entries_keys (s : ntt) (p : ntt_ptr) (f : ntt_node → ntt_node)
    (hf : ∀ x, (f x).key = x.key) :
    (ntt_modify s p f).entries.map ntt_node.key = s.entries.map ntt_node.key := by
  unfold ntt_modify ntt.entries
  exact flatten_map_set _ _ _ _ (chain_modify_keys f hf _ _)

theorem mem_entries_chain (s : ntt) (nd : ntt_node) (h : nd ∈ s.entries) :
    ∃ b, nd ∈ s.chain b := by
  unfold ntt.entries at h
  obtain ⟨c, hc, hnd⟩ := List.mem_flatten.mp h
  obtain ⟨b, hb, rfl⟩ := List.getElem_of_mem hc
  exact ⟨b, by rw [chain_eq_getElem s b hb]; exact hnd⟩

/-- In a table that satisfies the invariant, `ntt_find` returns exactly the node
that carries the key. -/
theorem ntt_find_of_mem (s : ntt) (hinv : ntt_inv s) (nd : ntt_node) (h : nd ∈ s.entries) :
    ∃ p, ntt_find s nd.key = some (p, nd) := by
  obtain ⟨b, hb⟩ := mem_entries_chain s nd h
  have hpl := hinv.placed b nd hb
  cases hf : ntt_find s nd.key with
  | none =>
    rw [ntt_find_none, chain_find_none_iff, hpl] at hf
    exact absurd rfl (hf nd hb)
  | some q =>
    obtain ⟨p, nd'⟩ := q
    obtain ⟨h1, h2, h3, h4⟩ := ntt_find_some s nd.key p nd' hf
    have hm : nd' ∈ s.chain b := by
      have := deref_mem s p nd' h3
      rwa [h1, hpl] at this
    have := List.inj_on_of_nodup_map (hinv.nodup b) hm hb h4
    exact ⟨p, by rw [this]⟩

theorem mem_of_ntt_find (s : ntt) (k : CStr) (p : ntt_ptr) (nd : ntt_node)
    (h : ntt_find s k = some (p, nd)) : nd ∈ s.entries := by
  obtain ⟨h1, h2, h3, h4⟩ := ntt_find_some s k p nd h
  have hm := deref_mem s p nd h3
  unfold ntt.entries
  have hne : s.chain p.bucket ≠ [] := List.ne_nil_of_mem hm
  have hlt : p.bucket < s.tbl.length := by
    by_contra hlt
    apply hne
    simp [ntt.chain, List.getD_eq_getElem?_getD, List.getElem?_eq_none (not_lt.mp hlt)]
  rw [chain_eq_getElem s _ hlt] at hm
  exact List.mem_flatten.mpr ⟨_, List.getElem_mem hlt, hm⟩

/-- C10. In a table that satisfies the store invariant, `ntt_insert` of a key that
a node `nd` of the table carries returns the pointer to that very node, leaves it
with `timestamp` and `reason` overwritten by the arguments and `count` reset to 0,
and changes nothing else: `items`, `size`, every chain's length and key order, and
every other node stay as they were. -/
theorem ntt_insert_existing (s : ntt) (hinv : ntt_inv s) (nd : ntt_node)
    (hmem : nd ∈ s.entries) (timestamp reason now uninit : Int) :
    ∃ p, s.deref p = some nd ∧ ntt_find s nd.key = some (p, nd) ∧
      (ntt_insert s nd.key timestamp reason now uninit).2 = p ∧
      (ntt_insert s nd.key timestamp reason now uninit).1.deref p =
        some { key := nd.key, reason := reason, timestamp := timestamp, count := 0 } ∧
      (ntt_insert s nd.key timestamp reason now uninit).1.items = s.items ∧
      (ntt_insert s nd.key timestamp reason now uninit).1.size = s.size ∧
      (ntt_insert s nd.key timestamp reason now uninit).1.tbl.length = s.tbl.length ∧
      (∀ b, ((ntt_insert s nd.key timestamp reason now uninit).1.chain b).length =
        (s.chain b).length) ∧
      (ntt_insert s nd.key timestamp reason now uninit).1.entries.map ntt_node.key =
        s.entries.map ntt_node.key ∧
      (∀ q, q ≠ p →
        (ntt_insert s nd.key timestamp reason now uninit).1.deref q = s.deref q) := by
  obtain ⟨p, hp⟩ := ntt_find_of_mem s hinv nd hmem
  have hd := (ntt_find_some s nd.key p nd hp).2.2.1
  refine ⟨p, hd, hp, ?_⟩
  rw [ntt_insert_of_find_some s nd.key timestamp reason now uninit p nd hp]
  refine ⟨rfl, ?_, rfl, rfl, ntt_modify_tbl_length _ _ _, ntt_modify_chain_length _ _ _,
    ntt_modify_entries_keys _ _ _ (fun _ => rfl), ?_⟩
  · show (ntt_modify s p (reset_node timestamp reason)).deref p = _
    rw [ntt_modify_deref, if_pos rfl, hd]
    rfl
  · intro q hq
    show (ntt_modify s p (reset_node timestamp reason)).deref q = _
    rw [ntt_modify_deref, if_neg hq]

theorem table53_reachable : reachable table53 := reachable.create 53 table53 (by decide)

theorem table53_one_inv : ntt_inv table53_one :=
  reachable_inv _ (reachable.insert _ _ _ _ _ _ table53_reachable)

/-- C10 at a concrete table: re-inserting the key `"1"` keeps `items`. -/
theorem ntt_insert_existing_witness :
    ntt_inv table53_one ∧ fresh_node [49] 0 7 ∈ table53_one.entries ∧
      (ntt_insert table53_one [49] 9 1 9 0).1.items = table53_one.items :=
  ⟨table53_one_inv, by decide, by
    obtain ⟨p, h⟩ := ntt_insert_existing table53_one table53_one_inv (fresh_node [49] 0 7)
      (by decide) 9 1 9 0
    exact h.2.2.2.2.1⟩

/-! ## The hold check and the whitelist gate -/

theorem ntt_find_ptr_inj (s : ntt) (k k' : CStr) (p : ntt_ptr) (nd nd' : ntt_node)
    (h : ntt_find s k = some (p, nd)) (h' : ntt_find s k' = some (p, nd')) :
    k = k' ∧ nd = nd' := by
  have h1 := (ntt_find_some s k p nd h).2.2
  have h2 := (ntt_find_some s k' p nd' h').2.2
  have : nd = nd' := by
    have := h1.1.symm.trans h2.1
    simpa using this
  subst this
  exact ⟨h1.2.symm.trans h2.2, rfl⟩

theorem ntt_find_modify_self (s : ntt) (key : CStr) (p : ntt_ptr) (nd : ntt_node)
    (f : ntt_node → ntt_node) (hf : ∀ x, (f x).key = x.key)
    (h : ntt_find s key = some (p, nd)) :
    ntt_find (ntt_modify s p f) key = some (p, f nd) := by
  rw [ntt_find_modify s p f hf, h]
  simp

theorem ntt_find_modify_other (s : ntt) (key k : CStr) (p : ntt_ptr) (nd : ntt_node)
    (f : ntt_node → ntt_node) (hf : ∀ x, (f x).key = x.key)
    (h : ntt_find s key = some (p, nd)) (hk : k ≠ key) :
    ntt_find (ntt_modify s p f) k = ntt_find s k := by
  rw [ntt_find_modify s p f hf]
  cases h' : ntt_find s k with
  | none => rfl
  | some q =>
    obtain ⟨p', nd'⟩ := q
    have hne : p' ≠ p := by
      intro hpp
      subst hpp
      exact hk (ntt_find_ptr_inj s k key p' nd' nd h' h).1
    simp [hne]

/-- C4. For a main request from an address that is not whitelisted, when the table
(satisfying the store invariant) holds a node `nd` keyed by the bare client address
with `t - nd.timestamp < blocking_period`, `access_checker` returns `HTTP_FORBIDDEN`
with the reason stored in `nd`, sets that node's `timestamp` to `t` and changes
nothing else: every other node, every chain length, `size` and `items` stay as they
were (so no tier entry is created or changed). -/
theorem hold_check (cfg : config) (t : Int) (uninit : CStr → Int) (s : ntt) (r : request_rec)
    (hinv : ntt_inv s) (hprev : r.prev_null = true) (hmain : r.main_null = true)
    (hw : is_whitelisted s r.client_ip = false)
    (nd : ntt_node) (hmem : nd ∈ s.entries) (hkey : nd.key = r.client_ip)
    (hfresh : t - nd.timestamp < cfg.blocking_period) :
    ∃ p s', s.deref p = some nd ∧
      access_checker cfg t uninit (some s) r =
        { hit_list := some s', ret := HTTP_FORBIDDEN, reason := nd.reason } ∧
      s'.deref p = some { nd with timestamp := t } ∧
      (∀ q, q ≠ p → s'.deref q = s.deref q) ∧
      (∀ b, (s'.chain b).length = (s.chain b).length) ∧
      s'.tbl.length = s.tbl.length ∧ s'.size = s.size ∧ s'.items = s.items ∧
      s'.entries.map ntt_node.key = s.entries.map ntt_node.key := by
  obtain ⟨p, hp⟩ := ntt_find_of_mem s hinv nd hmem
  rw [hkey] at hp
  have hd := (ntt_find_some s _ p nd hp).2.2.1
  refine ⟨p, ntt_modify s p (fun x => { x with timestamp := t }), hd, ?_, ?_, ?_,
    ntt_modify_chain_length _ _ _, ntt_modify_tbl_length _ _ _, rfl, rfl,
    ntt_modify_entries_keys _ _ _ (fun _ => rfl)⟩
  · simp only [access_checker, hprev, hmain, hw, hp, Option.filter, hfresh, decide_True,
      Bool.and_self, if_true]
    simp
  · rw [ntt_modify_deref, if_pos rfl, hd]; rfl
  · intro q hq
    rw [ntt_modify_deref, if_neg hq]

/-- C5. When `is_whitelisted` reports the client address as exempt, `access_checker`
returns `OK` and leaves the table exactly as it was, whatever the table holds. -/
theorem whitelist_precedence (cfg : config) (t : Int) (uninit : CStr → Int) (s : ntt)
    (r : request_rec) (hw : is_whitelisted s r.client_ip = true) :
    access_checker cfg t uninit (some s) r = { hit_list := some s, ret := OK, reason := 0 } := by
  simp only [access_checker, hw, if_true]
  split <;> rfl

theorem held_table_inv : ntt_inv held_table :=
  reachable_inv _ (reachable.insert _ _ _ _ _ _ (reachable.insert _ _ _ _ _ _ table53_reachable))

/-- C4 at a concrete table: a request from the held address one second later. -/
theorem hold_check_witness :
    is_whitelisted held_table req0.client_ip = false ∧
    (access_checker default_config 1001 (fun _ => 0) (some held_table) req0).ret
      = HTTP_FORBIDDEN ∧
    (access_checker default_config 1001 (fun _ => 0) (some held_table) req0).reason = 1 :=
  ⟨by decide, by
    obtain ⟨p, s', -, h, -⟩ := hold_check default_config 1001 (fun _ => 0) held_table req0
      held_table_inv rfl rfl (by decide)
      { key := cstr "1.2.3.4", reason := 1, timestamp := 1000, count := 0 }
      (by decide) (by decide) (by decide)
    rw [h]
    exact ⟨rfl, rfl⟩⟩

/-- C5 at a concrete table: `1.2.3.4` matches the whitelisted pattern `1.2.3.*`. -/
theorem whitelist_precedence_witness :
    is_whitelisted white_table req0.client_ip = true ∧
    access_checker default_config 1000 (fun _ => 0) (some white_table) req0 =
      { hit_list := some white_table, ret := OK, reason := 0 } :=
  ⟨by decide, whitelist_precedence default_config 1000 (fun _ => 0) white_table req0 (by decide)⟩

/-! ## One tier block -/

theorem tier_block_eq (cfg : config) (t : Int) (uninit : CStr → Int) (r : request_rec)
    (tr : tier_id) (st : checker_state) :
    tier_block cfg t uninit r tr st =
      tier_check t uninit r.client_ip (tier_key r tr) (tier_interval cfg tr)
        (tier_count cfg tr) (tier_code tr) (tier_counted r tr) st := by
  cases tr <;> rfl

theorem chain_modify_modify (f g : ntt_node → ntt_node) (i : Nat) (c : List ntt_node) :
    chain_modify g i (chain_modify f i c) = chain_modify (fun x => g (f x)) i c := by
  induction c generalizing i with
  | nil => simp [chain_modify]
  | cons x rest ih => cases i <;> simp [chain_modify, ih]

theorem ntt_modify_modify (s : ntt) (p : ntt_ptr) (f g : ntt_node → ntt_node) :
    ntt_modify (ntt_modify s p f) p g = ntt_modify s p (fun x => g (f x)) := by
  have hc := ntt_modify_chain s p f p.bucket
  rw [if_pos rfl] at hc
  unfold ntt_modify at hc ⊢
  simp only [hc, chain_modify_modify, List.set_set]

/-- Normal form of a block whose entry exists and which does not fire. -/
theorem tier_check_quiet (t : Int) (uninit : CStr → Int) (ip key : CStr)
    (interval count code : Int) (counted : Bool) (st : checker_state)
    (n : ntt_ptr) (node : ntt_node) (hf : ntt_find st.hit_list key = some (n, node))
    (hq : ¬ (t - node.timestamp < interval ∧ node.count ≥ count)) :
    tier_check t uninit ip key interval count code counted st =
      { hit_list := ntt_modify st.hit_list n (fun x => { x with
          timestamp := t,
          count := (if t - node.timestamp ≥ interval then 0 else x.count) + hit counted }),
        ret := st.ret, reason := st.reason } := by
  simp only [tier_check, hf, if_neg hq]
  by_cases hel : t - node.timestamp ≥ interval
  · simp only [if_pos hel]
    cases counted
    · simp only [Bool.false_eq_true, if_false, ntt_modify_modify, hit, add_zero]
    · simp only [if_true, ntt_modify_modify, hit]
  · simp only [if_neg hel]
    cases counted
    · simp only [Bool.false_eq_true, if_false, hit, add_zero]
    · simp only [if_true, ntt_modify_modify, hit]

/-- Normal form of a block that fires. -/
theorem tier_check_fire (t : Int) (uninit : CStr → Int) (ip key : CStr)
    (interval count code : Int) (counted : Bool) (st : checker_state)
    (n : ntt_ptr) (node : ntt_node) (hf : ntt_find st.hit_list key = some (n, node))
    (hq : t - node.timestamp < interval ∧ node.count ≥ count) :
    tier_check t uninit ip key interval count code counted st =
      { hit_list := ntt_modify (ntt_insert st.hit_list ip t code t (uninit ip)).1 n
          (fun x => { x with timestamp := t, count := x.count + hit counted }),
        ret := HTTP_FORBIDDEN, reason := code } := by
  simp only [tier_check, hf, if_pos hq]
  cases counted
  · simp only [Bool.false_eq_true, if_false, hit, add_zero]
  · simp only [if_true, ntt_modify_modify, hit]

/-- Normal form of a block whose entry is missing. -/
theorem tier_check_miss (t : Int) (uninit : CStr → Int) (ip key : CStr)
    (interval count code : Int) (counted : Bool) (st : checker_state)
    (hf : ntt_find st.hit_list key = none) :
    tier_check t uninit ip key interval count code counted st =
      { hit_list := (ntt_insert st.hit_list key t 0 t (uninit key)).1,
        ret := st.ret, reason := st.reason } := by
  simp only [tier_check, hf]

/-- C7. For each of the three tiers: when the tier's entry exists and
`t - timestamp >= interval`, the tier does not fire (`ret` and `reason` are left as
they were and no other key's entry is touched, in particular no hold entry is
written), whatever `count` the entry has, and the block leaves the entry with
`timestamp = t` and `count = 1`, or `count = 0` for the URI and page tiers when the
request has a non-empty `Range` header. -/
theorem window_reset (cfg : config) (t : Int) (uninit : CStr → Int) (r : request_rec)
    (tr : tier_id) (st : checker_state) (n : ntt_ptr) (node : ntt_node)
    (hf : ntt_find st.hit_list (tier_key r tr) = some (n, node))
    (hel : t - node.timestamp ≥ tier_interval cfg tr) :
    tier_fires cfg t r tr st = false ∧
    (tier_block cfg t uninit r tr st).ret = st.ret ∧
    (tier_block cfg t uninit r tr st).reason = st.reason ∧
    ntt_find (tier_block cfg t uninit r tr st).hit_list (tier_key r tr) =
      some (n, { node with
        timestamp := t,
        count := if tr ≠ tier_id.site ∧ has_request_header r Range = true then 0 else 1 }) ∧
    (∀ k, k ≠ tier_key r tr →
      ntt_find (tier_block cfg t uninit r tr st).hit_list k = ntt_find st.hit_list k) ∧
    (tier_block cfg t uninit r tr st).hit_list.items = st.hit_list.items := by
  have hq : ¬ (t - node.timestamp < tier_interval cfg tr ∧ node.count ≥ tier_count cfg tr) := by
    intro h; omega
  rw [tier_block_eq, tier_check_quiet t uninit _ _ _ _ _ _ st n node hf hq]
  refine ⟨?_, rfl, rfl, ?_, ?_, rfl⟩
  · simp only [tier_fires, hf]
    have : ¬ (t - node.timestamp < tier_interval cfg tr) := by omega
    simp [this]
  · refine (ntt_find_modify_self _ _ n node _ ?_ hf).trans ?_
    · intro x; rfl
    · simp only [if_pos hel]
      cases tr <;> cases hr : has_request_header r Range <;> simp [tier_counted, hit, hr]
  · intro k hk
    refine ntt_find_modify_other _ _ k n node _ ?_ hf hk
    intro x; rfl

/-! ## Which reason is reported -/

theorem has_hold_reason_modify (s : ntt) (p : ntt_ptr) (f : ntt_node → ntt_node)
    (hk : ∀ x, (f x).key = x.key) (hr : ∀ x, (f x).reason = x.reason) (ip : CStr) (c : Int)
    (h : has_hold_reason s ip c) : has_hold_reason (ntt_modify s p f) ip c := by
  obtain ⟨n, node, hf, hc⟩ := h
  unfold has_hold_reason
  rw [ntt_find_modify s p f hk, hf]
  by_cases hn : n = p
  · exact ⟨n, f node, by simp [hn], by rw [hr]; exact hc⟩
  · exact ⟨n, node, by simp [hn], hc⟩

theorem has_hold_reason_insert (s : ntt) (hwf : ntt_wf s) (ip : CStr) (ts rs now u : Int) :
    has_hold_reason (ntt_insert s ip ts rs now u).1 ip rs := by
  unfold has_hold_reason
  rw [ntt_find_insert s ip ts rs now u hwf ip, if_pos rfl]
  refine ⟨_, _, rfl, ?_⟩
  cases ntt_find s ip <;> rfl

theorem tier_check_fires_iff (cfg : config) (t : Int) (r : request_rec) (tr : tier_id)
    (st : checker_state) :
    tier_fires cfg t r tr st = true ↔
      ∃ n node, ntt_find st.hit_list (tier_key r tr) = some (n, node) ∧
        (t - node.timestamp < tier_interval cfg tr ∧ node.count ≥ tier_count cfg tr) := by
  unfold tier_fires
  cases hf : ntt_find st.hit_list (tier_key r tr) with
  | none => simp
  | some q =>
    obtain ⟨n, node⟩ := q
    simp only [Bool.and_eq_true, decide_eq_true_eq, Option.some.injEq, Prod.mk.injEq]
    constructor
    · intro h; exact ⟨n, node, ⟨rfl, rfl⟩, h⟩
    · rintro ⟨n', node', ⟨-, rfl⟩, h⟩; exact h

/-- What a block does to `ret`, `reason` and the hold node's reason. -/
theorem tier_block_reason (cfg : config) (t : Int) (uninit : CStr → Int) (r : request_rec)
    (tr : tier_id) (st : checker_state) (hwf : ntt_wf st.hit_list) :
    (tier_block cfg t uninit r tr st).reason =
      (if tier_fires cfg t r tr st then tier_code tr else st.reason) ∧
    (tier_block cfg t uninit r tr st).ret =
      (if tier_fires cfg t r tr st then HTTP_FORBIDDEN else st.ret) ∧
    (tier_fires cfg t r tr st = true →
      has_hold_reason (tier_block cfg t uninit r tr st).hit_list r.client_ip (tier_code tr)) ∧
    (tier_fires cfg t r tr st = false → ∀ c, has_hold_reason st.hit_list r.client_ip c →
      has_hold_reason (tier_block cfg t uninit r tr st).hit_list r.client_ip c) := by
  rw [tier_block_eq]
  cases hf : ntt_find st.hit_list (tier_key r tr) with
  | none =>
    have hfire : tier_fires cfg t r tr st = false := by simp [tier_fires, hf]
    rw [tier_check_miss _ _ _ _ _ _ _ _ st hf, hfire]
    refine ⟨rfl, rfl, fun h => Bool.noConfusion h, fun _ c hc => ?_⟩
    obtain ⟨n, node, hn, hc⟩ := hc
    have hne : r.client_ip ≠ tier_key r tr := by
      intro he; rw [he, hf] at hn; exact Option.noConfusion hn
    exact ⟨n, node, by
      show ntt_find (ntt_insert _ _ _ _ _ _).1 _ = _
      rw [ntt_find_insert _ _ _ _ _ _ hwf, if_neg hne]; exact hn, hc⟩
  | some q =>
    obtain ⟨n, node⟩ := q
    by_cases hq : t - node.timestamp < tier_interval cfg tr ∧ node.count ≥ tier_count cfg tr
    · have hfire : tier_fires cfg t r tr st = true :=
        (tier_check_fires_iff cfg t r tr st).mpr ⟨n, node, hf, hq⟩
      rw [tier_check_fire _ _ _ _ _ _ _ _ st n node hf hq, hfire]
      refine ⟨rfl, rfl, fun _ => ?_, fun h => Bool.noConfusion h⟩
      refine has_hold_reason_modify _ _ _ ?_ ?_ _ _
        (has_hold_reason_insert _ hwf _ _ _ _ _)
      · intro x; rfl
      · intro x; rfl
    · have hfire : tier_fires cfg t r tr st = false := by
        cases hb : tier_fires cfg t r tr st with
        | false => rfl
        | true =>
          obtain ⟨n', node', hf', hq'⟩ := (tier_check_fires_iff cfg t r tr st).mp hb
          rw [hf] at hf'
          simp only [Option.some.injEq, Prod.mk.injEq] at hf'
          rw [hf'.2] at hq
          exact absurd hq' hq
      rw [tier_check_quiet _ _ _ _ _ _ _ _ st n node hf hq, hfire]
      refine ⟨rfl, rfl, fun h => Bool.noConfusion h, fun _ c hc => ?_⟩
      refine has_hold_reason_modify _ _ _ ?_ ?_ _ _ hc
      · intro x; rfl
      · intro x; rfl

theorem tier_block_wf (cfg : config) (t : Int) (uninit : CStr → Int) (r : request_rec)
    (tr : tier_id) (st : checker_state) (hwf : ntt_wf st.hit_list) :
    ntt_wf (tier_block cfg t uninit r tr st).hit_list := by
  rw [tier_block_eq]
  cases hf : ntt_find st.hit_list (tier_key r tr) with
  | none =>
    rw [tier_check_miss _ _ _ _ _ _ _ _ st hf]
    exact ntt_insert_wf _ _ _ _ _ _ hwf
  | some q =>
    obtain ⟨n, node⟩ := q
    by_cases hq : t - node.timestamp < tier_interval cfg tr ∧ node.count ≥ tier_count cfg tr
    · rw [tier_check_fire _ _ _ _ _ _ _ _ st n node hf hq]
      exact ntt_modify_wf _ _ _ (ntt_insert_wf _ _ _ _ _ _ hwf)
    · rw [tier_check_quiet _ _ _ _ _ _ _ _ st n node hf hq]
      exact ntt_modify_wf _ _ _ hwf

theorem tiers_eq (cfg : config) (t : Int) (uninit : CStr → Int) (r : request_rec) (s : ntt) :
    tiers cfg t uninit r s =
      tier_block cfg t uninit r tier_id.site
        (tier_block cfg t uninit r tier_id.page
          (tier_block cfg t uninit r tier_id.uri (start_state s))) := rfl

/-- A main request from an address that is neither whitelisted nor on hold goes
through the three tier blocks. -/
theorem access_checker_tiers (cfg : config) (t : Int) (uninit : CStr → Int) (s : ntt)
    (r : request_rec) (hprev : r.prev_null = true) (hmain : r.main_null = true)
    (hw : is_whitelisted s r.client_ip = false) (hh : on_hold cfg t s r.client_ip = false) :
    access_checker cfg t uninit (some s) r =
      { hit_list := some (tiers cfg t uninit r s).hit_list,
        ret := (tiers cfg t uninit r s).ret, reason := (tiers cfg t uninit r s).reason } := by
  unfold on_hold at hh
  simp only [access_checker, hprev, hmain, hw, Bool.and_self, if_true]
  cases hx : (ntt_find s r.client_ip).filter
      (fun p => decide (t - p.2.timestamp < cfg.blocking_period)) with
  | none => simp
  | some q => rw [hx] at hh; simp at hh

/-- C2 (amended). For a main request from an address that is neither whitelisted
nor on hold, the reason `access_checker` reports is that of the LAST tier that
fires in the order URI, page, site (each later firing tier replaces the reason of
an earlier one), and when some tier fires the call returns `HTTP_FORBIDDEN` and the
hold node of the address stores that same reason. -/
theorem reason_of_last_firing_tier (cfg : config) (t : Int) (uninit : CStr → Int) (s : ntt)
    (r : request_rec) (hwf : ntt_wf s) (hprev : r.prev_null = true)
    (hmain : r.main_null = true) (hw : is_whitelisted s r.client_ip = false)
    (hh : on_hold cfg t s r.client_ip = false)
    (f1 f2 f3 : Bool)
    (h1 : f1 = tier_fires cfg t r tier_id.uri (start_state s))
    (h2 : f2 = tier_fires cfg t r tier_id.page
      (tier_block cfg t uninit r tier_id.uri (start_state s)))
    (h3 : f3 = tier_fires cfg t r tier_id.site
      (tier_block cfg t uninit r tier_id.page
        (tier_block cfg t uninit r tier_id.uri (start_state s)))) :
    (access_checker cfg t uninit (some s) r).reason = last_firing_code f1 f2 f3 ∧
    ((f1 || f2 || f3) = true →
      (access_checker cfg t uninit (some s) r).ret = HTTP_FORBIDDEN ∧
      ∃ s', (access_checker cfg t uninit (some s) r).hit_list = some s' ∧
        has_hold_reason s' r.client_ip (last_firing_code f1 f2 f3)) := by
  rw [access_checker_tiers cfg t uninit s r hprev hmain hw hh, tiers_eq]
  have hwf0 : ntt_wf (start_state s).hit_list := hwf
  have hwf1 := tier_block_wf cfg t uninit r tier_id.uri _ hwf0
  have hwf2 := tier_block_wf cfg t uninit r tier_id.page _ hwf1
  obtain ⟨a1, b1, c1, d1⟩ := tier_block_reason cfg t uninit r tier_id.uri _ hwf0
  obtain ⟨a2, b2, c2, d2⟩ := tier_block_reason cfg t uninit r tier_id.page _ hwf1
  obtain ⟨a3, b3, c3, d3⟩ := tier_block_reason cfg t uninit r tier_id.site _ hwf2
  rw [← h1] at a1 b1 c1 d1
  rw [← h2] at a2 b2 c2 d2
  rw [← h3] at a3 b3 c3 d3
  simp only
  refine ⟨?_, fun hany => ⟨?_, _, rfl, ?_⟩⟩
  · rw [a3, a2, a1]
    cases f1 <;> cases f2 <;> cases f3 <;> rfl
  · rw [b3, b2, b1]
    cases f1 <;> cases f2 <;> cases f3 <;> first | rfl | exact absurd hany (by decide)
  · cases f3 with
    | true => simpa [last_firing_code] using c3 rfl
    | false =>
      cases f2 with
      | true => simpa [last_firing_code] using d3 rfl _ (c2 rfl)
      | false =>
        cases f1 with
        | true => simpa [last_firing_code] using d3 rfl _ (d2 rfl _ (c1 rfl))
        | false => exact absurd hany (by decide)

/-! ## Concrete runs -/

theorem warm_table_wf : ntt_wf warm_table := by
  unfold ntt_wf
  decide

/-- C7 at a concrete state: the URI entry of `req0` in `warm_table` was last seen in
second 1000 with count 2; a request in second 1005 resets it. -/
theorem window_reset_witness :
    tier_fires default_config 1005 req0 tier_id.uri (start_state warm_table) = false ∧
    ntt_find (tier_block default_config 1005 (fun _ => 7) req0 tier_id.uri
        (start_state warm_table)).hit_list (uri_key req0) =
      some (⟨31, 0⟩, { key := uri_key req0, reason := 0, timestamp := 1005, count := 1 }) :=
  have h := window_reset default_config 1005 (fun _ => 7) req0 tier_id.uri
    (start_state warm_table) ⟨31, 0⟩
    { key := uri_key req0, reason := 0, timestamp := 1000, count := 2 } (by decide) (by decide)
  ⟨h.1, h.2.2.2.1⟩

/-- C2 as stated fails: on the fourth request `req0` in second 1000 both the URI
tier and the page tier fire, and the reason reported and stored on the hold node
is 2 (page), not 1 (URI, the first tier that fires). -/
theorem reason_first_firing_counterexample :
    is_whitelisted warm_table req0.client_ip = false ∧
    on_hold default_config 1000 warm_table req0.client_ip = false ∧
    tier_fires default_config 1000 req0 tier_id.uri (start_state warm_table) = true ∧
    tier_fires default_config 1000 req0 tier_id.page
      (tier_block default_config 1000 (fun _ => 7) req0 tier_id.uri (start_state warm_table))
      = true ∧
    (access_checker default_config 1000 (fun _ => 7) (some warm_table) req0).reason = 2 ∧
    (access_checker default_config 1000 (fun _ => 7) (some warm_table) req0).reason ≠
      first_firing_code true true false ∧
    (ntt_find (serve default_config 1000 (fun _ => 7) req0 warm_table) req0.client_ip).map
      (fun p => p.2.reason) = some 2 := by
  decide

/-- C2 (amended) at the same request: URI and page fire, site does not. -/
theorem reason_of_last_firing_tier_witness :
    (access_checker default_config 1000 (fun _ => 7) (some warm_table) req0).reason =
      last_firing_code true true false :=
  (reason_of_last_firing_tier default_config 1000 (fun _ => 7) warm_table req0 warm_table_wf
    rfl rfl (by decide) (by decide) true true false (by decide) (by decide) (by decide)).1

/-- C1 as stated fails: with the default configuration (`uri_count = 2`,
`uri_interval = 1`) and an empty table, the third request `req0` in second 1000 is
still allowed; the first `HTTP_FORBIDDEN` comes on the fourth. -/
theorem escalation_counterexample :
    default_config.uri_count = 2 ∧ default_config.uri_interval = 1 ∧
    is_whitelisted table53 req0.client_ip = false ∧
    ntt_find table53 req0.client_ip = none ∧
    has_request_header req0 Range = false ∧
    (access_checker default_config 1000 (fun _ => 7) (some table53) req0).ret = OK ∧
    (access_checker default_config 1000 (fun _ => 7)
      (some (serve default_config 1000 (fun _ => 7) req0 table53)) req0).ret = OK ∧
    (access_checker default_config 1000 (fun _ => 7)
      (some (serve default_config 1000 (fun _ => 7) req0
        (serve default_config 1000 (fun _ => 7) req0 table53))) req0).ret = OK ∧
    (access_checker default_config 1000 (fun _ => 7) (some warm_table) req0).ret
      = HTTP_FORBIDDEN := by
  decide

/-- C3 fails on the code: the table `page_warm_table` has no node for the address;
the request `/?d` in second 1000 makes the page tier (alone) fire, and the hold
node `ntt_insert` creates has `timestamp = 0` and the indeterminate `count` (7
here), not `timestamp = 1000` and `count = 0`; the next request from the address,
two seconds later and well inside `blocking_period = 10`, is allowed. -/
theorem fresh_hold_node_not_stamped :
    is_whitelisted page_warm_table req0.client_ip = false ∧
    ntt_find page_warm_table req0.client_ip = none ∧
    tier_fires default_config 1000 (req_q [100]) tier_id.page
      (tier_block default_config 1000 (fun _ => 7) (req_q [100]) tier_id.uri
        (start_state page_warm_table)) = true ∧
    (access_checker default_config 1000 (fun _ => 7) (some page_warm_table) (req_q [100])).ret
      = HTTP_FORBIDDEN ∧
    (access_checker default_config 1000 (fun _ => 7) (some page_warm_table)
      (req_q [100])).reason = 2 ∧
    (ntt_find (serve default_config 1000 (fun _ => 7) (req_q [100]) page_warm_table)
        req0.client_ip).map (fun p => p.2) =
      some { key := req0.client_ip, reason := 2, timestamp := 0, count := 7 } ∧
    (access_checker default_config 1002 (fun _ => 7)
      (some (serve default_config 1000 (fun _ => 7) (req_q [100]) page_warm_table))
      (req_q [100])).ret = OK := by
  decide

/-! ## The effect of a tier block on the nodes stored under each key -/

theorem ntt_get_modify (s : ntt) (key : CStr) (p : ntt_ptr) (nd : ntt_node)
    (f : ntt_node → ntt_node) (hf : ∀ x, (f x).key = x.key)
    (h : ntt_find s key = some (p, nd)) (k : CStr) :
    ntt_get (ntt_modify s p f) k = if k = key then some (f nd) else ntt_get s k := by
  unfold ntt_get
  by_cases hk : k = key
  · rw [if_pos hk, hk, ntt_find_modify_self s key p nd f hf h]; rfl
  · rw [if_neg hk, ntt_find_modify_other s key k p nd f hf h hk]

theorem ntt_get_insert (s : ntt) (hwf : ntt_wf s) (k : CStr) (ts rs now u : Int) (k' : CStr) :
    ntt_get (ntt_insert s k ts rs now u).1 k' =
      if k' = k then
        some (match ntt_get s k with
          | some x => reset_node ts rs x
          | none => fresh_node k rs u)
      else ntt_get s k' := by
  unfold ntt_get
  rw [ntt_find_insert s k ts rs now u hwf k']
  by_cases hk : k' = k
  · simp only [if_pos hk, Option.map_some']
    cases ntt_find s k <;> rfl
  · simp only [if_neg hk]

/-- A pointer obtained from `ntt_find` still designates the node of that key after
an `ntt_insert`. -/
theorem ntt_find_insert_stable (s : ntt) (hwf : ntt_wf s) (k : CStr) (ts rs now u : Int)
    (key : CStr) (n : ntt_ptr) (node : ntt_node) (h : ntt_find s key = some (n, node)) :
    ntt_find (ntt_insert s k ts rs now u).1 key =
      some (n, if key = k then reset_node ts rs node else node) := by
  rw [ntt_find_insert s k ts rs now u hwf key]
  by_cases hk : key = k
  · subst hk
    rw [if_pos rfl, if_pos rfl, ntt_insert_of_find_some s key ts rs now u n node h, h]
  · rw [if_neg hk, if_neg hk, h]

theorem fires_on_get (cfg : config) (t : Int) (r : request_rec) (tr : tier_id)
    (st : checker_state) :
    tier_fires cfg t r tr st =
      fires_on t (tier_interval cfg tr) (tier_count cfg tr)
        (ntt_get st.hit_list (tier_key r tr)) := by
  unfold tier_fires fires_on ntt_get
  cases ntt_find st.hit_list (tier_key r tr) with
  | none => rfl
  | some q => rfl

/-- The effect of one block, key by key, when its key is not the bare address. -/
theorem tier_check_effect (t : Int) (uninit : CStr → Int) (ip key : CStr)
    (interval count code : Int) (counted : Bool) (st : checker_state)
    (hwf : ntt_wf st.hit_list) (hne : key ≠ ip) (k : CStr) :
    ntt_get (tier_check t uninit ip key interval count code counted st).hit_list k =
      if k = key then own_update t interval counted key (uninit key) (ntt_get st.hit_list key)
      else if k = ip then
        hold_update t code ip (uninit ip)
          (fires_on t interval count (ntt_get st.hit_list key)) (ntt_get st.hit_list ip)
      else ntt_get st.hit_list k := by
  cases hf : ntt_find st.hit_list key with
  | none =>
    have hg : ntt_get st.hit_list key = none := by simp [ntt_get, hf]
    rw [tier_check_miss _ _ _ _ _ _ _ _ st hf, hg]
    simp only [ntt_get_insert _ hwf, hg, own_update, fires_on, hold_update]
    by_cases hk : k = key
    · simp [hk]
    · by_cases hi : k = ip
      · simp [hk, hi]
      · simp [hk, hi]
  | some q =>
    obtain ⟨n, node⟩ := q
    have hg : ntt_get st.hit_list key = some node := by simp [ntt_get, hf]
    by_cases hq : t - node.timestamp < interval ∧ node.count ≥ count
    · have hfo : fires_on t interval count (some node) = true := by
        simp only [fires_on, Bool.and_eq_true, decide_eq_true_eq]; exact hq
      have hnel : ¬ (t - node.timestamp ≥ interval) := by omega
      rw [tier_check_fire _ _ _ _ _ _ _ _ st n node hf hq, hg, hfo]
      have hst := ntt_find_insert_stable st.hit_list hwf ip t code t (uninit ip) key n node hf
      rw [if_neg hne] at hst
      refine (ntt_get_modify _ key n node _ ?_ hst k).trans ?_
      · intro x; rfl
      · by_cases hk : k = key
        · simp only [if_pos hk, own_update, if_neg hnel]
        · simp only [if_neg hk, ntt_get_insert _ hwf, hold_update, if_true]
    · have hfo : fires_on t interval count (some node) = false := by
        simp only [fires_on, Bool.and_eq_false_iff, decide_eq_false_iff_not]
        by_cases h1 : t - node.timestamp < interval
        · exact Or.inr (fun h2 => hq ⟨h1, h2⟩)
        · exact Or.inl h1
      rw [tier_check_quiet _ _ _ _ _ _ _ _ st n node hf hq, hg, hfo]
      refine (ntt_get_modify _ key n node _ ?_ hf k).trans ?_
      · intro x; rfl
      · by_cases hk : k = key
        · simp only [if_pos hk, own_update]
        · simp only [if_neg hk, hold_update, Bool.false_eq_true, if_false]
          by_cases hi : k = ip
          · rw [if_pos hi, hi]
          · rw [if_neg hi]

/-! ## Separation of the keys of one request -/

theorem take_tail_ne_site (ip x : CStr) (m : Nat) (hm : ip.length + 6 ≤ m) (hx : (95 : Int) ∈ x) :
    (ip ++ us ++ x).take m ≠ ip ++ [95, 83, 73, 84, 69] := by
  intro h
  have hlen := congrArg List.length h
  simp only [List.length_take, List.length_append, us, List.length_cons, List.length_nil] at hlen
  have hxl : x.length = 4 := by omega
  rw [List.take_of_length_le (by simp [us]; omega)] at h
  have h2 : us ++ x = [95, 83, 73, 84, 69] := by
    rw [List.append_assoc] at h
    exact List.append_cancel_left h
  simp only [us, List.singleton_append, List.cons.injEq, true_and] at h2
  rw [h2] at hx
  revert hx
  decide

theorem take_ne_left (ip x : CStr) (m : Nat) (hm : ip.length < m) (hx : x ≠ []) :
    (ip ++ x).take m ≠ ip := by
  intro h
  have hlen := congrArg List.length h
  simp only [List.length_take, List.length_append] at hlen
  have : 0 < x.length := List.length_pos.mpr hx
  omega

theorem keys_apart_of_short_ip (r : request_rec) (h : r.client_ip.length ≤ 2041) :
    keys_apart r := by
  unfold keys_apart uri_key page_key site_key snprintf
  refine ⟨?_, ?_, ?_, ?_, ?_⟩
  · simp only [List.append_assoc]
    exact take_ne_left _ _ _ (by omega) (by simp [us])
  · simp only [List.append_assoc]
    exact take_ne_left _ _ _ (by omega) (by simp [us])
  · exact take_ne_left _ _ _ (by omega) (by simp)
  · rw [List.take_of_length_le (l := r.client_ip ++ [95, 83, 73, 84, 69]) (by simp; omega)]
    have := take_tail_ne_site r.client_ip (r.hostname ++ us ++ r.uri ++ us ++ r.args)
      (2048 - 1) (by omega) (by simp [us])
    simpa only [List.append_assoc] using this
  · rw [List.take_of_length_le (l := r.client_ip ++ [95, 83, 73, 84, 69]) (by simp; omega)]
    have := take_tail_ne_site r.client_ip (r.hostname ++ us ++ r.uri)
      (2048 - 1) (by omega) (by simp [us])
    simpa only [List.append_assoc] using this

theorem uri_key_ne_page_key_of_fit (r : request_rec) (h : keys_fit r) :
    uri_key r ≠ page_key r := by
  unfold uri_key page_key snprintf
  intro he
  have hlen := congrArg List.length he
  have h1 := h.1
  simp only [List.length_take, List.length_append, us, List.length_cons, List.length_nil]
    at hlen h1
  omega

theorem tail_ne_site (ip x : CStr) (hx : (95 : Int) ∈ x) :
    ip ++ us ++ x ≠ ip ++ [95, 83, 73, 84, 69] := by
  intro h
  have h2 : us ++ x = [95, 83, 73, 84, 69] := by
    rw [List.append_assoc] at h
    exact List.append_cancel_left h
  simp only [us, List.singleton_append, List.cons.injEq, true_and] at h2
  rw [h2] at hx
  revert hx
  decide

theorem keys_apart_of_fit (r : request_rec) (h : keys_fit r) : keys_apart r := by
  have h1 := h.1
  have h2 := h.2
  have h3 : (r.client_ip ++ us ++ r.hostname ++ us ++ r.uri).length ≤ 2047 := by
    simp only [List.length_append] at h1 ⊢
    omega
  unfold keys_apart uri_key page_key site_key snprintf
  rw [List.take_of_length_le (l := r.client_ip ++ [95, 83, 73, 84, 69]) (by omega),
    List.take_of_length_le (l := r.client_ip ++ us ++ r.hostname ++ us ++ r.uri) (by omega),
    List.take_of_length_le
      (l := r.client_ip ++ us ++ r.hostname ++ us ++ r.uri ++ us ++ r.args) (by omega)]
  refine ⟨?_, ?_, ?_, ?_, ?_⟩
  · intro he
    have := congrArg List.length he
    simp [us] at this
  · intro he
    have := congrArg List.length he
    simp [us] at this
  · intro he
    have := congrArg List.length he
    simp at this
  · have := tail_ne_site r.client_ip (r.hostname ++ us ++ r.uri ++ us ++ r.args) (by simp [us])
    simpa only [List.append_assoc] using this
  · have := tail_ne_site r.client_ip (r.hostname ++ us ++ r.uri) (by simp [us])
    simpa only [List.append_assoc] using this

/-! ## Requests with a `Range` header -/

theorem tier_block_effect (cfg : config) (t : Int) (uninit : CStr → Int) (r : request_rec)
    (tr : tier_id) (st : checker_state) (hwf : ntt_wf st.hit_list)
    (hne : tier_key r tr ≠ r.client_ip) (k : CStr) :
    ntt_get (tier_block cfg t uninit r tr st).hit_list k =
      if k = tier_key r tr then
        own_update t (tier_interval cfg tr) (tier_counted r tr) (tier_key r tr)
          (uninit (tier_key r tr)) (ntt_get st.hit_list (tier_key r tr))
      else if k = r.client_ip then
        hold_update t (tier_code tr) r.client_ip (uninit r.client_ip)
          (tier_fires cfg t r tr st) (ntt_get st.hit_list r.client_ip)
      else ntt_get st.hit_list k := by
  rw [tier_block_eq, fires_on_get]
  exact tier_check_effect t uninit _ _ _ _ _ _ st hwf hne k

theorem tier_block_other (cfg : config) (t : Int) (uninit : CStr → Int) (r : request_rec)
    (tr : tier_id) (st : checker_state) (hwf : ntt_wf st.hit_list)
    (hne : tier_key r tr ≠ r.client_ip) (k : CStr) (hk : k ≠ tier_key r tr)
    (hi : k ≠ r.client_ip) :
    ntt_get (tier_block cfg t uninit r tr st).hit_list k = ntt_get st.hit_list k := by
  rw [tier_block_effect cfg t uninit r tr st hwf hne k, if_neg hk, if_neg hi]

theorem tier_block_own (cfg : config) (t : Int) (uninit : CStr → Int) (r : request_rec)
    (tr : tier_id) (st : checker_state) (hwf : ntt_wf st.hit_list)
    (hne : tier_key r tr ≠ r.client_ip) :
    ntt_get (tier_block cfg t uninit r tr st).hit_list (tier_key r tr) =
      own_update t (tier_interval cfg tr) (tier_counted r tr) (tier_key r tr)
        (uninit (tier_key r tr)) (ntt_get st.hit_list (tier_key r tr)) := by
  rw [tier_block_effect cfg t uninit r tr st hwf hne _, if_pos rfl]

theorem count_kept_refl (x : Option ntt_node) : count_kept x x :=
  fun a h => ⟨a, h, Or.inl rfl⟩

theorem count_kept_trans (x y z : Option ntt_node) (h1 : count_kept x y) (h2 : count_kept y z) :
    count_kept x z := by
  intro a ha
  obtain ⟨b, hb, hb'⟩ := h1 a ha
  obtain ⟨c, hc, hc'⟩ := h2 b hb
  refine ⟨c, hc, ?_⟩
  rcases hc' with h | h
  · rw [h]; exact hb'
  · exact Or.inr h

theorem count_kept_own_update (t interval : Int) (key : CStr) (u : Int) (x : Option ntt_node) :
    count_kept x (own_update t interval false key u x) := by
  intro a ha
  subst ha
  refine ⟨_, rfl, ?_⟩
  simp only [hit, Bool.false_eq_true, if_false, add_zero]
  by_cases h : t - a.timestamp ≥ interval
  · exact Or.inr (if_pos h)
  · exact Or.inl (if_neg h)

theorem tier_block_count_kept (cfg : config) (t : Int) (uninit : CStr → Int) (r : request_rec)
    (tr : tier_id) (st : checker_state) (hwf : ntt_wf st.hit_list)
    (hne : tier_key r tr ≠ r.client_ip) (k : CStr) (hi : k ≠ r.client_ip)
    (hk : k ≠ tier_key r tr ∨ tier_counted r tr = false) :
    count_kept (ntt_get st.hit_list k) (ntt_get (tier_block cfg t uninit r tr st).hit_list k) := by
  by_cases hkk : k = tier_key r tr
  · rcases hk with hk | hk
    · exact absurd hkk hk
    · rw [hkk, tier_block_own cfg t uninit r tr st hwf hne, hk]
      exact count_kept_own_update _ _ _ _ _
  · rw [tier_block_other cfg t uninit r tr st hwf hne k hkk hi]
    exact count_kept_refl _

/-- C8. For a main request with a non-empty `Range` header from an address of at
most 2041 chars that is neither whitelisted nor on hold: the count of the URI-tier
entry and of the page-tier entry, when present, is kept or becomes 0 (exactly: it
becomes 0 when the tier's window has elapsed and is kept otherwise, when the two
keys differ), and the count of the site-tier entry, when present, becomes one more
than its value after the reset for an elapsed window. -/
theorem range_exclusion (cfg : config) (t : Int) (uninit : CStr → Int) (s : ntt)
    (r : request_rec) (hwf : ntt_wf s) (hprev : r.prev_null = true)
    (hmain : r.main_null = true) (hw : is_whitelisted s r.client_ip = false)
    (hh : on_hold cfg t s r.client_ip = false) (hrange : has_request_header r Range = true)
    (hip : r.client_ip.length ≤ 2041) :
    ∃ s', (access_checker cfg t uninit (some s) r).hit_list = some s' ∧
      (∀ a, ntt_get s (uri_key r) = some a → ∃ b, ntt_get s' (uri_key r) = some b ∧
        (b.count = a.count ∨ b.count = 0) ∧
        (uri_key r ≠ page_key r →
          b.count = if t - a.timestamp ≥ cfg.uri_interval then 0 else a.count)) ∧
      (∀ a, ntt_get s (page_key r) = some a → ∃ b, ntt_get s' (page_key r) = some b ∧
        (b.count = a.count ∨ b.count = 0) ∧
        (uri_key r ≠ page_key r →
          b.count = if t - a.timestamp ≥ cfg.page_interval then 0 else a.count)) ∧
      (∀ a, ntt_get s (site_key r) = some a → ∃ b, ntt_get s' (site_key r) = some b ∧
        b.count = (if t - a.timestamp ≥ cfg.site_interval then 0 else a.count) + 1) := by
  obtain ⟨hu, hp, hs, hus, hps⟩ := keys_apart_of_short_ip r hip
  rw [access_checker_tiers cfg t uninit s r hprev hmain hw hh, tiers_eq]
  have hwf0 : ntt_wf (start_state s).hit_list := hwf
  have hwf1 := tier_block_wf cfg t uninit r tier_id.uri _ hwf0
  have hwf2 := tier_block_wf cfg t uninit r tier_id.page _ hwf1
  have cu : tier_counted r tier_id.uri = false := by simp [tier_counted, hrange]
  have cp : tier_counted r tier_id.page = false := by simp [tier_counted, hrange]
  refine ⟨_, rfl, ?_, ?_, ?_⟩
  · intro a ha
    have k1 := tier_block_count_kept cfg t uninit r tier_id.uri (start_state s) hwf0 hu
      (uri_key r) hu (Or.inr cu)
    have k2 := tier_block_count_kept cfg t uninit r tier_id.page _ hwf1 hp
      (uri_key r) hu (Or.inr cp)
    have k3 := tier_block_count_kept cfg t uninit r tier_id.site _ hwf2 hs
      (uri_key r) hu (Or.inl hus)
    obtain ⟨b, hb, hb'⟩ := count_kept_trans _ _ _ (count_kept_trans _ _ _ k1 k2) k3 a ha
    refine ⟨b, hb, hb', fun hne => ?_⟩
    have e1 := tier_block_own cfg t uninit r tier_id.uri _ hwf0 hu
    rw [cu] at e1
    simp only [tier_key, tier_interval] at e1
    rw [tier_block_other cfg t uninit r tier_id.site _ hwf2 hs _ hus hu,
      tier_block_other cfg t uninit r tier_id.page _ hwf1 hp _ hne hu, e1,
      show ntt_get (start_state s).hit_list (uri_key r) = some a from ha] at hb
    simp only [own_update, Option.some.injEq] at hb
    rw [← hb]
    simp [hit]
  · intro a ha
    have k1 := tier_block_count_kept cfg t uninit r tier_id.uri (start_state s) hwf0 hu
      (page_key r) hp (Or.inr cu)
    have k2 := tier_block_count_kept cfg t uninit r tier_id.page _ hwf1 hp
      (page_key r) hp (Or.inr cp)
    have k3 := tier_block_count_kept cfg t uninit r tier_id.site _ hwf2 hs
      (page_key r) hp (Or.inl hps)
    obtain ⟨b, hb, hb'⟩ := count_kept_trans _ _ _ (count_kept_trans _ _ _ k1 k2) k3 a ha
    refine ⟨b, hb, hb', fun hne => ?_⟩
    have e1 := tier_block_own cfg t uninit r tier_id.page _ hwf1 hp
    rw [cp] at e1
    simp only [tier_key, tier_interval] at e1
    rw [tier_block_other cfg t uninit r tier_id.site _ hwf2 hs _ hps hp, e1,
      tier_block_other cfg t uninit r tier_id.uri _ hwf0 hu _ (Ne.symm hne) hp,
      show ntt_get (start_state s).hit_list (page_key r) = some a from ha] at hb
    simp only [own_update, Option.some.injEq] at hb
    rw [← hb]
    simp [hit]
  · intro a ha
    refine ⟨⟨a.key, a.reason, t,
      (if t - a.timestamp ≥ cfg.site_interval then 0 else a.count) + 1⟩, ?_, ?_⟩
    · have e1 := tier_block_own cfg t uninit r tier_id.site _ hwf2 hs
      simp only [tier_key, tier_interval, tier_counted] at e1
      rw [e1, tier_block_other cfg t uninit r tier_id.page _ hwf1 hp _ (Ne.symm hps) hs,
        tier_block_other cfg t uninit r tier_id.uri _ hwf0 hu _ (Ne.symm hus) hs,
        show ntt_get (start_state s).hit_list (site_key r) = some a from ha]
      simp [own_update, hit]
    · rfl

/-- C8 at a concrete request: `req0` with `Range: bytes=0-1` on `warm_table`. -/
theorem range_exclusion_witness :
    has_request_header req0_range Range = true ∧
    ∃ s', (access_checker default_config 1000 (fun _ => 7) (some warm_table)
        req0_range).hit_list = some s' ∧
      ∀ a, ntt_get warm_table (site_key req0_range) = some a →
        ∃ b, ntt_get s' (site_key req0_range) = some b ∧
          b.count =
            (if 1000 - a.timestamp ≥ default_config.site_interval then 0 else a.count) + 1 := by
  refine ⟨by decide, ?_⟩
  obtain ⟨s', h1, -, -, h4⟩ := range_exclusion default_config 1000 (fun _ => 7) warm_table
    req0_range warm_table_wf rfl rfl (by decide) (by decide) (by decide) (by decide)
  exact ⟨s', h1, h4⟩

/-! ## The effect of a whole request when the keys are separate -/

/-- The effect of the three blocks, key by key, when the four keys of the request
are pairwise different. -/
theorem tiers_effect (cfg : config) (t : Int) (uninit : CStr → Int) (s : ntt) (r : request_rec)
    (hwf : ntt_wf s) (hap : keys_apart r) (hup : uri_key r ≠ page_key r)
    (f1 f2 f3 : Bool)
    (h1 : f1 = fires_on t cfg.uri_interval cfg.uri_count (ntt_get s (uri_key r)))
    (h2 : f2 = fires_on t cfg.page_interval cfg.page_count (ntt_get s (page_key r)))
    (h3 : f3 = fires_on t cfg.site_interval cfg.site_count (ntt_get s (site_key r))) :
    (tiers cfg t uninit r s).ret = (if (f1 || f2 || f3) = true then HTTP_FORBIDDEN else OK) ∧
    (tiers cfg t uninit r s).reason = last_firing_code f1 f2 f3 ∧
    ntt_get (tiers cfg t uninit r s).hit_list (uri_key r) =
      own_update t cfg.uri_interval (!has_request_header r Range) (uri_key r)
        (uninit (uri_key r)) (ntt_get s (uri_key r)) ∧
    ntt_get (tiers cfg t uninit r s).hit_list (page_key r) =
      own_update t cfg.page_interval (!has_request_header r Range) (page_key r)
        (uninit (page_key r)) (ntt_get s (page_key r)) ∧
    ntt_get (tiers cfg t uninit r s).hit_list (site_key r) =
      own_update t cfg.site_interval true (site_key r)
        (uninit (site_key r)) (ntt_get s (site_key r)) ∧
    ntt_get (tiers cfg t uninit r s).hit_list r.client_ip =
      hold_update t 3 r.client_ip (uninit r.client_ip) f3
        (hold_update t 2 r.client_ip (uninit r.client_ip) f2
          (hold_update t 1 r.client_ip (uninit r.client_ip) f1 (ntt_get s r.client_ip))) ∧
    (∀ k, k ≠ r.client_ip → k ≠ uri_key r → k ≠ page_key r → k ≠ site_key r →
      ntt_get (tiers cfg t uninit r s).hit_list k = ntt_get s k) ∧
    ntt_wf (tiers cfg t uninit r s).hit_list := by
  obtain ⟨hu, hp, hs, hus, hps⟩ := hap
  rw [tiers_eq]
  have hwf0 : ntt_wf (start_state s).hit_list := hwf
  have hwf1 := tier_block_wf cfg t uninit r tier_id.uri _ hwf0
  have hwf2 := tier_block_wf cfg t uninit r tier_id.page _ hwf1
  have hwf3 := tier_block_wf cfg t uninit r tier_id.site _ hwf2
  have e1 := tier_block_effect cfg t uninit r tier_id.uri _ hwf0 hu
  have e2 := tier_block_effect cfg t uninit r tier_id.page _ hwf1 hp
  have e3 := tier_block_effect cfg t uninit r tier_id.site _ hwf2 hs
  obtain ⟨a1, b1, -, -⟩ := tier_block_reason cfg t uninit r tier_id.uri _ hwf0
  obtain ⟨a2, b2, -, -⟩ := tier_block_reason cfg t uninit r tier_id.page _ hwf1
  obtain ⟨a3, b3, -, -⟩ := tier_block_reason cfg t uninit r tier_id.site _ hwf2
  simp only [tier_key, tier_interval, tier_counted, tier_code] at e1 e2 e3
  have z : (start_state s).hit_list = s := rfl
  rw [z] at e1
  have g1 : tier_fires cfg t r tier_id.uri (start_state s) = f1 := by
    rw [fires_on_get, h1]; rfl
  have g2 : tier_fires cfg t r tier_id.page
      (tier_block cfg t uninit r tier_id.uri (start_state s)) = f2 := by
    rw [fires_on_get, h2]
    simp only [tier_key, tier_interval, tier_count, e1, if_neg (Ne.symm hup), if_neg hp]
  have g3 : tier_fires cfg t r tier_id.site
      (tier_block cfg t uninit r tier_id.page
        (tier_block cfg t uninit r tier_id.uri (start_state s))) = f3 := by
    rw [fires_on_get, h3]
    simp only [tier_key, tier_interval, tier_count, e2, e1, if_neg (Ne.symm hps),
      if_neg (Ne.symm hus), if_neg hs]
  rw [g1] at a1 b1 e1
  rw [g2] at a2 b2 e2
  rw [g3] at a3 b3 e3
  refine ⟨?_, ?_, ?_, ?_, ?_, ?_, ?_, hwf3⟩
  · rw [b3, b2, b1]
    cases f1 <;> cases f2 <;> cases f3 <;> rfl
  · rw [a3, a2, a1]
    cases f1 <;> cases f2 <;> cases f3 <;> rfl
  · simp only [e3, e2, e1, if_neg hus, if_neg hu, if_neg hup, if_true]
  · simp only [e3, e2, e1, if_neg hps, if_neg hp, if_neg (Ne.symm hup), if_true]
  · simp only [e3, e2, e1, if_neg (Ne.symm hps), if_neg hs, if_neg (Ne.symm hus), if_true]
  · simp only [e3, e2, e1, if_neg (Ne.symm hs), if_neg (Ne.symm hp), if_neg (Ne.symm hu),
      if_true]
  · intro k k0 k1 k2 k3
    simp only [e3, e2, e1, if_neg k0, if_neg k1, if_neg k2, if_neg k3]

/-! ## Four requests in one second -/

theorem ntt_get_eq_none (s : ntt) (k : CStr) : ntt_get s k = none ↔ ntt_find s k = none := by
  unfold ntt_get
  cases ntt_find s k <;> simp

theorem is_whitelisted_get (s : ntt) (ip : CStr) :
    is_whitelisted s ip = (whitelist_keys ip).any (fun k => (ntt_get s k).isSome) := by
  unfold is_whitelisted ntt_get
  congr 1
  funext k
  cases ntt_find s k <;> rfl

theorem whitelist_keys_head (ip k : CStr) (h : k ∈ whitelist_keys ip) : k.head? = some 87 := by
  simp only [whitelist_keys, List.mem_cons, List.mem_singleton, List.not_mem_nil, or_false] at h
  rcases h with h | h | h | h <;> rw [h] <;> simp [snprintf, WHITELIST_]

theorem take_append_head (ip x : CStr) (m : Nat) (hm : 0 < m) (hx : x.head? ≠ some 87)
    (hip : ip.head? ≠ some 87) : ((ip ++ x).take m).head? ≠ some 87 := by
  cases m with
  | zero => omega
  | succ m =>
    cases ip with
    | nil =>
      cases x with
      | nil => simp
      | cons c rest => simpa using hx
    | cons c rest => simpa using hip

theorem tier_keys_head (r : request_rec) (h : r.client_ip.head? ≠ some 87) :
    (uri_key r).head? ≠ some 87 ∧ (page_key r).head? ≠ some 87 ∧
      (site_key r).head? ≠ some 87 := by
  unfold uri_key page_key site_key snprintf
  refine ⟨?_, ?_, ?_⟩
  · simp only [List.append_assoc]
    exact take_append_head _ _ _ (by omega) (by simp [us]) h
  · simp only [List.append_assoc]
    exact take_append_head _ _ _ (by omega) (by simp [us]) h
  · exact take_append_head _ _ _ (by omega) (by simp) h

/-- One request from an address that is not whitelisted and has no hold node, when
the keys of the request are pairwise different. -/
theorem request_step (cfg : config) (t : Int) (uninit : CStr → Int) (s : ntt) (r : request_rec)
    (hwf : ntt_wf s) (hprev : r.prev_null = true) (hmain : r.main_null = true)
    (hfit : keys_fit r) (hhead : r.client_ip.head? ≠ some 87)
    (hw : is_whitelisted s r.client_ip = false) (hi : ntt_get s r.client_ip = none)
    (f1 f2 f3 : Bool)
    (h1 : f1 = fires_on t cfg.uri_interval cfg.uri_count (ntt_get s (uri_key r)))
    (h2 : f2 = fires_on t cfg.page_interval cfg.page_count (ntt_get s (page_key r)))
    (h3 : f3 = fires_on t cfg.site_interval cfg.site_count (ntt_get s (site_key r))) :
    (access_checker cfg t uninit (some s) r).ret =
      (if (f1 || f2 || f3) = true then HTTP_FORBIDDEN else OK) ∧
    (access_checker cfg t uninit (some s) r).reason = last_firing_code f1 f2 f3 ∧
    ntt_get (serve cfg t uninit r s) (uri_key r) =
      own_update t cfg.uri_interval (!has_request_header r Range) (uri_key r)
        (uninit (uri_key r)) (ntt_get s (uri_key r)) ∧
    ntt_get (serve cfg t uninit r s) (page_key r) =
      own_update t cfg.page_interval (!has_request_header r Range) (page_key r)
        (uninit (page_key r)) (ntt_get s (page_key r)) ∧
    ntt_get (serve cfg t uninit r s) (site_key r) =
      own_update t cfg.site_interval true (site_key r)
        (uninit (site_key r)) (ntt_get s (site_key r)) ∧
    ntt_get (serve cfg t uninit r s) r.client_ip =
      hold_update t 3 r.client_ip (uninit r.client_ip) f3
        (hold_update t 2 r.client_ip (uninit r.client_ip) f2
          (hold_update t 1 r.client_ip (uninit r.client_ip) f1 none)) ∧
    ((f1 || f2 || f3) = false → is_whitelisted (serve cfg t uninit r s) r.client_ip = false) ∧
    ntt_wf (serve cfg t uninit r s) := by
  have hh : on_hold cfg t s r.client_ip = false := by
    unfold on_hold
    rw [(ntt_get_eq_none s _).mp hi]
    rfl
  have hac := access_checker_tiers cfg t uninit s r hprev hmain hw hh
  have hserve : serve cfg t uninit r s = (tiers cfg t uninit r s).hit_list := by
    unfold serve; rw [hac]; rfl
  obtain ⟨e1, e2, e3, e4, e5, e6, e7, e8⟩ := tiers_effect cfg t uninit s r hwf
    (keys_apart_of_fit r hfit) (uri_key_ne_page_key_of_fit r hfit) f1 f2 f3 h1 h2 h3
  rw [hserve, hac]
  rw [hi] at e6
  refine ⟨e1, e2, e3, e4, e5, e6, ?_, e8⟩
  intro hnone
  rw [is_whitelisted_get] at hw ⊢
  rw [List.any_eq_false] at hw ⊢
  intro k hk
  obtain ⟨t1, t2, t3⟩ := tier_keys_head r hhead
  have hkh := whitelist_keys_head _ k hk
  by_cases hki : k = r.client_ip
  · rw [hki, e6]
    cases f1 <;> cases f2 <;> cases f3 <;> simp_all [hold_update]
  · have hku : k ≠ uri_key r := fun h => t1 (h ▸ hkh)
    have hkp : k ≠ page_key r := fun h => t2 (h ▸ hkh)
    have hks : k ≠ site_key r := fun h => t3 (h ▸ hkh)
    rw [e7 k hki hku hkp hks]
    exact hw k hk

theorem fires_on_none (t interval count : Int) : fires_on t interval count none = false := rfl

theorem fires_on_fresh (t interval count : Int) (key : CStr) (rs u : Int) (ht : interval ≤ t) :
    fires_on t interval count (some (fresh_node key rs u)) = false := by
  simp only [fires_on, fresh_node, Bool.and_eq_false_iff, decide_eq_false_iff_not]
  left; omega

theorem fires_on_low (t interval count : Int) (node : ntt_node) (h : node.count < count) :
    fires_on t interval count (some node) = false := by
  simp only [fires_on, Bool.and_eq_false_iff, decide_eq_false_iff_not]
  right; omega

/-- C1 (amended). With `uri_count = 2` and `uri_interval = 1`, page and site counts
above 2, a clock second `t` that is at least 1 and at least the page and site
intervals, and a table that has no node under any of the four keys of the request:
four successive main requests without `Range` header from the same non-whitelisted
address (not starting with `W`) with the same host, uri and query text, whose keys
fit the key buffer, all in second `t`, return `OK`, `OK`, `OK`, `HTTP_FORBIDDEN`
with reason 1 (URI); there is no hold node before the fourth request and the
fourth leaves one with reason 1. -/
theorem escalation_on_fourth_request (cfg : config) (t : Int) (u1 u2 u3 u4 : CStr → Int)
    (s : ntt) (r : request_rec) (hwf : ntt_wf s)
    (hprev : r.prev_null = true) (hmain : r.main_null = true)
    (hnr : has_request_header r Range = false) (hfit : keys_fit r)
    (hhead : r.client_ip.head? ≠ some 87) (hw : is_whitelisted s r.client_ip = false)
    (h0i : ntt_find s r.client_ip = none) (h0u : ntt_find s (uri_key r) = none)
    (h0p : ntt_find s (page_key r) = none) (h0s : ntt_find s (site_key r) = none)
    (huc : cfg.uri_count = 2) (hui : cfg.uri_interval = 1)
    (hpc : 2 < cfg.page_count) (hsc : 2 < cfg.site_count)
    (ht : 1 ≤ t) (htp : cfg.page_interval ≤ t) (hts : cfg.site_interval ≤ t) :
    (access_checker cfg t u1 (some s) r).ret = OK ∧
    (access_checker cfg t u2 (some (serve cfg t u1 r s)) r).ret = OK ∧
    (access_checker cfg t u3 (some (serve cfg t u2 r (serve cfg t u1 r s))) r).ret = OK ∧
    ntt_find (serve cfg t u3 r (serve cfg t u2 r (serve cfg t u1 r s))) r.client_ip = none ∧
    (access_checker cfg t u4
      (some (serve cfg t u3 r (serve cfg t u2 r (serve cfg t u1 r s)))) r).ret
        = HTTP_FORBIDDEN ∧
    (access_checker cfg t u4
      (some (serve cfg t u3 r (serve cfg t u2 r (serve cfg t u1 r s)))) r).reason = 1 ∧
    has_hold_reason
      (serve cfg t u4 r (serve cfg t u3 r (serve cfg t u2 r (serve cfg t u1 r s))))
      r.client_ip 1 := by
  have g0i := (ntt_get_eq_none s _).mpr h0i
  have g0u := (ntt_get_eq_none s _).mpr h0u
  have g0p := (ntt_get_eq_none s _).mpr h0p
  have g0s := (ntt_get_eq_none s _).mpr h0s
  have hc : (!has_request_header r Range) = true := by rw [hnr]; rfl
  -- first request: the three entries are created
  obtain ⟨a1, -, b1, c1, d1, i1, w1, wf1⟩ := request_step cfg t u1 s r hwf hprev hmain hfit
    hhead hw g0i false false false (by rw [g0u]; rfl) (by rw [g0p]; rfl) (by rw [g0s]; rfl)
  rw [g0u] at b1
  rw [g0p] at c1
  rw [g0s] at d1
  simp only [own_update] at b1 c1 d1
  simp only [hold_update, Bool.false_eq_true, if_false] at i1
  have w1' := w1 rfl
  -- second request: the windows of the fresh entries have elapsed
  obtain ⟨a2, -, b2, c2, d2, i2, w2, wf2⟩ := request_step cfg t u2 _ r wf1 hprev hmain hfit
    hhead w1' i1 false false false
    (by rw [b1, fires_on_fresh _ _ _ _ _ _ (by omega)])
    (by rw [c1, fires_on_fresh _ _ _ _ _ _ htp])
    (by rw [d1, fires_on_fresh _ _ _ _ _ _ hts])
  rw [b1, hc] at b2
  rw [c1, hc] at c2
  rw [d1] at d2
  simp only [own_update, fresh_node, sub_zero, hit, if_true] at b2 c2 d2
  rw [if_pos (show t ≥ cfg.uri_interval by omega)] at b2
  rw [if_pos (show t ≥ cfg.page_interval by omega)] at c2
  rw [if_pos (show t ≥ cfg.site_interval by omega)] at d2
  simp only [hold_update, Bool.false_eq_true, if_false] at i2
  have w2' := w2 rfl
  -- third request: counts are 1, below every limit
  obtain ⟨a3, -, b3, c3, d3, i3, w3, wf3⟩ := request_step cfg t u3 _ r wf2 hprev hmain hfit
    hhead w2' i2 false false false
    (by rw [b2, fires_on_low _ _ _ _ (by simp; omega)])
    (by rw [c2, fires_on_low _ _ _ _ (by simp; omega)])
    (by rw [d2, fires_on_low _ _ _ _ (by simp; omega)])
  rw [b2, hc] at b3
  rw [c2, hc] at c3
  rw [d2] at d3
  simp only [own_update, sub_self, hit, if_true, zero_add] at b3 c3 d3
  rw [if_neg (show ¬ (0 ≥ cfg.uri_interval) by omega)] at b3
  simp only [hold_update, Bool.false_eq_true, if_false] at i3
  have w3' := w3 rfl
  -- fourth request: the URI entry has count 2 and was seen in this second
  obtain ⟨a4, r4, -, -, -, i4, -, -⟩ := request_step cfg t u4 _ r wf3 hprev hmain hfit
    hhead w3' i3 true false false
    (by rw [b3]; simp [fires_on, hui, huc])
    (by rw [c3, fires_on_low _ _ _ _ (by simp only; split <;> omega)])
    (by rw [d3, fires_on_low _ _ _ _ (by simp only; split <;> omega)])
  refine ⟨a1, a2, a3, (ntt_get_eq_none _ _).mp i3, a4, r4, ?_⟩
  simp only [hold_update, Bool.false_eq_true, if_false, if_true] at i4
  unfold has_hold_reason
  unfold ntt_get at i4
  cases hf : ntt_find (serve cfg t u4 r (serve cfg t u3 r (serve cfg t u2 r (serve cfg t u1 r s))))
      r.client_ip with
  | none => rw [hf] at i4; exact Option.noConfusion i4
  | some q =>
    obtain ⟨n, node⟩ := q
    rw [hf] at i4
    simp only [Option.map_some', Option.some.injEq] at i4
    exact ⟨n, node, rfl, by rw [i4]; rfl⟩

theorem table53_wf : ntt_wf table53 := by
  unfold ntt_wf
  decide

/-- C1 (amended) at a concrete run: four requests `req0` in second 1000 on the table
`ntt_create(53)` returns, with the page limit raised to 5. -/
theorem escalation_on_fourth_request_witness :
    keys_fit req0 ∧ is_whitelisted table53 req0.client_ip = false ∧
    (access_checker uri_only_config 1000 (fun _ => 7)
      (some (serve uri_only_config 1000 (fun _ => 7) req0
        (serve uri_only_config 1000 (fun _ => 7) req0
          (serve uri_only_config 1000 (fun _ => 7) req0 table53)))) req0).reason = 1 :=
  ⟨by unfold keys_fit; decide, by decide,
    (escalation_on_fourth_request uri_only_config 1000 (fun _ => 7) (fun _ => 7) (fun _ => 7)
      (fun _ => 7) table53 req0 table53_wf rfl rfl (by decide) (by unfold keys_fit; decide)
      (by decide) (by decide) (by decide) (by decide) (by decide) (by decide) rfl rfl
      (by decide) (by decide) (by decide) (by decide) (by decide)).2.2.2.2.2.1⟩

/-! ## The whitelist probe keys -/

set_option maxRecDepth 100000 in
/-- C6 as stated fails.  (1) For the address `1..2.3` the code skips the empty
component (`strtok`), so it probes `WHITELIST_1.2.*.*` and reports the address as
exempt on a table that holds only that key, although none of the four keys built
from the components `1`, empty, `2` is in the table.  (2) For an address of 118
chars the exact key is cut to 127 chars, so the code reports the address as exempt
on a table that holds only the cut key, which is none of the four keys. -/
theorem whitelist_keys_counterexample :
    (is_whitelisted white_table_12 ip_empty_component = true ∧
      (spec_whitelist_keys ip_empty_component).any (ntt_has_key white_table_12) = false) ∧
    (is_whitelisted white_table_long ip_long = true ∧
      (spec_whitelist_keys ip_long).any (ntt_has_key white_table_long) = false) := by
  decide

theorem spec_split_dot_eq (s : CStr) :
    spec_split_dot s = s.takeWhile (fun c => c ≠ 46) ::
      (match s.dropWhile (fun c => c ≠ 46) with
        | [] => []
        | _ :: tl => spec_split_dot tl) := by
  induction s with
  | nil => simp [spec_split_dot]
  | cons c rest ih =>
    by_cases hc : c = 46
    · simp [spec_split_dot, hc]
    · rw [spec_split_dot, if_neg hc, ih]
      simp [List.takeWhile_cons, List.dropWhile_cons, hc]

/-- The non-empty components of the split. -/
theorem strtok_dot_tokens (s : CStr) :
    match strtok_dot s with
    | none => (spec_split_dot s).filter (fun c => decide (c ≠ [])) = []
    | some (tok, rest) =>
      (spec_split_dot s).filter (fun c => decide (c ≠ [])) =
        tok :: (spec_split_dot rest).filter (fun c => decide (c ≠ [])) := by
  induction s with
  | nil => simp [strtok_dot, spec_split_dot]
  | cons c rest ih =>
    by_cases hc : c = 46
    · have h1 : strtok_dot (c :: rest) = strtok_dot rest := by
        simp [strtok_dot, hc, List.dropWhile_cons]
      rw [h1]
      have h2 : (spec_split_dot (c :: rest)).filter (fun c => decide (c ≠ [])) =
          (spec_split_dot rest).filter (fun c => decide (c ≠ [])) := by
        simp [spec_split_dot, hc]
      rw [h2]
      exact ih
    · have h1 : strtok_dot (c :: rest) =
          some (c :: rest.takeWhile (fun c => c ≠ 46),
            (rest.dropWhile (fun c => c ≠ 46)).drop 1) := by
        simp [strtok_dot, hc, List.dropWhile_cons, List.takeWhile_cons]
      rw [h1]
      simp only
      rw [spec_split_dot_eq (c :: rest)]
      simp only [List.takeWhile_cons, List.dropWhile_cons, hc, ne_eq, not_false_eq_true,
        decide_True, if_true]
      rw [List.filter_cons_of_pos (by simp)]
      congr 1
      cases hd : rest.dropWhile (fun c => c ≠ 46) with
      | nil => simp [spec_split_dot]
      | cons d tl => simp

theorem octet_loop_getD (k : Nat) (s : CStr) (i : Nat) :
    (octet_loop k s).getD i [] =
      if i < k then spec_cap3 (((spec_split_dot s).filter (fun c => decide (c ≠ []))).getD i [])
      else [] := by
  induction k generalizing s i with
  | zero => simp [octet_loop]
  | succ k ih =>
    have ht := strtok_dot_tokens s
    cases hs : strtok_dot s with
    | none =>
      rw [hs] at ht
      simp only at ht
      rw [octet_loop, hs, ht]
      simp only [List.getD_eq_getElem?_getD, List.getElem?_replicate]
      by_cases hi : i < k + 1
      · simp [hi, spec_cap3]
      · simp [hi]
    | some q =>
      obtain ⟨tok, rest⟩ := q
      rw [hs] at ht
      simp only at ht
      rw [octet_loop, hs, ht]
      cases i with
      | zero => simp [spec_cap3]
      | succ i =>
        simp only [List.getD_cons_succ, ih rest i, Nat.add_lt_add_iff_right]

theorem spec_cap3_length (c : CStr) : (spec_cap3 c).length ≤ 3 := by
  unfold spec_cap3
  split
  · assumption
  · simp

/-- Below 118 chars no probe key is cut, and the probe keys are the four keys built
from the non-empty components. -/
theorem whitelist_keys_eq_token_keys (ip : CStr) (h : ip.length ≤ 117) :
    whitelist_keys ip = token_whitelist_keys ip := by
  unfold whitelist_keys token_whitelist_keys spec_keys_of octets
  simp only [octet_loop_getD, Nat.lt_add_one, Nat.zero_lt_succ, Nat.one_lt_ofNat, if_true,
    show (1 : Nat) < 4 by omega, show (2 : Nat) < 4 by omega, show (0 : Nat) < 4 by omega]
  have l0 := spec_cap3_length
    (((spec_split_dot ip).filter (fun c => decide (c ≠ []))).getD 0 [])
  have l1 := spec_cap3_length
    (((spec_split_dot ip).filter (fun c => decide (c ≠ []))).getD 1 [])
  have l2 := spec_cap3_length
    (((spec_split_dot ip).filter (fun c => decide (c ≠ []))).getD 2 [])
  generalize spec_cap3 (((spec_split_dot ip).filter (fun c => decide (c ≠ []))).getD 0 []) = a0
    at l0 ⊢
  generalize spec_cap3 (((spec_split_dot ip).filter (fun c => decide (c ≠ []))).getD 1 []) = a1
    at l1 ⊢
  generalize spec_cap3 (((spec_split_dot ip).filter (fun c => decide (c ≠ []))).getD 2 []) = a2
    at l2 ⊢
  unfold snprintf
  rw [List.take_of_length_le (by simp [WHITELIST_]; omega),
    List.take_of_length_le (by simp [WHITELIST_, dot, star]; omega),
    List.take_of_length_le (by simp [WHITELIST_, dot, star]; omega),
    List.take_of_length_le (by simp [WHITELIST_, dot, star]; omega)]

theorem ntt_has_key_iff_find (s : ntt) (hinv : ntt_inv s) (k : CStr) :
    ntt_has_key s k = (ntt_find s k).isSome := by
  cases hf : ntt_find s k with
  | some q =>
    obtain ⟨p, nd⟩ := q
    have hm := mem_of_ntt_find s k p nd hf
    have hk := (ntt_find_some s k p nd hf).2.2.2
    simp only [ntt_has_key, Option.isSome_some, List.any_eq_true, decide_eq_true_eq]
    exact ⟨nd, hm, hk⟩
  | none =>
    simp only [ntt_has_key, Option.isSome_none, List.any_eq_false, decide_eq_true_eq]
    intro nd hnd hk
    obtain ⟨p, hp⟩ := ntt_find_of_mem s hinv nd hnd
    rw [hk, hf] at hp
    exact Option.noConfusion hp

/-- C6 (amended). For every table that satisfies the store invariant and every
address text of at most 117 chars, `is_whitelisted` returns true exactly when the
table contains one of the four keys `WHITELIST_<address>`, `WHITELIST_<c1>.*.*.*`,
`WHITELIST_<c1>.<c2>.*.*`, `WHITELIST_<c1>.<c2>.<c3>.*`, where `c1..c3` are the first
NON-EMPTY components of the address split on `'.'` (empty components are skipped),
a missing component is the empty string, and a component longer than 3 chars is
replaced by the empty string. -/
theorem whitelist_keys_tokens (s : ntt) (hinv : ntt_inv s) (ip : CStr)
    (hlen : ip.length ≤ 117) :
    is_whitelisted s ip = (token_whitelist_keys ip).any (ntt_has_key s) := by
  unfold is_whitelisted
  rw [whitelist_keys_eq_token_keys ip hlen]
  congr 1
  funext k
  exact (ntt_has_key_iff_find s hinv k).symm

theorem white_table_12_inv : ntt_inv white_table_12 :=
  reachable_inv _ (reachable.whitelist _ _ _ _ table53_reachable)

/-- C6 (amended) at the address `1..2.3` on a table that holds `WHITELIST_1.2.*.*`. -/
theorem whitelist_keys_tokens_witness :
    ip_empty_component.length ≤ 117 ∧
    is_whitelisted white_table_12 ip_empty_component =
      (token_whitelist_keys ip_empty_component).any (ntt_has_key white_table_12) :=
  ⟨by decide, whitelist_keys_tokens white_table_12 white_table_12_inv ip_empty_component
    (by decide)⟩

/-! ## Insert of a key that is absent, and lookups around an insert -/

/-- The node `ntt_insert` creates for a key that was absent. -/
theorem ntt_insert_new (s : ntt) (hwf : ntt_wf s) (k : CStr) (ts rs now u : Int)
    (h : ntt_find s k = none) :
    ntt_find (ntt_insert s k ts rs now u).1 k =
        some ((ntt_insert s k ts rs now u).2, fresh_node k rs u) ∧
      (ntt_insert s k ts rs now u).1.items = s.items + 1 := by
  refine ⟨?_, ?_⟩
  · rw [ntt_find_insert s k ts rs now u hwf k, if_pos rfl, h]
  · rw [ntt_insert_of_find_none s k ts rs now u h]

/-- C11 fails on the code: `ntt_insert(ntt, "1", 1000, 0)` on the empty table
`ntt_create(53)` returns does add exactly one node with that key and reason and
makes `items` 1, but the node has `timestamp = 0`, not 1000, and its `count` is
whatever the allocated memory held (7 here), not 0.  Likewise the URI entry a
first request `req0` in second 1000 leaves has `timestamp = 0` and `count = 7`. -/
theorem fresh_entry_not_stamped :
    ntt_find table53 [49] = none ∧
    (ntt_insert table53 [49] 1000 0 1000 7).1.entries =
      [{ key := [49], reason := 0, timestamp := 0, count := 7 }] ∧
    (ntt_insert table53 [49] 1000 0 1000 7).1.items = 1 ∧
    ntt_find table53 (uri_key req0) = none ∧
    ntt_get (serve default_config 1000 (fun _ => 7) req0 table53) (uri_key req0) =
      some { key := uri_key req0, reason := 0, timestamp := 0, count := 7 } := by
  decide

/-- C12. In a table that satisfies the store invariant: after `ntt_insert` of `k`,
`ntt_find` of `k` returns the pointer `ntt_insert` returned, and that pointer
designates a node with key `k`; for every other key `k'`, `ntt_find` returns what it
returned before the insert (the same pointer and node, or nothing); and `ntt_find`
returns a node exactly when the table contains a node with that exact key, in which
case the returned node carries the key and is the node its pointer designates. -/
theorem find_after_insert (s : ntt) (hinv : ntt_inv s) (k k' : CStr) (ts rs now u : Int) :
    (∃ nd, ntt_find (ntt_insert s k ts rs now u).1 k =
        some ((ntt_insert s k ts rs now u).2, nd) ∧
      (ntt_insert s k ts rs now u).1.deref (ntt_insert s k ts rs now u).2 = some nd ∧
      nd.key = k) ∧
    (k' ≠ k → ntt_find (ntt_insert s k ts rs now u).1 k' = ntt_find s k') ∧
    (ntt_find s k').isSome = ntt_has_key s k' ∧
    (∀ p nd, ntt_find s k' = some (p, nd) →
      nd.key = k' ∧ s.deref p = some nd ∧ nd ∈ s.entries) := by
  refine ⟨?_, ?_, (ntt_has_key_iff_find s hinv k').symm, ?_⟩
  · have h := ntt_find_insert s k ts rs now u hinv.wf k
    rw [if_pos rfl] at h
    have h2 := ntt_find_some _ _ _ _ h
    exact ⟨_, h, h2.2.2.1, h2.2.2.2⟩
  · intro hne
    rw [ntt_find_insert s k ts rs now u hinv.wf k', if_neg hne]
  · intro p nd hf
    have h2 := ntt_find_some _ _ _ _ hf
    exact ⟨h2.2.2.2, h2.2.2.1, mem_of_ntt_find s k' p nd hf⟩

/-- C12 at a concrete table: looking up `"2"` around an insert of `"1"`. -/
theorem find_after_insert_witness :
    ntt_inv table53_one ∧
    ntt_find (ntt_insert table53_one [49] 9 1 9 0).1 [50] = ntt_find table53_one [50] :=
  ⟨table53_one_inv,
    (find_after_insert table53_one table53_one_inv [49] [50] 9 1 9 0).2.1 (by decide)⟩

/-! ## Delete -/

theorem chain_find_eraseIdx_none (k : CStr) (c : List ntt_node) (i : Nat) (nd : ntt_node)
    (hnd : (c.map ntt_node.key).Nodup) (h : chain_find k c = some (i, nd)) :
    chain_find k (c.eraseIdx i) = none := by
  rw [chain_find_none_iff]
  intro x hx hk
  obtain ⟨j, hj, hjx⟩ := List.mem_eraseIdx_iff_getElem?.mp hx
  have h1 := chain_find_some k c i nd h
  have hjx' : c.get? j = some x := by simpa using hjx
  exact hj (nodup_keys_pos c hnd j i x nd hjx' h1.1 (hk.trans h1.2.symm))

/-- Deleting a key that `ntt_find` finds. -/
theorem ntt_delete_present (s : ntt) (hinv : ntt_inv s) (k : CStr) (p : ntt_ptr)
    (nd : ntt_node) (hf : ntt_find s k = some (p, nd)) :
    (ntt_delete s k).2 = 0 ∧
    ntt_find (ntt_delete s k).1 k = none ∧
    ntt_has_key (ntt_delete s k).1 k = false ∧
    (ntt_delete s k).1.items = s.items - 1 ∧
    ((ntt_delete s k).1.entries.length : Int) = s.entries.length - 1 ∧
    (ntt_delete s k).1.size = s.size ∧
    (∀ b, (ntt_delete s k).1.chain b =
      if b = p.bucket then (s.chain b).eraseIdx p.pos else s.chain b) := by
  have hlt : ntt_hashcode s k < s.tbl.length := by
    rw [hinv.wf.2]; exact ntt_hashcode_lt s k hinv.wf.1
  obtain ⟨hb, hc, -, -⟩ := ntt_find_some s k p nd hf
  have hdinv := ntt_delete_inv s k hinv
  rw [ntt_delete_of_some s k p.pos nd hc] at hdinv ⊢
  have hi := chain_find_lt k _ p.pos nd hc
  have hfn : ntt_find (s.put (ntt_hashcode s k)
      ((s.chain (ntt_hashcode s k)).eraseIdx p.pos) (s.items - 1)) k = none := by
    rw [ntt_find_none, put_hashcode, put_chain s _ _ _ hlt, if_pos rfl]
    exact chain_find_eraseIdx_none k _ p.pos nd (hinv.nodup _) hc
  refine ⟨rfl, hfn, ?_, rfl, ?_, rfl, ?_⟩
  · rw [ntt_has_key_iff_find _ hdinv, hfn]; rfl
  · have := put_entries_length s (ntt_hashcode s k)
      ((s.chain (ntt_hashcode s k)).eraseIdx p.pos) (s.items - 1) hlt
    rw [List.length_eraseIdx, if_pos hi] at this
    simp only at this ⊢
    rw [this]
    have : 1 ≤ (s.chain (ntt_hashcode s k)).length := by omega
    push_cast [this]
    omega
  · intro b
    simp only
    rw [put_chain s _ _ _ hlt, hb]
    by_cases hbb : b = ntt_hashcode s k
    · rw [if_pos hbb, if_pos hbb, hbb]
    · rw [if_neg hbb, if_neg hbb]

/-- C13. In a table that satisfies the store invariant: when `ntt_find` finds the
key (at pointer `p`), `ntt_delete` returns 0, afterwards `ntt_find` of the key finds
nothing, `items` is one less, the chain of the key's bucket is the old chain without
the node at `p` (the other nodes in their old order) and every other chain is
unchanged; when the table contains no node with the key, `ntt_delete` returns -5
and the table, `items` included, is unchanged.  Present and absent are the only
cases: `ntt_find` finds the key exactly when the table contains it. -/
theorem delete_spec (s : ntt) (hinv : ntt_inv s) (k : CStr) :
    (∀ p nd, ntt_find s k = some (p, nd) →
      (ntt_delete s k).2 = 0 ∧
      ntt_find (ntt_delete s k).1 k = none ∧
      ntt_has_key (ntt_delete s k).1 k = false ∧
      (ntt_delete s k).1.items = s.items - 1 ∧
      ((ntt_delete s k).1.entries.length : Int) = s.entries.length - 1 ∧
      (ntt_delete s k).1.size = s.size ∧
      (∀ b, (ntt_delete s k).1.chain b =
        if b = p.bucket then (s.chain b).eraseIdx p.pos else s.chain b)) ∧
    (ntt_has_key s k = false → ntt_delete s k = (s, -5)) ∧
    (ntt_find s k).isSome = ntt_has_key s k := by
  refine ⟨fun p nd hf => ntt_delete_present s hinv k p nd hf, ?_,
    (ntt_has_key_iff_find s hinv k).symm⟩
  intro hno
  rw [ntt_has_key_iff_find s hinv] at hno
  have hnone : ntt_find s k = none := by
    cases hf : ntt_find s k with
    | none => rfl
    | some q => rw [hf] at hno; exact Bool.noConfusion hno
  exact ntt_delete_of_none s k ((ntt_find_none s k).mp hnone)

/-- C13 at a concrete table: deleting the only key of `table53_one`, and a key that
is not there. -/
theorem delete_spec_witness :
    ntt_inv table53_one ∧ (ntt_delete table53_one [49]).1.items = 0 ∧
    ntt_delete table53_one [50] = (table53_one, -5) :=
  ⟨table53_one_inv,
    ((delete_spec table53_one table53_one_inv [49]).1 ⟨49, 0⟩ (fresh_node [49] 0 7)
      (by decide)).2.2.2.1.trans (by decide),
    (delete_spec table53_one table53_one_inv [50]).2.1 (by decide)⟩

/-! ## Creation: the size chosen -/

theorem ntt_prime_list_sorted : ntt_prime_list.Pairwise (fun a b => a < b) := by decide

theorem ntt_create_scan_least (size : Nat) (l : List Nat)
    (hs : l.Pairwise (fun a b => a < b)) (p : Nat) (h : ntt_create_scan size l = some p) :
    size ≤ p ∧ ∀ q ∈ l, size ≤ q → p ≤ q := by
  induction l with
  | nil => simp [ntt_create_scan] at h
  | cons x rest ih =>
    have hs' := List.pairwise_cons.mp hs
    by_cases hx : x < size
    · simp only [ntt_create_scan, if_pos hx] at h
      obtain ⟨h1, h2⟩ := ih hs'.2 h
      refine ⟨h1, fun q hq hsq => ?_⟩
      rcases List.mem_cons.mp hq with rfl | hq'
      · omega
      · exact h2 q hq' hsq
    · simp only [ntt_create_scan, if_neg hx, Option.some.injEq] at h
      subst h
      refine ⟨by omega, fun q hq _ => ?_⟩
      rcases List.mem_cons.mp hq with rfl | hq'
      · exact le_refl _
      · exact le_of_lt (hs'.1 q hq')

theorem ntt_create_scan_some (size : Nat) (l : List Nat) (q : Nat) (hq : q ∈ l)
    (hsq : size ≤ q) : ∃ p, ntt_create_scan size l = some p := by
  induction l with
  | nil => simp at hq
  | cons x rest ih =>
    by_cases hx : x < size
    · simp only [ntt_create_scan, if_pos hx]
      rcases List.mem_cons.mp hq with rfl | hq'
      · omega
      · exact ih hq'
    · exact ⟨x, by simp only [ntt_create_scan, if_neg hx]⟩

theorem ntt_create_scan_none (size : Nat) (l : List Nat) (h : ∀ q ∈ l, q < size) :
    ntt_create_scan size l = none := by
  induction l with
  | nil => rfl
  | cons x rest ih =>
    have hx : x < size := h x (List.mem_cons_self _ _)
    simp only [ntt_create_scan, if_pos hx]
    exact ih (fun q hq => h q (List.mem_cons_of_mem _ hq))

theorem ntt_create_of_scan (n : Int) (p : Nat)
    (h : ntt_create_scan (n % 18446744073709551616).toNat ntt_prime_list = some p) :
    ntt_create n =
      create_result.table { size := p, items := 0, tbl := List.replicate p [] } := by
  unfold ntt_create
  rw [h]

/-- C16. For every requested size `n` with `1 <= n <= 4294967291`, `ntt_create`
(allocation succeeding) returns a table with `items = 0`, every bucket empty, and
`size` equal to the least entry of `ntt_prime_list` that is `>= n`; `ntt_create(100)`
has size 193 and `ntt_create(53)` has size 53. -/
theorem capacity_rounding (n : Int) (h1 : 1 ≤ n) (h2 : n ≤ 4294967291) :
    (∃ p : Nat, ntt_create n =
        create_result.table { size := p, items := 0, tbl := List.replicate p [] } ∧
      p ∈ ntt_prime_list ∧ n ≤ (p : Int) ∧
      (∀ q ∈ ntt_prime_list, n ≤ (q : Int) → p ≤ q) ∧
      (∀ b, ntt.chain { size := p, items := 0, tbl := List.replicate p [] } b = []) ∧
      (List.replicate p ([] : List ntt_node)).length = p) ∧
    ntt_create 100 =
      create_result.table { size := 193, items := 0, tbl := List.replicate 193 [] } ∧
    ntt_create 53 =
      create_result.table { size := 53, items := 0, tbl := List.replicate 53 [] } := by
  refine ⟨?_, ntt_create_of_scan 100 193 (by decide), ntt_create_of_scan 53 53 (by decide)⟩
  have hn : (n % 18446744073709551616).toNat = n.toNat := by
    rw [Int.emod_eq_of_lt (by omega) (by omega)]
  have hle : n.toNat ≤ 4294967291 := by omega
  obtain ⟨p, hp⟩ := ntt_create_scan_some n.toNat ntt_prime_list 4294967291 (by decide) hle
  obtain ⟨l1, l2⟩ := ntt_create_scan_least n.toNat ntt_prime_list ntt_prime_list_sorted p hp
  refine ⟨p, ?_, ntt_create_scan_mem _ _ _ hp, by omega, fun q hq hnq => l2 q hq (by omega),
    fun b => replicate_nil_getD p b, by simp⟩
  unfold ntt_create
  rw [hn, hp]

/-- C16 at `n = 1000`: the size is 1543. -/
theorem capacity_rounding_witness :
    (1 : Int) ≤ 1000 ∧ (1000 : Int) ≤ 4294967291 ∧
    ntt_create 1000 =
      create_result.table { size := 1543, items := 0, tbl := List.replicate 1543 [] } := by
  refine ⟨by decide, by decide, ?_⟩
  obtain ⟨p, hp, hmem, hle, hleast, -⟩ := (capacity_rounding 1000 (by decide) (by decide)).1
  have h1 : p ≤ 1543 := hleast 1543 (by decide) (by decide)
  have h2 : (1000 : Int) ≤ p := hle
  have h3 : p = 1543 := by
    have hm : ∀ q ∈ ntt_prime_list, 1000 ≤ q → q ≤ 1543 → q = 1543 := by decide
    exact hm p hmem (by omega) h1
  rw [hp, h3]

/-- C17 fails on the code: for `n = 4294967292` (and every larger `long`) all 28
entries of `ntt_prime_list` are below `n`, so the loop
`while (ntt_prime_list[i] < size) i++` leaves the array (it reads
`ntt_prime_list[28]`); there is no bound on `i` and no path that returns `NULL` for
a size that is too large. -/
theorem create_reads_past_prime_list :
    (∀ q ∈ ntt_prime_list, q < 4294967292) ∧
    ntt_create_scan 4294967292 ntt_prime_list = none ∧
    ntt_create 4294967292 = create_result.out_of_bounds ∧
    ntt_create 4294967292 ≠ create_result.null ∧
    ntt_create 9223372036854775807 = create_result.out_of_bounds := by
  decide

/-! ## The hash code -/

theorem ntt_hashcode_loop_eq_foldl (val : Int) (key : CStr) :
    ntt_hashcode_loop val key =
      key.foldl (fun h c => (5 * h + c) % 18446744073709551616) val := by
  induction key generalizing val with
  | nil => rfl
  | cons c rest ih => simp only [ntt_hashcode_loop, List.foldl_cons, ih]

/-- C19. For every table `ntt_create` returns and every key, `ntt_hashcode` is
`h mod size`, where `h` is the fold of `h := 5 * h + byte` over the key from 0 in
unsigned 64-bit arithmetic; it is below `size` and below the length of the bucket
array, so it always designates a bucket. -/
theorem hashcode_spec (n : Int) (s : ntt) (h : ntt_create n = create_result.table s)
    (key : CStr) :
    (ntt_hashcode s key : Int) = spec_hash_fold key % (s.size : Int) ∧
    0 ≤ spec_hash_fold key ∧ spec_hash_fold key < 18446744073709551616 ∧
    ntt_hashcode s key < s.size ∧ ntt_hashcode s key < s.tbl.length := by
  have hinv := ntt_create_inv n s h
  have hlt := ntt_hashcode_lt s key hinv.wf.1
  have hpos : (0 : Int) < (s.size : Int) := by exact_mod_cast hinv.wf.1
  refine ⟨?_, ?_, ?_, hlt, by rw [hinv.wf.2]; exact hlt⟩
  · unfold ntt_hashcode spec_hash_fold
    rw [← ntt_hashcode_loop_eq_foldl]
    exact Int.toNat_of_nonneg (Int.emod_nonneg _ (ne_of_gt hpos))
  · unfold spec_hash_fold
    induction key using List.reverseRecOn with
    | nil => simp
    | append_singleton l a _ =>
      rw [List.foldl_append]
      exact Int.emod_nonneg _ (by decide)
  · unfold spec_hash_fold
    induction key using List.reverseRecOn with
    | nil => simp
    | append_singleton l a _ =>
      rw [List.foldl_append]
      exact Int.emod_lt_of_pos _ (by decide)

/-- C19 at the table `ntt_create(53)` and the key `"1.2.3.4"`. -/
theorem hashcode_spec_witness :
    ntt_create 53 = create_result.table table53 ∧
    ntt_hashcode table53 (cstr "1.2.3.4") < table53.tbl.length :=
  ⟨by decide, (hashcode_spec 53 table53 (by decide) (cstr "1.2.3.4")).2.2.2.2⟩

/-! ## The configuration setters -/

theorem long_to_int_of_range (n : Int) (h1 : -2147483648 ≤ n) (h2 : n ≤ 2147483647) :
    long_to_int n = n := by
  unfold long_to_int
  rw [Int.emod_eq_of_lt (by omega) (by omega)]
  omega

/-- What the setters do for values that fit an `int`: the default for `n <= 0`, `n`
itself for `0 < n <= 2147483647`; the hash table size keeps every positive `long`. -/
theorem setters_in_int_range (n : Int) (hlo : -9223372036854775808 ≤ n)
    (hhi : n ≤ 9223372036854775807) :
    (n ≤ 0 → get_hash_tbl_size n = 3097 ∧ get_uri_count n = 2 ∧ get_page_count n = 2 ∧
      get_site_count n = 50 ∧ get_uri_interval n = 1 ∧ get_page_interval n = 1 ∧
      get_site_interval n = 1 ∧ get_blocking_period n = 10) ∧
    (0 < n → get_hash_tbl_size n = n) ∧
    (0 < n → n ≤ 2147483647 → get_uri_count n = n ∧ get_page_count n = n ∧
      get_site_count n = n ∧ get_uri_interval n = n ∧ get_page_interval n = n ∧
      get_site_interval n = n ∧ get_blocking_period n = n) := by
  refine ⟨fun h => ?_, fun h => ?_, fun h h' => ?_⟩
  · simp [get_hash_tbl_size, get_uri_count, get_page_count, get_site_count, get_uri_interval,
      get_page_interval, get_site_interval, get_blocking_period, h]
  · have : ¬ n ≤ 0 := by omega
    simp only [get_hash_tbl_size, if_neg this, long_to_ulong]
    exact Int.emod_eq_of_lt (by omega) (by omega)
  · have : ¬ n ≤ 0 := by omega
    have hc := long_to_int_of_range n (by omega) h'
    simp [get_uri_count, get_page_count, get_site_count, get_uri_interval,
      get_page_interval, get_site_interval, get_blocking_period, this, hc]

/-- C18 fails on the code: the seven `int` globals receive the `long` that `strtol`
returned by plain assignment, so a positive value above `INT_MAX` is narrowed:
`4294967296` leaves 0 and `2147483648` leaves `-2147483648`, neither positive nor
equal to `n`.  `hash_table_size`, an `unsigned long`, keeps the value. -/
theorem setter_narrows_long :
    get_page_count 4294967296 = 0 ∧ get_uri_count 4294967296 = 0 ∧
    get_site_count 4294967296 = 0 ∧ get_uri_interval 4294967296 = 0 ∧
    get_page_interval 4294967296 = 0 ∧ get_site_interval 4294967296 = 0 ∧
    get_blocking_period 4294967296 = 0 ∧
    get_blocking_period 2147483648 = -2147483648 ∧
    get_hash_tbl_size 4294967296 = 4294967296 := by
  decide

/-! ## Iteration -/

/-- The nodes of the buckets from index `i` on. -/
theorem entries_from_step (tbl : List (List ntt_node)) (i : Nat) (h : i < tbl.length) :
    (tbl.drop i).flatten = tbl.getD i [] ++ (tbl.drop (i + 1)).flatten := by
  rw [List.drop_eq_getElem_cons h, List.flatten_cons]
  simp [List.getD_eq_getElem?_getD, List.getElem?_eq_getElem h]

/-- What the scan of `c_ntt_next` finds: the first non-empty bucket from `i` on. -/
theorem c_ntt_scan_spec (s : ntt) (fuel i : Nat) (hf : s.size - i ≤ fuel) :
    match (c_ntt_scan s fuel i).1 with
    | [] => ∀ j, i ≤ j → j < s.size → s.chain j = []
    | node :: rest => ∃ b, i ≤ b ∧ b < s.size ∧ (∀ j, i ≤ j → j < b → s.chain j = []) ∧
        s.chain b = node :: rest ∧
        (c_ntt_scan s fuel i).2 = { iter_index := b + 1, iter_next := rest } := by
  induction fuel generalizing i with
  | zero =>
    simp only [c_ntt_scan]
    intro j h1 h2
    omega
  | succ fuel ih =>
    by_cases hi : i < s.size
    · cases hc : s.chain i with
      | nil =>
        have hstep : c_ntt_scan s (fuel + 1) i = c_ntt_scan s fuel (i + 1) := by
          simp only [c_ntt_scan, if_pos hi, hc]
        rw [hstep]
        have := ih (i + 1) (by omega)
        cases hr : (c_ntt_scan s fuel (i + 1)).1 with
        | nil =>
          rw [hr] at this
          simp only at this ⊢
          intro j h1 h2
          by_cases hj : j = i
          · rw [hj]; exact hc
          · exact this j (by omega) h2
        | cons node rest =>
          rw [hr] at this
          simp only at this ⊢
          obtain ⟨b, hb1, hb2, hb3, hb4, hb5⟩ := this
          refine ⟨b, by omega, hb2, ?_, hb4, hb5⟩
          intro j h1 h2
          by_cases hj : j = i
          · rw [hj]; exact hc
          · exact hb3 j (by omega) h2
      | cons node rest =>
        have hstep : c_ntt_scan s (fuel + 1) i =
            (node :: rest, { iter_index := i + 1, iter_next := rest }) := by
          simp only [c_ntt_scan, if_pos hi, hc]
        rw [hstep]
        exact ⟨i, le_refl _, hi, fun j h1 h2 => by omega, hc, rfl⟩
    · have hstep : c_ntt_scan s (fuel + 1) i = ([], { iter_index := i, iter_next := [] }) := by
        simp only [c_ntt_scan, if_neg hi]
      rw [hstep]
      intro j h1 h2
      omega

theorem flatten_drop_of_empty_add (s : ntt) (hwf : ntt_wf s) (i d : Nat)
    (hb : i + d ≤ s.size) (h : ∀ j, i ≤ j → j < i + d → s.chain j = []) :
    (s.tbl.drop i).flatten = (s.tbl.drop (i + d)).flatten := by
  induction d with
  | zero => rfl
  | succ d ih =>
    rw [ih (by omega) (fun j h1 h2 => h j h1 (by omega))]
    rw [entries_from_step s.tbl (i + d) (by rw [hwf.2]; omega)]
    have := h (i + d) (by omega) (by omega)
    unfold ntt.chain at this
    rw [this, List.nil_append]
    rfl

theorem flatten_drop_of_empty (s : ntt) (hwf : ntt_wf s) (i b : Nat) (hib : i ≤ b)
    (hb : b ≤ s.size) (h : ∀ j, i ≤ j → j < b → s.chain j = []) :
    (s.tbl.drop i).flatten = (s.tbl.drop b).flatten := by
  obtain ⟨d, rfl⟩ := Nat.exists_eq_add_of_le hib
  exact flatten_drop_of_empty_add s hwf i d hb h

/-- One call of `c_ntt_next` returns the first pending node, or `NULL` when none
is pending. -/
theorem c_ntt_next_spec (s : ntt) (hwf : ntt_wf s) (c : ntt_c) :
    match (c_ntt_next s c).1 with
    | [] => pending s c = []
    | node :: _ => pending s c = node :: pending s (c_ntt_next s c).2 := by
  cases hn : c.iter_next with
  | cons node rest =>
    have hstep : c_ntt_next s c = (node :: rest, { c with iter_next := rest }) := by
      simp only [c_ntt_next, hn]
    rw [hstep]
    simp only [pending, hn, List.cons_append]
  | nil =>
    have hstep : c_ntt_next s c = c_ntt_scan s (s.size - c.iter_index) c.iter_index := by
      simp only [c_ntt_next, hn]
    rw [hstep]
    have hs := c_ntt_scan_spec s (s.size - c.iter_index) c.iter_index (le_refl _)
    cases hr : (c_ntt_scan s (s.size - c.iter_index) c.iter_index).1 with
    | nil =>
      rw [hr] at hs
      simp only at hs ⊢
      simp only [pending, hn, List.nil_append]
      by_cases hlt : c.iter_index ≤ s.size
      · rw [flatten_drop_of_empty s hwf c.iter_index s.size hlt (le_refl _)
          (fun j h1 h2 => hs j h1 h2)]
        rw [List.drop_of_length_le (by rw [hwf.2])]
        rfl
      · rw [List.drop_of_length_le (by rw [hwf.2]; omega)]
        rfl
    | cons node rest =>
      rw [hr] at hs
      simp only at hs ⊢
      obtain ⟨b, hb1, hb2, hb3, hb4, hb5⟩ := hs
      simp only [pending, hn, List.nil_append, hb5]
      rw [flatten_drop_of_empty s hwf c.iter_index b hb1 (by omega) hb3,
        entries_from_step s.tbl b (by rw [hwf.2]; exact hb2)]
      unfold ntt.chain at hb4
      rw [hb4]
      rfl

theorem iterate_loop_spec (s : ntt) (hwf : ntt_wf s) (fuel : Nat) (node : node_ref)
    (c : ntt_c) (hfuel : (pending s c).length + 1 < fuel) :
    iterate_loop s fuel node c =
      some (match node with
        | [] => []
        | n :: _ => n :: pending s c) := by
  induction fuel generalizing node c with
  | zero => omega
  | succ fuel ih =>
    cases node with
    | nil => simp only [iterate_loop]
    | cons n rest =>
      simp only [iterate_loop]
      have hs := c_ntt_next_spec s hwf c
      cases hr : (c_ntt_next s c).1 with
      | nil =>
        rw [hr] at hs
        simp only at hs
        cases fuel with
        | zero => omega
        | succ fuel => simp only [iterate_loop, Option.map_some', hs]
      | cons m rest' =>
        rw [hr] at hs
        simp only at hs
        rw [ih (m :: rest') (c_ntt_next s c).2 (by
          rw [hs] at hfuel
          simp only [List.length_cons] at hfuel
          omega)]
        simp only [Option.map_some', hs]

/-- C14. For every table that satisfies the store invariant, calling `c_ntt_first`
and then `c_ntt_next` until it returns `NULL` reaches `NULL` (within
`entries + 2` calls, and any larger bound gives the same result) and the nodes
returned are exactly the nodes of the table, each once, bucket by bucket in index
order and within a bucket in chain order; their number equals `items`. -/
theorem iteration_complete (s : ntt) (hinv : ntt_inv s) (fuel : Nat)
    (hfuel : s.entries.length + 1 < fuel) :
    iterate s fuel = some s.entries ∧ s.entries = s.tbl.flatten ∧
    ∀ l, iterate s fuel = some l → (l.length : Int) = s.items := by
  have hwf := hinv.wf
  have hp0 : pending s { iter_index := 0, iter_next := [] } = s.entries := by
    simp [pending, ntt.entries]
  have hs := c_ntt_next_spec s hwf { iter_index := 0, iter_next := [] }
  have hit : iterate s fuel = some s.entries := by
    unfold iterate c_ntt_first
    cases hr : (c_ntt_next s { iter_index := 0, iter_next := [] }).1 with
    | nil =>
      rw [hr] at hs
      simp only at hs
      rw [hp0] at hs
      cases fuel with
      | zero => omega
      | succ fuel => simp only [iterate_loop, hs]
    | cons m rest =>
      rw [hr] at hs
      simp only at hs
      rw [hp0] at hs
      rw [iterate_loop_spec s hwf fuel _ _ (by
        have := congrArg List.length hs
        simp only [List.length_cons] at this
        omega)]
      simp only [hs]
  refine ⟨hit, rfl, ?_⟩
  intro l hl
  rw [hit] at hl
  simp only [Option.some.injEq] at hl
  rw [← hl, hinv.counted]

/-- C14 at the table `table53_one`: one node is returned. -/
theorem iteration_complete_witness :
    ntt_inv table53_one ∧ iterate table53_one 3 = some [fresh_node [49] 0 7] :=
  ⟨table53_one_inv,
    (iteration_complete table53_one table53_one_inv 3 (by decide)).1.trans (by decide)⟩

/-! ## Teardown -/

theorem chain_out_of_range (s : ntt) (hwf : ntt_wf s) (j : Nat) (h : s.size ≤ j) :
    s.chain j = [] := by
  unfold ntt.chain
  have hl : s.tbl.length ≤ j := by rw [hwf.2]; exact h
  simp [List.getD_eq_getElem?_getD, List.getElem?_eq_none hl]

theorem entries_nil_of_chains (s : ntt) (h : ∀ j, s.chain j = []) : s.entries = [] := by
  cases he : s.entries with
  | nil => rfl
  | cons nd rest =>
    obtain ⟨b, hb⟩ := mem_entries_chain s nd (by rw [he]; exact List.mem_cons_self _ _)
    rw [h b] at hb
    exact absurd hb (List.not_mem_nil _)

/-- Deleting the head of bucket `b` by its key. -/
theorem ntt_delete_head (s : ntt) (hinv : ntt_inv s) (b : Nat) (n : ntt_node)
    (rest : List ntt_node) (hc : s.chain b = n :: rest) :
    ntt_inv (ntt_delete s n.key).1 ∧
    (ntt_delete s n.key).1.size = s.size ∧
    (∀ j, (ntt_delete s n.key).1.chain j = if j = b then rest else s.chain j) ∧
    ((ntt_delete s n.key).1.entries.length : Int) = s.entries.length - 1 := by
  have hpl : ntt_hashcode s n.key = b := hinv.placed b n (by rw [hc]; exact List.mem_cons_self _ _)
  have hf : ntt_find s n.key = some (⟨b, 0⟩, n) := by
    unfold ntt_find
    rw [hpl, hc]
    simp [chain_find]
  obtain ⟨-, -, -, -, h5, h6, h7⟩ := ntt_delete_present s hinv n.key ⟨b, 0⟩ n hf
  refine ⟨ntt_delete_inv s n.key hinv, h6, ?_, h5⟩
  intro j
  rw [h7 j]
  by_cases hj : j = b
  · simp only [hj, if_true, hc, List.eraseIdx_cons_zero]
  · simp only [hj, if_false]

/-- One round of the loop keeps the loop state and removes one node. -/
theorem destroy_step (s : ntt) (hinv : ntt_inv s) (c : ntt_c) (n : ntt_node)
    (rest : List ntt_node) (hh : at_head s c (n :: rest)) :
    n.key ∉ (c_ntt_next s c).1.map ntt_node.key ∧
    ntt_inv (ntt_delete s n.key).1 ∧
    at_head (ntt_delete s n.key).1 (c_ntt_next s c).2 (c_ntt_next s c).1 ∧
    ((ntt_delete s n.key).1.entries.length : Int) = s.entries.length - 1 ∧
    (ntt_delete s n.key).1.size = s.size := by
  rcases hh with ⟨h, -⟩ | ⟨b, hb, hi, hlow, hc, -, hnx⟩
  · exact absurd h (List.cons_ne_nil _ _)
  obtain ⟨d1, d2, d3, d4⟩ := ntt_delete_head s hinv b n rest hc
  have hnd := hinv.nodup b
  rw [hc] at hnd
  simp only [List.map_cons, List.nodup_cons] at hnd
  simp only [List.tail_cons] at hnx
  cases hr : rest with
  | cons m rest2 =>
    have hstep : c_ntt_next s c = (m :: rest2, { c with iter_next := rest2 }) := by
      simp only [c_ntt_next, hnx, hr]
    rw [hstep]
    refine ⟨by rw [← hr]; exact hnd.1, d1, ?_, d4, d2⟩
    right
    refine ⟨b, by rw [d2]; exact hb, hi, ?_, ?_, List.cons_ne_nil _ _, rfl⟩
    · intro j hj
      rw [d3 j, if_neg (by omega)]
      exact hlow j hj
    · rw [d3 b, if_pos rfl, hr]
  | nil =>
    have hstep : c_ntt_next s c = c_ntt_scan s (s.size - (b + 1)) (b + 1) := by
      simp only [c_ntt_next, hnx, hr, hi]
    rw [hstep]
    have hs := c_ntt_scan_spec s (s.size - (b + 1)) (b + 1) (le_refl _)
    cases hq : (c_ntt_scan s (s.size - (b + 1)) (b + 1)).1 with
    | nil =>
      rw [hq] at hs
      simp only at hs
      refine ⟨by simp, d1, ?_, d4, d2⟩
      left
      refine ⟨rfl, fun j => ?_⟩
      rw [d3 j]
      by_cases hj : j = b
      · rw [if_pos hj, hr]
      · rw [if_neg hj]
        by_cases hjb : j < b
        · exact hlow j hjb
        · by_cases hjs : j < s.size
          · exact hs j (by omega) hjs
          · exact chain_out_of_range s hinv.wf j (by omega)
    | cons m rest2 =>
      rw [hq] at hs
      simp only at hs
      obtain ⟨b2, e1, e2, e3, e4, e5⟩ := hs
      refine ⟨?_, d1, ?_, d4, d2⟩
      · intro hmem
        obtain ⟨x, hx, hxk⟩ := List.mem_map.mp hmem
        have p1 := hinv.placed b2 x (by rw [e4]; exact hx)
        have p2 := hinv.placed b n (by rw [hc]; exact List.mem_cons_self _ _)
        rw [hxk, p2] at p1
        omega
      · right
        rw [e5]
        refine ⟨b2, by rw [d2]; exact e2, rfl, ?_, ?_, List.cons_ne_nil _ _, rfl⟩
        · intro j hj
          rw [d3 j]
          by_cases hjb : j = b
          · rw [if_pos hjb, hr]
          · rw [if_neg hjb]
            by_cases hjl : j < b
            · exact hlow j hjl
            · exact e3 j (by omega) hj
        · rw [d3 b2, if_neg (by omega), e4]

theorem destroy_loop_spec (fuel : Nat) (s : ntt) (hinv : ntt_inv s) (c : ntt_c)
    (node : node_ref) (hh : at_head s c node) (hfuel : s.entries.length < fuel) :
    ∃ s1, destroy_loop fuel s c node = loop_result.done s1 ∧ s1.size = s.size ∧
      ntt_inv s1 ∧ ∀ j, s1.chain j = [] := by
  induction fuel generalizing s c node with
  | zero => omega
  | succ fuel ih =>
    cases node with
    | nil =>
      rcases hh with ⟨-, h⟩ | ⟨b, -, -, -, -, hne, -⟩
      · exact ⟨s, by simp only [destroy_loop], rfl, hinv, h⟩
      · exact absurd rfl hne
    | cons n rest =>
      obtain ⟨h1, h2, h3, h4, h5⟩ := destroy_step s hinv c n rest hh
      simp only [destroy_loop, if_neg h1]
      obtain ⟨s1, e1, e2, e3, e4⟩ := ih _ h2 _ _ h3 (by omega)
      exact ⟨s1, e1, e2.trans h5, e3, e4⟩

theorem c_ntt_first_at_head (s : ntt) (hinv : ntt_inv s) :
    at_head s (c_ntt_first s).2 (c_ntt_first s).1 := by
  have hstep : c_ntt_first s = c_ntt_scan s s.size 0 := by
    simp only [c_ntt_first, c_ntt_next, Nat.sub_zero]
  rw [hstep]
  have hs := c_ntt_scan_spec s s.size 0 (by omega)
  cases hq : (c_ntt_scan s s.size 0).1 with
  | nil =>
    rw [hq] at hs
    simp only at hs
    left
    refine ⟨rfl, fun j => ?_⟩
    by_cases hj : j < s.size
    · exact hs j (by omega) hj
    · exact chain_out_of_range s hinv.wf j (by omega)
  | cons m rest =>
    rw [hq] at hs
    simp only at hs
    obtain ⟨b, e1, e2, e3, e4, e5⟩ := hs
    right
    rw [e5]
    exact ⟨b, e2, rfl, fun j hj => e3 j (by omega) hj, e4, List.cons_ne_nil _ _, rfl⟩

/-- C15. For every table that satisfies the store invariant, the loop of
`ntt_destroy` (fetch the node after the current one, then delete the current one by
its key) never uses a freed node and reaches `node == NULL` within one round per
node (any bound above the number of nodes gives the same result); when the table
is then released every bucket is empty, there are no nodes and `items` is 0, and
`ntt_destroy` returns 0.  For a null table `ntt_destroy` returns -1 and does
nothing. -/
theorem teardown_complete (s : ntt) (hinv : ntt_inv s) (fuel : Nat)
    (hfuel : s.entries.length < fuel) :
    (∃ s1, ntt_destroy (some s) fuel = destroy_result.returned 0 (some s1) ∧
      s1.items = 0 ∧ s1.entries = [] ∧ (∀ j, s1.chain j = []) ∧ s1.size = s.size) ∧
    ntt_destroy none fuel = destroy_result.returned (-1) none := by
  refine ⟨?_, rfl⟩
  obtain ⟨s1, e1, e2, e3, e4⟩ := destroy_loop_spec fuel s hinv _ _
    (c_ntt_first_at_head s hinv) hfuel
  have hent := entries_nil_of_chains s1 e4
  refine ⟨s1, ?_, ?_, hent, e4, e2⟩
  · simp only [ntt_destroy, e1]
  · rw [e3.counted, hent]; rfl

theorem warm_table_inv : ntt_inv warm_table :=
  reachable_inv _
    (reachable.access _ warm_table default_config 1000 (fun _ => 7) req0
      (reachable.access _
        (serve default_config 1000 (fun _ => 7) req0
          (serve default_config 1000 (fun _ => 7) req0 table53))
        default_config 1000 (fun _ => 7) req0
        (reachable.access table53 (serve default_config 1000 (fun _ => 7) req0 table53)
          default_config 1000 (fun _ => 7) req0 table53_reachable (by decide))
        (by decide))
      (by decide))

/-- C15 at the table `warm_table` (three nodes). -/
theorem teardown_complete_witness :
    ntt_inv warm_table ∧
    ∃ s1, ntt_destroy (some warm_table) 4 = destroy_result.returned 0 (some s1) ∧
      s1.items = 0 := by
  refine ⟨warm_table_inv, ?_⟩
  obtain ⟨s1, e1, e2, -⟩ := (teardown_complete warm_table warm_table_inv 4 (by decide)).1
  exact ⟨s1, e1, e2⟩

/-! ## Sustained flooding -/

/-- C20 as stated fails: under `site_only_config` (`blocking_period = 10 >=
site_interval = 1`) the site tier fires on the fourth request `req0` in second 1000;
a request in second 1010 is allowed (the hold has run out and the site window has
elapsed, so the site count restarts), and the request after it, in the same second
1010 and so less than `site_interval` after its predecessor, is allowed too. -/
theorem flood_gap_counterexample :
    site_only_config.site_interval ≤ site_only_config.blocking_period ∧
    keys_fit req0 ∧ is_whitelisted site_warm_table req0.client_ip = false ∧
    tier_fires site_only_config 1000 req0 tier_id.site
      (tier_block site_only_config 1000 (fun _ => 7) req0 tier_id.page
        (tier_block site_only_config 1000 (fun _ => 7) req0 tier_id.uri
          (start_state site_warm_table))) = true ∧
    verdicts site_only_config site_warm_table
      [⟨1000, fun _ => 7, req0⟩, ⟨1010, fun _ => 7, req0⟩, ⟨1010, fun _ => 7, req0⟩] =
      [HTTP_FORBIDDEN, OK, OK] ∧
    (1010 : Int) - 1010 < site_only_config.site_interval := by
  refine ⟨by decide, by unfold keys_fit; decide, by decide, by decide, by decide, by decide⟩

theorem is_whitelisted_congr (s s2 : ntt) (ip : CStr)
    (h : ∀ k ∈ whitelist_keys ip, ntt_get s2 k = ntt_get s k) :
    is_whitelisted s2 ip = is_whitelisted s ip := by
  rw [is_whitelisted_get, is_whitelisted_get]
  generalize whitelist_keys ip = l at h
  induction l with
  | nil => rfl
  | cons k rest ih =>
    simp only [List.any_cons]
    rw [h k (List.mem_cons_self _ _), ih (fun k2 hk2 => h k2 (List.mem_cons_of_mem _ hk2))]

theorem head_ne_of_head (k ip : CStr) (hk : k.head? = some 87) (hip : ip.head? ≠ some 87) :
    k ≠ ip := by
  intro h
  rw [h] at hk
  exact hip hk

/-- The hold branch: the request is denied and only the hold node is stamped. -/
theorem access_checker_held (cfg : config) (t : Int) (uninit : CStr → Int) (s : ntt)
    (r : request_rec) (hprev : r.prev_null = true) (hmain : r.main_null = true)
    (hw : is_whitelisted s r.client_ip = false) (n : ntt_ptr) (node : ntt_node)
    (hf : ntt_find s r.client_ip = some (n, node))
    (hfresh : t - node.timestamp < cfg.blocking_period) :
    access_checker cfg t uninit (some s) r =
      { hit_list := some (ntt_modify s n (fun x => { x with timestamp := t })),
        ret := HTTP_FORBIDDEN, reason := node.reason } := by
  simp only [access_checker, hprev, hmain, hw, hf, Option.filter, hfresh, decide_True,
    Bool.and_self, if_true]
  simp

theorem hold_update_some (t code : Int) (ip : CStr) (u : Int) (f : Bool) (x : ntt_node) :
    ∃ y, hold_update t code ip u f (some x) = some y := by
  cases f
  · exact ⟨x, rfl⟩
  · exact ⟨reset_node t code x, rfl⟩

theorem hold_update_fire (t code : Int) (ip : CStr) (u : Int) (x : Option ntt_node) :
    ∃ y, hold_update t code ip u true x = some y ∧
      (x.isSome = true → y.timestamp = t) := by
  cases x with
  | none => exact ⟨fresh_node ip code u, rfl, fun h => Bool.noConfusion h⟩
  | some x => exact ⟨reset_node t code x, rfl, fun _ => rfl⟩

/-- The site tier's firing test sees the site entry as it was before the request,
when the keys of the request fit. -/
theorem site_fires_eq (cfg : config) (t : Int) (uninit : CStr → Int) (s : ntt)
    (r : request_rec) (hwf : ntt_wf s) (hfit : keys_fit r) :
    tier_fires cfg t r tier_id.site
      (tier_block cfg t uninit r tier_id.page
        (tier_block cfg t uninit r tier_id.uri (start_state s))) =
      fires_on t cfg.site_interval cfg.site_count (ntt_get s (site_key r)) := by
  obtain ⟨hu, hp, hs, hus, hps⟩ := keys_apart_of_fit r hfit
  have hwf0 : ntt_wf (start_state s).hit_list := hwf
  have hwf1 := tier_block_wf cfg t uninit r tier_id.uri _ hwf0
  rw [fires_on_get]
  simp only [tier_key, tier_interval, tier_count]
  rw [tier_block_other cfg t uninit r tier_id.page _ hwf1 hp _ (Ne.symm hps) hs,
    tier_block_other cfg t uninit r tier_id.uri _ hwf0 hu _ (Ne.symm hus) hs]
  rfl

/-- A request that goes through the tier blocks and on which the site tier fires is
denied and leaves the flood state. -/
theorem flood_state_of_site_fire (cfg : config) (t : Int) (uninit : CStr → Int) (s : ntt)
    (r : request_rec) (hwf : ntt_wf s) (hprev : r.prev_null = true)
    (hmain : r.main_null = true) (hfit : keys_fit r)
    (hhead : r.client_ip.head? ≠ some 87) (hw : is_whitelisted s r.client_ip = false)
    (hh : on_hold cfg t s r.client_ip = false)
    (hfire : fires_on t cfg.site_interval cfg.site_count (ntt_get s (site_key r)) = true) :
    (access_checker cfg t uninit (some s) r).ret = HTTP_FORBIDDEN ∧
    flood_state cfg r.client_ip t (serve cfg t uninit r s) := by
  have hac := access_checker_tiers cfg t uninit s r hprev hmain hw hh
  have hserve : serve cfg t uninit r s = (tiers cfg t uninit r s).hit_list := by
    unfold serve; rw [hac]; rfl
  obtain ⟨e1, -, -, -, e5, e6, e7, e8⟩ := tiers_effect cfg t uninit s r hwf
    (keys_apart_of_fit r hfit) (uri_key_ne_page_key_of_fit r hfit) _ _ true rfl rfl
    hfire.symm
  rw [hserve, hac]
  refine ⟨?_, e8, ?_, ?_⟩
  · simp only [e1, Bool.or_true, if_true]
  · rw [← hw]
    apply is_whitelisted_congr
    intro k hk
    obtain ⟨t1, t2, t3⟩ := tier_keys_head r hhead
    have hkh := whitelist_keys_head _ k hk
    exact e7 k (head_ne_of_head k _ hkh hhead) (fun h => t1 (h ▸ hkh))
      (fun h => t2 (h ▸ hkh)) (fun h => t3 (h ▸ hkh))
  · obtain ⟨y, hy, -⟩ := hold_update_fire t 3 r.client_ip (uninit r.client_ip)
      (hold_update t 2 r.client_ip (uninit r.client_ip)
        (fires_on t cfg.page_interval cfg.page_count (ntt_get s (page_key r)))
        (hold_update t 1 r.client_ip (uninit r.client_ip)
          (fires_on t cfg.uri_interval cfg.uri_count (ntt_get s (uri_key r)))
          (ntt_get s r.client_ip)))
    refine ⟨y, by rw [e6]; exact hy, Or.inr ?_⟩
    cases hg : ntt_get s (site_key r) with
    | none => rw [hg] at hfire; exact Bool.noConfusion hfire
    | some g =>
      rw [hg] at hfire e5
      simp only [fires_on, Bool.and_eq_true, decide_eq_true_eq] at hfire
      have e5' : ntt_get (tiers cfg t uninit r s).hit_list
          (snprintf 2048 (r.client_ip ++ [95, 83, 73, 84, 69])) = _ := e5
      refine ⟨_, e5', rfl, ?_⟩
      simp only [own_update, hit, if_true]
      rw [if_neg (by omega)]
      omega

/-- One closely following request in the flood state is denied and keeps the flood
state. -/
theorem flood_step (cfg : config) (hbp : cfg.site_interval ≤ cfg.blocking_period)
    (ip : CStr) (hhead : ip.head? ≠ some 87) (tp : Int) (s : ntt)
    (hs : flood_state cfg ip tp s) (a : arrival) (hip : a.r.client_ip = ip)
    (hprev : a.r.prev_null = true) (hmain : a.r.main_null = true) (hfit : keys_fit a.r)
    (h2 : a.t - tp < cfg.site_interval) :
    (access_checker cfg a.t a.uninit (some s) a.r).ret = HTTP_FORBIDDEN ∧
    flood_state cfg ip a.t (serve cfg a.t a.uninit a.r s) := by
  obtain ⟨hwf, hw, h, hh, hcase⟩ := hs
  subst hip
  cases hf : ntt_find s a.r.client_ip with
  | none => simp [ntt_get, hf] at hh
  | some q =>
    obtain ⟨n, node⟩ := q
    have hnode : node = h := by simpa [ntt_get, hf] using hh
    subst hnode
    by_cases hheld : a.t - node.timestamp < cfg.blocking_period
    · have hac := access_checker_held cfg a.t a.uninit s a.r hprev hmain hw n node hf hheld
      have hserve : serve cfg a.t a.uninit a.r s =
          ntt_modify s n (fun x => { x with timestamp := a.t }) := by
        unfold serve; rw [hac]; rfl
      rw [hserve, hac]
      have hg : ∀ k, ntt_get (ntt_modify s n (fun x => { x with timestamp := a.t })) k =
          if k = a.r.client_ip then some { node with timestamp := a.t } else ntt_get s k := by
        intro k
        refine (ntt_get_modify s _ n node _ ?_ hf k).trans rfl
        intro x; rfl
      refine ⟨rfl, ntt_modify_wf _ _ _ hwf, ?_, ?_⟩
      · rw [← hw]
        apply is_whitelisted_congr
        intro k hk
        rw [hg k, if_neg (head_ne_of_head k _ (whitelist_keys_head _ k hk) hhead)]
      · exact ⟨_, by rw [hg, if_pos rfl], Or.inl rfl⟩
    · have hoh : on_hold cfg a.t s a.r.client_ip = false := by
        simp [on_hold, hf, Option.filter, hheld]
      rcases hcase with hA | ⟨g, hg, hgt, hgc⟩
      · exact absurd (by omega) hheld
      · refine flood_state_of_site_fire cfg a.t a.uninit s a.r hwf hprev hmain hfit hhead hw
          hoh ?_
        have hg' : ntt_get s (site_key a.r) = some g := hg
        rw [hg']
        simp only [fires_on, Bool.and_eq_true, decide_eq_true_eq]
        exact ⟨by omega, hgc⟩

theorem flood_run (cfg : config) (hbp : cfg.site_interval ≤ cfg.blocking_period)
    (ip : CStr) (hhead : ip.head? ≠ some 87) (run : List arrival) (tp : Int) (s : ntt)
    (hs : flood_state cfg ip tp s) (hrun : close_run cfg ip tp run) :
    ∀ v ∈ verdicts cfg s run, v = HTTP_FORBIDDEN := by
  induction run generalizing tp s with
  | nil => intro v hv; simp [verdicts] at hv
  | cons a rest ih =>
    obtain ⟨c1, c2, c3, c4, c5, c6, c7⟩ := hrun
    obtain ⟨r1, r2⟩ := flood_step cfg hbp ip hhead tp s hs a c1 c2 c3 c4 c6
    intro v hv
    simp only [verdicts, List.mem_cons] at hv
    rcases hv with hv | hv
    · rw [hv]; exact r1
    · exact ih a.t _ r2 c7 v hv

/-- C20 (amended). Assume `blocking_period >= site_interval`, a table touched only
by `access_checker` calls for main requests from one address that is not
whitelisted (and does not start with `W`), non-decreasing clock readings, and keys
that fit the key buffer.  Once the site tier has fired on a request from the
address, every later request from it is denied, for any mix of hosts, paths,
queries and `Range` headers, as long as each request since that one arrived less
than `site_interval` seconds after the request before it. -/
theorem sustained_flood_denied (cfg : config)
    (hbp : cfg.site_interval ≤ cfg.blocking_period) (s : ntt) (hwf : ntt_wf s)
    (a : arrival) (hprev : a.r.prev_null = true) (hmain : a.r.main_null = true)
    (hfit : keys_fit a.r) (hhead : a.r.client_ip.head? ≠ some 87)
    (hw : is_whitelisted s a.r.client_ip = false)
    (hh : on_hold cfg a.t s a.r.client_ip = false)
    (hfire : tier_fires cfg a.t a.r tier_id.site
      (tier_block cfg a.t a.uninit a.r tier_id.page
        (tier_block cfg a.t a.uninit a.r tier_id.uri (start_state s))) = true)
    (run : List arrival) (hrun : close_run cfg a.r.client_ip a.t run) :
    (access_checker cfg a.t a.uninit (some s) a.r).ret = HTTP_FORBIDDEN ∧
    ∀ v ∈ verdicts cfg (serve cfg a.t a.uninit a.r s) run, v = HTTP_FORBIDDEN := by
  rw [site_fires_eq cfg a.t a.uninit s a.r hwf hfit] at hfire
  obtain ⟨r1, r2⟩ := flood_state_of_site_fire cfg a.t a.uninit s a.r hwf hprev hmain hfit
    hhead hw hh hfire
  exact ⟨r1, flood_run cfg hbp _ hhead run a.t _ r2 hrun⟩

theorem site_warm_table_wf : ntt_wf site_warm_table := by
  unfold ntt_wf
  decide

theorem close_run_example :
    close_run site_only_config req0.client_ip 1000
      [⟨1000, fun _ => 7, req0_range⟩, ⟨1000, fun _ => 0, req_q [97]⟩] :=
  ⟨rfl, rfl, rfl, by unfold keys_fit; decide, by decide, by decide,
    rfl, rfl, rfl, by unfold keys_fit; decide, by decide, by decide, trivial⟩

/-- C20 (amended) at a concrete run: after the site tier fired on the fourth request
`req0` in second 1000, a `Range` request and a request with another query text in
the same second are denied. -/
theorem sustained_flood_denied_witness :
    close_run site_only_config req0.client_ip 1000
      [⟨1000, fun _ => 7, req0_range⟩, ⟨1000, fun _ => 0, req_q [97]⟩] ∧
    ∀ v ∈ verdicts site_only_config
        (serve site_only_config 1000 (fun _ => 7) req0 site_warm_table)
        [⟨1000, fun _ => 7, req0_range⟩, ⟨1000, fun _ => 0, req_q [97]⟩],
      v = HTTP_FORBIDDEN :=
  ⟨close_run_example,
    (sustained_flood_denied site_only_config (by decide) site_warm_table site_warm_table_wf
      ⟨1000, fun _ => 7, req0⟩ rfl rfl (by unfold keys_fit; decide) (by decide) (by decide)
      (by decide) (by decide) _ close_run_example).2⟩
/-! ## Independence of the verdicts from unassigned counts -/

/-- An entry agrees with itself. -/
theorem same_assigned_refl (k : CStr) (x : Option ntt_node) : same_assigned k x x := by
  cases x with
  | none => trivial
  | some a => exact ⟨rfl, rfl, Or.inl rfl⟩

/-- A well-formed table agrees with itself. -/
theorem tables_agree_refl (s : ntt) (hwf : ntt_wf s) : tables_agree s s :=
  ⟨hwf, hwf, fun k => same_assigned_refl k _⟩

/-- `ntt_insert` of one key with the same timestamp and reason keeps two tables in
agreement, whatever the fresh count fields hold: a node that is created has
timestamp 0, a node that is overwritten gets the count 0. -/
theorem agree_insert (s1 s2 : ntt) (h : tables_agree s1 s2) (k : CStr)
    (ts rs now1 now2 u1 u2 : Int) :
    tables_agree (ntt_insert s1 k ts rs now1 u1).1 (ntt_insert s2 k ts rs now2 u2).1 := by
  obtain ⟨w1, w2, hv⟩ := h
  refine ⟨ntt_insert_wf _ _ _ _ _ _ w1, ntt_insert_wf _ _ _ _ _ _ w2, ?_⟩
  intro k'
  rw [ntt_get_insert s1 w1, ntt_get_insert s2 w2]
  by_cases hk : k' = k
  · simp only [if_pos hk]
    have hr := hv k
    cases h1 : ntt_get s1 k with
    | none =>
      cases h2 : ntt_get s2 k with
      | none => exact ⟨rfl, rfl, Or.inr (Or.inl rfl)⟩
      | some b => rw [h1, h2] at hr; exact hr.elim
    | some a =>
      cases h2 : ntt_get s2 k with
      | none => rw [h1, h2] at hr; exact hr.elim
      | some b => exact ⟨rfl, rfl, Or.inl rfl⟩
  · simp only [if_neg hk]
    exact hv k'

/-- Writes through the pointers `ntt_find` returned for one key keep two tables in
agreement when the written nodes agree. -/
theorem agree_modify (s1 s2 : ntt) (h : tables_agree s1 s2) (key : CStr)
    (n1 n2 : ntt_ptr) (a b : ntt_node) (f1 f2 : ntt_node → ntt_node)
    (hf1 : ∀ x, (f1 x).key = x.key) (hf2 : ∀ x, (f2 x).key = x.key)
    (h1 : ntt_find s1 key = some (n1, a)) (h2 : ntt_find s2 key = some (n2, b))
    (hab : same_assigned key (some (f1 a)) (some (f2 b))) :
    tables_agree (ntt_modify s1 n1 f1) (ntt_modify s2 n2 f2) := by
  obtain ⟨w1, w2, hv⟩ := h
  refine ⟨ntt_modify_wf _ _ _ w1, ntt_modify_wf _ _ _ w2, ?_⟩
  intro k
  rw [ntt_get_modify s1 key n1 a f1 hf1 h1, ntt_get_modify s2 key n2 b f2 hf2 h2]
  by_cases hk : k = key
  · simp only [if_pos hk]
    rw [hk]
    exact hab
  · simp only [if_neg hk]
    exact hv k

/-- In two tables that agree, `ntt_find` misses a key in both or finds nodes that agree. -/
theorem agree_find (s1 s2 : ntt) (h : tables_agree s1 s2) (k : CStr) :
    (ntt_find s1 k = none ∧ ntt_find s2 k = none) ∨
    ∃ n1 n2 a b, ntt_find s1 k = some (n1, a) ∧ ntt_find s2 k = some (n2, b) ∧
      a.reason = b.reason ∧ a.timestamp = b.timestamp ∧
      (a.count = b.count ∨ a.timestamp = 0 ∨ bare_key k) := by
  have hr := h.2.2 k
  unfold ntt_get at hr
  cases h1 : ntt_find s1 k with
  | none =>
    cases h2 : ntt_find s2 k with
    | none => exact Or.inl ⟨rfl, rfl⟩
    | some q => rw [h1, h2] at hr; exact hr.elim
  | some p =>
    cases h2 : ntt_find s2 k with
    | none => rw [h1, h2] at hr; exact hr.elim
    | some q =>
      rw [h1, h2] at hr
      exact Or.inr ⟨p.1, q.1, p.2, q.2, rfl, rfl, hr⟩

/-- The pointer `ntt_find` returned for a key still designates the node of that key
after `ntt_insert` of the address, which has reset the node when the two keys are
equal. -/
theorem find_after_hold_insert (s : ntt) (hwf : ntt_wf s) (ip key : CStr) (ts rs now u : Int)
    (n : ntt_ptr) (a : ntt_node) (h : ntt_find s key = some (n, a)) :
    ntt_find (ntt_insert s ip ts rs now u).1 key =
      some (n, if key = ip then reset_node ts rs a else a) := by
  rw [ntt_find_insert s ip ts rs now u hwf key]
  by_cases hk : key = ip
  · simp only [if_pos hk]
    rw [hk] at h
    rw [ntt_insert_of_find_some s ip ts rs now u n a h, h]
  · simp only [if_neg hk]
    exact h

/-- A tier block whose key is not a bare key, run at a clock reading that has
reached its interval, keeps two states in agreement: a count that differs belongs
to a node with timestamp 0, for which the block does not fire and zeroes the count
before it adds the hit. -/
theorem agree_tier_check (t : Int) (u1 u2 : CStr → Int) (ip key : CStr)
    (interval count code : Int) (counted : Bool) (st1 st2 : checker_state)
    (hag : tables_agree st1.hit_list st2.hit_list)
    (hret : st1.ret = st2.ret) (hreason : st1.reason = st2.reason)
    (hint : interval ≤ t) (hkey : ¬ bare_key key) :
    tables_agree (tier_check t u1 ip key interval count code counted st1).hit_list
        (tier_check t u2 ip key interval count code counted st2).hit_list ∧
      (tier_check t u1 ip key interval count code counted st1).ret =
        (tier_check t u2 ip key interval count code counted st2).ret ∧
      (tier_check t u1 ip key interval count code counted st1).reason =
        (tier_check t u2 ip key interval count code counted st2).reason := by
  rcases agree_find _ _ hag key with ⟨h1, h2⟩ | ⟨n1, n2, a, b, h1, h2, hr, hts, hc⟩
  · rw [tier_check_miss t u1 ip key interval count code counted st1 h1,
      tier_check_miss t u2 ip key interval count code counted st2 h2]
    exact ⟨agree_insert _ _ hag _ _ _ _ _ _ _, hret, hreason⟩
  · have hcnt : t - a.timestamp < interval → a.count = b.count := by
      intro hlt
      rcases hc with hc | hc | hc
      · exact hc
      · rw [hc] at hlt
        omega
      · exact (hkey hc).elim
    by_cases hq : t - a.timestamp < interval ∧ a.count ≥ count
    · have hq2 : t - b.timestamp < interval ∧ b.count ≥ count := by
        rw [← hts, ← hcnt hq.1]
        exact hq
      rw [tier_check_fire t u1 ip key interval count code counted st1 n1 a h1 hq,
        tier_check_fire t u2 ip key interval count code counted st2 n2 b h2 hq2]
      refine ⟨?_, rfl, rfl⟩
      refine agree_modify _ _ (agree_insert _ _ hag ip t code t t (u1 ip) (u2 ip)) key n1 n2
        _ _ _ _ (fun _ => rfl) (fun _ => rfl)
        (find_after_hold_insert _ hag.1 ip key t code t (u1 ip) n1 a h1)
        (find_after_hold_insert _ hag.2.1 ip key t code t (u2 ip) n2 b h2) ?_
      by_cases hk : key = ip
      · simp only [if_pos hk]
        exact ⟨rfl, rfl, Or.inl rfl⟩
      · simp only [if_neg hk]
        refine ⟨hr, rfl, Or.inl ?_⟩
        show a.count + hit counted = b.count + hit counted
        rw [hcnt hq.1]
    · have hq2 : ¬ (t - b.timestamp < interval ∧ b.count ≥ count) := by
        intro hq2
        apply hq
        rw [← hts] at hq2
        rw [hcnt hq2.1]
        exact hq2
      rw [tier_check_quiet t u1 ip key interval count code counted st1 n1 a h1 hq,
        tier_check_quiet t u2 ip key interval count code counted st2 n2 b h2 hq2]
      refine ⟨?_, hret, hreason⟩
      refine agree_modify _ _ hag key n1 n2 a b _ _ (fun _ => rfl) (fun _ => rfl) h1 h2 ?_
      refine ⟨hr, rfl, Or.inl ?_⟩
      show (if t - a.timestamp ≥ interval then 0 else a.count) + hit counted =
        (if t - b.timestamp ≥ interval then 0 else b.count) + hit counted
      rw [← hts]
      by_cases hel : t - a.timestamp ≥ interval
      · simp only [if_pos hel]
      · simp only [if_neg hel]
        rw [hcnt (by omega)]
/-- A composite key, cut to the buffer or not, is not a bare key: it has the `_`
that follows the address, or it has 2047 chars. -/
theorem composite_not_bare (ip rest : CStr) :
    ¬ bare_key (snprintf 2048 (ip ++ 95 :: rest)) := by
  rintro ⟨hno, hlen⟩
  unfold snprintf at hno hlen
  by_cases hl : ip.length ≤ 2046
  · apply hno
    rw [List.take_append_eq_append_take]
    apply List.mem_append_right
    obtain ⟨d, hd⟩ : ∃ d, 2048 - 1 - ip.length = d + 1 := ⟨2046 - ip.length, by omega⟩
    rw [hd]
    exact List.mem_cons_self _ _
  · rw [List.length_take, List.length_append, List.length_cons] at hlen
    omega

/-- No tier key is a bare key. -/
theorem tier_key_not_bare (r : request_rec) (tr : tier_id) : ¬ bare_key (tier_key r tr) := by
  cases tr
  · have h := composite_not_bare r.client_ip (r.hostname ++ us ++ r.uri ++ us ++ r.args)
    simpa [tier_key, uri_key, us, List.append_assoc] using h
  · have h := composite_not_bare r.client_ip (r.hostname ++ us ++ r.uri)
    simpa [tier_key, page_key, us, List.append_assoc] using h
  · exact composite_not_bare r.client_ip [83, 73, 84, 69]

/-- The whitelist test has the same result on two tables that agree. -/
theorem agree_whitelisted (s1 s2 : ntt) (h : tables_agree s1 s2) (ip : CStr) :
    is_whitelisted s1 ip = is_whitelisted s2 ip := by
  have hfun : (fun k => (ntt_get s1 k).isSome) = (fun k => (ntt_get s2 k).isSome) := by
    funext k
    have hr := h.2.2 k
    cases h1 : ntt_get s1 k with
    | none =>
      cases h2 : ntt_get s2 k with
      | none => rfl
      | some b => rw [h1, h2] at hr; exact hr.elim
    | some a =>
      cases h2 : ntt_get s2 k with
      | none => rw [h1, h2] at hr; exact hr.elim
      | some b => rfl
  rw [is_whitelisted_get, is_whitelisted_get, hfun]

/-- The `whitelist` directive keeps two tables in agreement. -/
theorem agree_whitelist (s1 s2 : ntt) (h : tables_agree s1 s2) (ip : CStr) (now u1 u2 : Int) :
    tables_agree (whitelist s1 ip now u1) (whitelist s2 ip now u2) :=
  agree_insert s1 s2 h _ now 0 now now u1 u2

/-- An address without a node is not on hold. -/
theorem on_hold_of_find_none (cfg : config) (t : Int) (s : ntt) (ip : CStr)
    (h : ntt_find s ip = none) : on_hold cfg t s ip = false := by
  simp [on_hold, h]

/-- An address whose node is older than the blocking period is not on hold. -/
theorem on_hold_of_find_some (cfg : config) (t : Int) (s : ntt) (ip : CStr) (n : ntt_ptr)
    (a : ntt_node) (h : ntt_find s ip = some (n, a))
    (hx : ¬ t - a.timestamp < cfg.blocking_period) : on_hold cfg t s ip = false := by
  simp [on_hold, h, Option.filter, hx]

/-- The three tier blocks keep two tables in agreement and give the same value and
reason. -/
theorem agree_tiers (cfg : config) (t : Int) (u1 u2 : CStr → Int) (r : request_rec)
    (s1 s2 : ntt) (hag : tables_agree s1 s2)
    (hint : cfg.uri_interval ≤ t ∧ cfg.page_interval ≤ t ∧ cfg.site_interval ≤ t) :
    tables_agree (tiers cfg t u1 r s1).hit_list (tiers cfg t u2 r s2).hit_list ∧
      (tiers cfg t u1 r s1).ret = (tiers cfg t u2 r s2).ret ∧
      (tiers cfg t u1 r s1).reason = (tiers cfg t u2 r s2).reason := by
  have h1 := agree_tier_check t u1 u2 r.client_ip (uri_key r) cfg.uri_interval cfg.uri_count 1
    (!has_request_header r Range) (start_state s1) (start_state s2) hag rfl rfl hint.1
    (tier_key_not_bare r tier_id.uri)
  have h2 := agree_tier_check t u1 u2 r.client_ip (page_key r) cfg.page_interval
    cfg.page_count 2 (!has_request_header r Range) _ _ h1.1 h1.2.1 h1.2.2 hint.2.1
    (tier_key_not_bare r tier_id.page)
  exact agree_tier_check t u1 u2 r.client_ip (site_key r) cfg.site_interval
    cfg.site_count 3 true _ _ h2.1 h2.2.1 h2.2.2 hint.2.2
    (tier_key_not_bare r tier_id.site)

/-- One call of `access_checker` on two tables that agree gives the same value and
reason and leaves tables that agree. -/
theorem agree_access_checker (cfg : config) (t : Int) (u1 u2 : CStr → Int) (r : request_rec)
    (s1 s2 : ntt) (hag : tables_agree s1 s2)
    (hint : cfg.uri_interval ≤ t ∧ cfg.page_interval ≤ t ∧ cfg.site_interval ≤ t)
    (hhold : cfg.blocking_period ≤ t ∨ bare_key r.client_ip) :
    (access_checker cfg t u1 (some s1) r).ret = (access_checker cfg t u2 (some s2) r).ret ∧
      (access_checker cfg t u1 (some s1) r).reason =
        (access_checker cfg t u2 (some s2) r).reason ∧
      tables_agree (serve cfg t u1 r s1) (serve cfg t u2 r s2) := by
  unfold serve
  by_cases hm : (r.prev_null && r.main_null) = true
  · have hw := agree_whitelisted s1 s2 hag r.client_ip
    cases hw1 : is_whitelisted s1 r.client_ip with
    | true =>
      have hw2 : is_whitelisted s2 r.client_ip = true := by rw [← hw, hw1]
      simp only [access_checker, hm, hw1, hw2, if_true, Option.getD_some]
      exact ⟨trivial, trivial, hag⟩
    | false =>
      have hw2 : is_whitelisted s2 r.client_ip = false := by rw [← hw, hw1]
      have hp : r.prev_null = true := by
        cases hpp : r.prev_null with
        | true => rfl
        | false => rw [hpp] at hm; exact absurd hm (by simp)
      have hmn : r.main_null = true := by
        rw [hp] at hm
        exact hm
      rcases agree_find _ _ hag r.client_ip with
        ⟨h1, h2⟩ | ⟨n1, n2, a, b, h1, h2, hr, hts, hc⟩
      · rw [access_checker_tiers cfg t u1 s1 r hp hmn hw1 (on_hold_of_find_none cfg t s1 _ h1),
          access_checker_tiers cfg t u2 s2 r hp hmn hw2 (on_hold_of_find_none cfg t s2 _ h2)]
        have h := agree_tiers cfg t u1 u2 r s1 s2 hag hint
        exact ⟨h.2.1, h.2.2, h.1⟩
      · by_cases hx : t - a.timestamp < cfg.blocking_period
        · have hx2 : t - b.timestamp < cfg.blocking_period := by rw [← hts]; exact hx
          rw [access_checker_held cfg t u1 s1 r hp hmn hw1 n1 a h1 hx,
            access_checker_held cfg t u2 s2 r hp hmn hw2 n2 b h2 hx2]
          refine ⟨rfl, hr, ?_⟩
          simp only [Option.getD_some]
          refine agree_modify _ _ hag r.client_ip n1 n2 a b _ _ (fun _ => rfl) (fun _ => rfl)
            h1 h2 ⟨hr, rfl, ?_⟩
          rcases hc with hc | hc | hc
          · exact Or.inl hc
          · rcases hhold with hb | hb
            · rw [hc] at hx
              omega
            · exact Or.inr (Or.inr hb)
          · exact Or.inr (Or.inr hc)
        · have hx2 : ¬ t - b.timestamp < cfg.blocking_period := by rw [← hts]; exact hx
          rw [access_checker_tiers cfg t u1 s1 r hp hmn hw1
              (on_hold_of_find_some cfg t s1 _ n1 a h1 hx),
            access_checker_tiers cfg t u2 s2 r hp hmn hw2
              (on_hold_of_find_some cfg t s2 _ n2 b h2 hx2)]
          have h := agree_tiers cfg t u1 u2 r s1 s2 hag hint
          exact ⟨h.2.1, h.2.2, h.1⟩
  · simp only [access_checker, hm, Option.getD_some]
    exact ⟨rfl, rfl, hag⟩

/-- A run gives the same values and reasons from two tables that agree. -/
theorem agree_replay (cfg : config) (u1 u2 : Nat → CStr → Int) (run : List event) :
    ∀ (i : Nat) (s1 s2 : ntt), tables_agree s1 s2 →
      (∀ e ∈ run, past_intervals cfg e ∧ hold_safe cfg e) →
      replay cfg u1 i s1 run = replay cfg u2 i s2 run := by
  induction run with
  | nil => intro i s1 s2 _ _; rfl
  | cons e rest ih =>
    intro i s1 s2 hag hall
    have hrest : ∀ e ∈ rest, past_intervals cfg e ∧ hold_safe cfg e :=
      fun x hx => hall x (List.mem_cons_of_mem _ hx)
    cases e with
    | addition ip now =>
      simp only [replay]
      exact ih _ _ _ (agree_whitelist s1 s2 hag ip now _ _) hrest
    | request t r =>
      have he := hall (event.request t r) (List.mem_cons_self _ _)
      have h := agree_access_checker cfg t (u1 i) (u2 i) r s1 s2 hag he.1 he.2
      simp only [replay]
      rw [h.1, h.2.1, ih _ _ _ h.2.2 hrest]
/-- A run leaves tables that agree when it starts from tables that agree. -/
theorem agree_replay_table (cfg : config) (u1 u2 : Nat → CStr → Int) (run : List event) :
    ∀ (i : Nat) (s1 s2 : ntt), tables_agree s1 s2 →
      (∀ e ∈ run, past_intervals cfg e ∧ hold_safe cfg e) →
      tables_agree (replay_table cfg u1 i s1 run) (replay_table cfg u2 i s2 run) := by
  induction run with
  | nil => intro i s1 s2 hag _; exact hag
  | cons e rest ih =>
    intro i s1 s2 hag hall
    have hrest : ∀ e ∈ rest, past_intervals cfg e ∧ hold_safe cfg e :=
      fun x hx => hall x (List.mem_cons_of_mem _ hx)
    cases e with
    | addition ip now =>
      simp only [replay_table]
      exact ih _ _ _ (agree_whitelist s1 s2 hag ip now _ _) hrest
    | request t r =>
      have he := hall (event.request t r) (List.mem_cons_self _ _)
      have h := agree_access_checker cfg t (u1 i) (u2 i) r s1 s2 hag he.1 he.2
      simp only [replay_table]
      exact ih _ _ _ h.2.2 hrest

/-- C21 as stated fails.  Under `long_hold_config` (the defaults with a blocking
period of 2000000000 s) and the clock reading 1700000000, which is past the three
intervals: four requests for one page with different query texts make the page tier
fire, which creates the hold entry of the address with timestamp 0 and an unassigned
count; the fifth request is denied by the hold check (`t - 0 < blocking_period`),
which stamps that entry with `t` and leaves its count unassigned (last conjunct, for
the address `1.2.3.4` and 7 in the unassigned field).  When the address text is
`1.2.3.4_SITE`, that hold entry is the site entry of the address `1.2.3.4`: the
request `req0` that follows in the same second is allowed when the unassigned field
held 0 and denied by the site tier when it held 50. -/
theorem stamped_hold_count_counterexample :
    (∀ e ∈ collide_run, past_intervals long_hold_config e) ∧
    replay long_hold_config (fun _ _ => 0) 0 table53 collide_run =
      [(OK, 0), (OK, 0), (OK, 0), (HTTP_FORBIDDEN, 2), (HTTP_FORBIDDEN, 2), (OK, 0)] ∧
    replay long_hold_config (fun _ _ => 50) 0 table53 collide_run =
      [(OK, 0), (OK, 0), (OK, 0), (HTTP_FORBIDDEN, 2), (HTTP_FORBIDDEN, 2),
        (HTTP_FORBIDDEN, 3)] ∧
    ntt_get (replay_table long_hold_config (fun _ _ => 7) 0 table53
        (five_pages (cstr "1.2.3.4"))) (cstr "1.2.3.4") =
      some { key := cstr "1.2.3.4", reason := 2, timestamp := 1700000000, count := 7 } := by
  refine ⟨by decide, by decide, by decide, by decide⟩

/-- C21 (amended).  `ntt_insert` leaves the count field of a node it creates as it
was allocated (first conjunct).  For every run of `whitelist` directives and
`access_checker` calls from a well-formed table, in which every request has a clock
reading that has reached the three intervals, and either has reached the blocking
period too or comes from an address text without `'_'` that is shorter than 2047
chars: the values returned and the reason codes are the same for any two contents
`u1`, `u2` of the count fields of freshly allocated nodes (second conjunct), and in
the two tables the runs leave, every key has the same reason and timestamp and,
unless the timestamp is 0 or the key is such an address text, the same count (third
conjunct). -/
theorem verdicts_ignore_fresh_counts (cfg : config) (s : ntt) (hwf : ntt_wf s)
    (run : List event) (hclock : ∀ e ∈ run, past_intervals cfg e)
    (hhold : ∀ e ∈ run, hold_safe cfg e) (u1 u2 : Nat → CStr → Int) :
    (∀ (key : CStr) (ts rs now u : Int), ntt_find s key = none →
      ntt_get (ntt_insert s key ts rs now u).1 key =
        some { key := key, reason := rs, timestamp := 0, count := u }) ∧
    replay cfg u1 0 s run = replay cfg u2 0 s run ∧
    tables_agree (replay_table cfg u1 0 s run) (replay_table cfg u2 0 s run) := by
  have hall : ∀ e ∈ run, past_intervals cfg e ∧ hold_safe cfg e :=
    fun e he => ⟨hclock e he, hhold e he⟩
  refine ⟨?_, agree_replay cfg u1 u2 run 0 s s (tables_agree_refl s hwf) hall,
    agree_replay_table cfg u1 u2 run 0 s s (tables_agree_refl s hwf) hall⟩
  intro key ts rs now u hnone
  rw [ntt_get_insert s hwf key ts rs now u key, if_pos rfl,
    (ntt_get_eq_none s key).mpr hnone]
  rfl

/-- C21 (amended) at a concrete run: under `long_hold_config`, the five requests of
`five_pages` and the request `req0`, all from `1.2.3.4` in second 1700000000, get the
same values and reasons whether fresh count fields hold 0 or 50. -/
theorem verdicts_ignore_fresh_counts_witness :
    ntt_wf table53 ∧ (∀ e ∈ plain_run, past_intervals long_hold_config e) ∧
    (∀ e ∈ plain_run, hold_safe long_hold_config e) ∧
    replay long_hold_config (fun _ _ => 0) 0 table53 plain_run =
      replay long_hold_config (fun _ _ => 50) 0 table53 plain_run :=
  ⟨table53_wf, by decide, by decide,
    (verdicts_ignore_fresh_counts long_hold_config table53 table53_wf plain_run
      (by decide) (by decide) (fun _ _ => 0) (fun _ _ => 50)).2.1⟩
/-! ## Key separation -/

/-- Two keys for which `ntt_find` returns the same node are equal. -/
theorem ntt_find_ptr_injective (s : ntt) (k1 k2 : CStr) (p1 p2 : ntt_ptr) (n1 n2 : ntt_node)
    (h1 : ntt_find s k1 = some (p1, n1)) (h2 : ntt_find s k2 = some (p2, n2))
    (hp : p1 = p2) : k1 = k2 := by
  obtain ⟨_, _, hd1, hk1⟩ := ntt_find_some s k1 p1 n1 h1
  obtain ⟨_, _, hd2, hk2⟩ := ntt_find_some s k2 p2 n2 h2
  rw [hp, hd2] at hd1
  have hn : n2 = n1 := Option.some.inj hd1
  rw [← hk1, ← hk2, hn]

/-- C22. For every request whose composite keys fit the 2048-byte buffer
`hash_key` without truncation, the four keys `access_checker` uses (the bare client
address for the hold entry, the URI key, the page key and the site key) are
pairwise distinct, whatever the address, host, uri and args are; and in every table
the nodes `ntt_find` returns for two different keys are different nodes, so the
request never reads or writes one node under two roles. -/
theorem key_separation (r : request_rec) (h : keys_fit r) :
    [r.client_ip, uri_key r, page_key r, site_key r].Nodup ∧
    ∀ (s : ntt) (k1 k2 : CStr) (p1 p2 : ntt_ptr) (n1 n2 : ntt_node), k1 ≠ k2 →
      ntt_find s k1 = some (p1, n1) → ntt_find s k2 = some (p2, n2) → p1 ≠ p2 := by
  obtain ⟨hu, hp, hs, hus, hps⟩ := keys_apart_of_fit r h
  have hup := uri_key_ne_page_key_of_fit r h
  refine ⟨?_, ?_⟩
  · simp only [List.nodup_cons, List.mem_cons, List.mem_singleton, List.not_mem_nil,
      not_or, List.nodup_nil, and_true, not_false_eq_true]
    exact ⟨⟨fun e => hu e.symm, fun e => hp e.symm, fun e => hs e.symm⟩, ⟨hup, hus⟩, hps⟩
  · intro s k1 k2 p1 p2 n1 n2 hne h1 h2 hpp
    exact hne (ntt_find_ptr_injective s k1 k2 p1 p2 n1 n2 h1 h2 hpp)

/-- C22 at the request `req0`: its four keys `1.2.3.4`, `1.2.3.4_h_/_`, `1.2.3.4_h_/`
and `1.2.3.4_SITE` are pairwise distinct. -/
theorem key_separation_witness :
    keys_fit req0 ∧ [req0.client_ip, uri_key req0, page_key req0, site_key req0].Nodup :=
  ⟨by unfold keys_fit; decide, (key_separation req0 (by unfold keys_fit; decide)).1⟩

end ModEvasive
